import Mathlib

/-!
# mig-controller: migration task engine

A shallow embedding of the progress extractor, the backup and restore builders and
queries, the replication check, the byte formatter
(`pkg/controller/migmigration/backup.go`, `restore.go`), the token authorization probe
(`pkg/apis/migration/v1alpha1/migtoken_types.go`) and the task state machine
(`pkg/velerorunner/task.go`).

Conventions of the embedding:
* Go `string` is `String`; `[]T` is `List T`; a nillable pointer or slice is `Option`.
* Go `map[string]T` is an association list with pairwise distinct keys (`GoMap`).
* Go `int64` / `int` are `Int`; wrap-around is made explicit with `wrapInt64`.
* A run-time panic (nil dereference, index out of range) is the result `none`.
* `time.Now()` is a clock `Nat → Time` read at an explicit tick counter.
* A remote cluster is the list of objects it stores; functions that talk to a cluster
  return the requests they sent next to their result.
* Methods and constants that other files declare are parameters.
-/

set_option maxRecDepth 100000

namespace MigController

/-! ## Go runtime primitives -/

/-- Pieces of a character list between occurrences of `sep` (never the empty list). -/
def splitChars (sep : Char) : List Char → List (List Char)
  | [] => [[]]
  | c :: cs =>
    if c = sep then [] :: splitChars sep cs
    else
      match splitChars sep cs with
      | [] => [[c]]
      | p :: ps => (c :: p) :: ps

/-- Go `strings.Split(s, sep)` for a one-character separator. -/
def stringsSplit (s : String) (sep : Char) : List String :=
  (splitChars sep s.data).map String.mk

/-- Go `map[string]β`: association list, keys pairwise distinct. -/
abbrev GoMap (β : Type) := List (String × β)

/-- Go `m[k]` read with presence flag. -/
def mapGet {β : Type} (m : GoMap β) (k : String) : Option β :=
  match m with
  | [] => none
  | (k', v) :: rest => if k' = k then some v else mapGet rest k

/-- Go `m[k] = v`: overwrite an existing key in place, otherwise add the key. -/
def mapSet {β : Type} (m : GoMap β) (k : String) (v : β) : GoMap β :=
  match m with
  | [] => [(k, v)]
  | (k', v') :: rest => if k' = k then (k, v) :: rest else (k', v') :: mapSet rest k v

/-- Go `len(m)`. -/
def mapLen {β : Type} (m : GoMap β) : Nat := m.length

/-! ## Restore objects (velero `Restore`, fields used by the controller) -/

/-- Velero `RestoreSpec`, fields written by `updateRestore`. -/
structure RestoreSpec where
  BackupName : String
  RestorePVs : Option Bool
  ExcludedResources : List String
  NamespaceMapping : Option (GoMap String)
deriving DecidableEq, Repr

/-- Velero `RestoreStatus`, fields read by the controller. -/
structure RestoreStatus where
  Phase : String
  ValidationErrors : List String
deriving DecidableEq, Repr

/-- Velero `Restore`. -/
structure Restore where
  Kind : String
  Namespace : String
  Name : String
  GenerateName : String
  Labels : GoMap String
  Annotations : GoMap String
  Spec : RestoreSpec
  Status : RestoreStatus
deriving DecidableEq, Repr

/-- Body of the `for _, namespace := range t.namespaces()` loop of
`updateNamespaceMapping` (restore.go:378-388). -/
def namespaceMappingStep (namespaceMapping : GoMap String) (ns : String) : GoMap String :=
  match stringsSplit ns ':' with
  | [m0, m1] =>
    if m0 = m1 then namespaceMapping
    else if m1 ≠ "" then mapSet namespaceMapping m0 m1
    else namespaceMapping
  | _ => namespaceMapping

/-- `Task.updateNamespaceMapping` (restore.go:376-393); `namespaces` is `t.namespaces()`. -/
def updateNamespaceMapping (namespaces : List String) (restore : Restore) : Restore :=
  let namespaceMapping := namespaces.foldl namespaceMappingStep []
  if mapLen namespaceMapping ≠ 0 then
    { restore with Spec := { restore.Spec with NamespaceMapping := some namespaceMapping } }
  else restore

/-- `Task.updateRestore` (restore.go:365-373); `resourceList` is
`t.PlanResources.MigPlan.Status.ResourceList()`. -/
def updateRestore (namespaces resourceList : List String) (restore : Restore)
    (backupName : String) : Restore :=
  updateNamespaceMapping namespaces
    { restore with
      Spec := { BackupName := backupName, RestorePVs := some true,
                ExcludedResources := resourceList, NamespaceMapping := none } }

/-! ## Integers, time and the byte formatter (backup.go:518-533) -/

/-- Instant of the wall clock, in nanoseconds. -/
abbrev Time := Int

/-- Smallest `int64`. -/
def minInt64 : Int := -(2 ^ 63)

/-- Largest `int64`. -/
def maxInt64 : Int := 2 ^ 63 - 1

/-- Value is representable as a Go `int64`. -/
def IsInt64 (x : Int) : Prop := minInt64 ≤ x ∧ x ≤ maxInt64

instance (x : Int) : Decidable (IsInt64 x) := inferInstanceAs (Decidable (_ ∧ _))

/-- Two's-complement wrap-around of `int64` arithmetic. -/
def wrapInt64 (x : Int) : Int := (x + 2 ^ 63) % 2 ^ 64 - 2 ^ 63

/-- Go `time.Time.Sub`: the difference as a `Duration`, saturated to the `int64` range. -/
def timeSub (t u : Time) : Int :=
  let d := t - u
  if d < minInt64 then minInt64 else if maxInt64 < d then maxInt64 else d

/-- What the Go runtime supplies: the successive readings of `time.Now()` and
`time.Duration.String` (the `%s` rendering of a duration). -/
structure Runtime where
  now : Nat → Time
  durationString : Int → String

/-- Length of the binary expansion, by halving with fuel. -/
def bitLenAux : Nat → Nat → Nat
  | 0, _ => 0
  | fuel + 1, n => if n = 0 then 0 else bitLenAux fuel (n / 2) + 1

/-- Number of binary digits of `n` (`0` for `0`). -/
def bitLen (n : Nat) : Nat := bitLenAux n n

/-- Nearest natural number to `n / d`, ties to the even one. -/
def roundHalfEven (n d : Nat) : Nat :=
  let q := n / d
  let r := n % d
  if 2 * r < d then q else if d < 2 * r then q + 1 else if q % 2 = 0 then q else q + 1

/-- Positive finite IEEE-754 binary64 value `m * 2 ^ e` (53-bit significand `m`). -/
structure Float64 where
  m : Nat
  e : Int
deriving DecidableEq, Repr

/-- The rational number that a `Float64` denotes. -/
def Float64.toRat (x : Float64) : ℚ := (x.m : ℚ) * (2 : ℚ) ^ x.e

/-- Floor of the binary logarithm of `a / b`, for positive `a` and `b`. -/
def floorLog2 (a b : Nat) : Int :=
  let l : Int := (bitLen a : Int) - (bitLen b : Int)
  if (if 0 ≤ l then b * 2 ^ l.toNat ≤ a else b ≤ a * 2 ^ (-l).toNat) then l else l - 1

/-- Round the positive rational `a / b` to the nearest binary64 value, ties to even
(normal range; neither overflow nor subnormals arise from `int64` operands). -/
def roundFloat64 (a b : Nat) : Float64 :=
  let e : Int := floorLog2 a b - 52
  if 0 ≤ e then ⟨roundHalfEven a (b * 2 ^ e.toNat), e⟩
  else ⟨roundHalfEven (a * 2 ^ (-e).toNat) b, e⟩

/-- IEEE-754 division of positive values: the exact quotient, correctly rounded. -/
def Float64.div (x y : Float64) : Float64 :=
  let d : Int := x.e - y.e
  if 0 ≤ d then roundFloat64 (x.m * 2 ^ d.toNat) y.m
  else roundFloat64 x.m (y.m * 2 ^ (-d).toNat)

/-- The value in hundredths, rounded to nearest with ties to even, as `%.2f` rounds
(Go `strconv` rounds the exact binary value). -/
def Float64.hundredths (x : Float64) : Nat :=
  if 0 ≤ x.e then 100 * x.m * 2 ^ x.e.toNat else roundHalfEven (100 * x.m) (2 ^ (-x.e).toNat)

/-- ASCII digit of `d % 10`. -/
def digitChar (d : Nat) : Char := Char.ofNat (48 + d % 10)

/-- `%.2f` applied to a number of hundredths: integer part, point, two digits. -/
def fmtHundredths (h : Nat) : String :=
  toString (h / 100) ++ "." ++ String.mk [digitChar (h / 10), digitChar h]

/-- Go `fmt.Sprintf("%.2f", x)` for a positive finite `x`. -/
def fmtFloat2 (x : Float64) : String := fmtHundredths x.hundredths

/-- Constant `baseUnit` of `bytesToSI`. -/
def baseUnit : Int := 1000

/-- Constant `siUnits` of `bytesToSI`. -/
def siUnits : String := "kMGTPE"

/-- The loop `for n := bytes / baseUnit; n >= baseUnit; n /= baseUnit { div *= baseUnit; exp++ }`
with state `(n, div, exp)`; `none` when the fuel is exhausted. -/
def bytesToSILoop : Nat → Int → Int → Nat → Option (Int × Nat)
  | 0, _, _, _ => none
  | fuel + 1, n, div, exp =>
    if n ≥ baseUnit then
      bytesToSILoop fuel (Int.tdiv n baseUnit) (wrapInt64 (div * baseUnit)) (exp + 1)
    else some (div, exp)

/-- `bytesToSI` (backup.go:520-533). `none` stands for a run that yields no string:
an index panic at `siUnits[exp]`, exhausted fuel, or a divisor that wrapped to a
non-positive value (the float model covers positive operands only). -/
def bytesToSI (bytes : Int) : Option String :=
  if bytes < baseUnit then some (toString bytes ++ " bytes")
  else
    match bytesToSILoop bytes.toNat (Int.tdiv bytes baseUnit) baseUnit 0 with
    | none => none
    | some (div, exp) =>
      match siUnits.data[exp]? with
      | none => none
      | some c =>
        if 0 < div then
          some (fmtFloat2 ((roundFloat64 bytes.toNat 1).div (roundFloat64 div.toNat 1))
            ++ " " ++ String.mk [c] ++ "B")
        else none

/-- Go conversion `string(i)` of an integer: the UTF-8 text of the code point `i`,
or U+FFFD when `i` is not a valid code point. -/
def goStringOfInt (i : Int) : String :=
  if 0 ≤ i ∧ Nat.isValidChar i.toNat then String.singleton (Char.ofNat i.toNat)
  else String.singleton (Char.ofNat 0xFFFD)

/-- The unit literals of `bytesToSI`, by exponent: `bytes`, then one per letter of `siUnits`. -/
def unitLiterals : List String := ["bytes", "kB", "MB", "GB", "TB", "PB", "EB"]

/-- Text made of decimal digits and the decimal point only. -/
def NumericText (s : String) : Prop := ∀ c ∈ s.data, c.isDigit = true ∨ c = '.'

/-! ## Velero and migration API objects

The velero types and phase constants belong to the velero API package, which the
controller imports; they are written here with the fields the controller uses. -/

/-- Velero `PodVolumeOperationProgress`. -/
structure PodVolumeOperationProgress where
  TotalBytes : Int
  BytesDone : Int
deriving DecidableEq, Repr

/-- Status shared by velero `PodVolumeBackup` and `PodVolumeRestore`. -/
structure PodVolumeStatus where
  Phase : String
  StartTimestamp : Option Time
  CompletionTimestamp : Option Time
  Progress : PodVolumeOperationProgress
deriving DecidableEq, Repr

/-- Velero `PodVolumeBackup`. -/
structure PodVolumeBackup where
  Kind : String
  Namespace : String
  Name : String
  Status : PodVolumeStatus
deriving DecidableEq, Repr

/-- Velero `PodVolumeRestore`. -/
structure PodVolumeRestore where
  Kind : String
  Namespace : String
  Name : String
  Status : PodVolumeStatus
deriving DecidableEq, Repr

/-- Velero `BackupProgress`. -/
structure BackupProgress where
  TotalItems : Int
  ItemsBackedUp : Int
deriving DecidableEq, Repr

/-- Velero `BackupStatus`, fields read by the controller; `Progress` is a pointer. -/
structure BackupStatus where
  Phase : String
  ValidationErrors : List String
  StartTimestamp : Option Time
  CompletionTimestamp : Option Time
  Progress : Option BackupProgress
deriving DecidableEq, Repr

/-- Velero `BackupSpec`, the fields that `buildBackup` and the ensure functions assign (the
`Hooks` value, always empty, is left out). `LabelSelector` is a pointer to a selector, given
by its `MatchLabels`; `TTL` is a duration in nanoseconds. -/
structure BackupSpec where
  IncludedNamespaces : List String
  IncludedResources : List String
  ExcludedResources : List String
  LabelSelector : Option (GoMap String)
  StorageLocation : String
  VolumeSnapshotLocations : List String
  TTL : Int
  IncludeClusterResources : Option Bool
deriving DecidableEq, Repr

/-- Velero `Backup`. -/
structure Backup where
  Kind : String
  Namespace : String
  Name : String
  GenerateName : String
  Labels : GoMap String
  Annotations : GoMap String
  Spec : BackupSpec
  Status : BackupStatus
deriving DecidableEq, Repr

/-- Modelled from the spec: the migration API type `Progress` (the spec's `ProgressEntry`:
message, created-at, last-updated-at, raw map), whose declaration is not among the sources.
The fields are those that `backup.go` and `restore.go` assign; `RawProgress` is a map that
may be nil. -/
structure Progress where
  Message : String
  CreatedTimestamp : Option Time
  LastUpdated : Option Time
  RawProgress : Option (GoMap String)
deriving DecidableEq, Repr

/-- Zero value `migapi.Progress{}`. -/
def Progress.zero : Progress := ⟨"", none, none, none⟩

/-- Modelled from the spec: the migration `Task` (phase, errors, last computed progress),
whose declaration is not among the sources. Of its fields the progress functions assign
`Progress` only. -/
structure Task where
  Phase : String
  Errors : List String
  Progress : List Progress
deriving DecidableEq, Repr

/-- Velero phase constant `InProgress` of pod-volume backups and restores. -/
abbrev PodVolumePhaseInProgress : String := "InProgress"
/-- Velero phase constant `Completed` of pod-volume backups and restores. -/
abbrev PodVolumePhaseCompleted : String := "Completed"
/-- Velero phase constant `Failed` of pod-volume backups and restores. -/
abbrev PodVolumePhaseFailed : String := "Failed"

/-- Velero phase constant `New` of backups and restores. -/
abbrev PhaseNew : String := "New"
/-- Velero phase constant `InProgress` of backups and restores. -/
abbrev PhaseInProgress : String := "InProgress"
/-- Velero phase constant `Completed` of backups and restores. -/
abbrev PhaseCompleted : String := "Completed"
/-- Velero phase constant `Failed` of backups and restores. -/
abbrev PhaseFailed : String := "Failed"
/-- Velero phase constant `PartiallyFailed` of backups and restores. -/
abbrev PhasePartiallyFailed : String := "PartiallyFailed"
/-- Velero phase constant `FailedValidation` of backups and restores. -/
abbrev PhaseFailedValidation : String := "FailedValidation"

/-- Order of Go string comparison (`sort.Strings`): lexicographic on the code points. -/
def keyLE (a b : String) : Prop := a.data ≤ b.data

instance : DecidableRel keyLE := fun a b => inferInstanceAs (Decidable (a.data ≤ b.data))

/-- Go `sort.Strings`. -/
def sortStrings (keys : List String) : List String := keys.insertionSort keyLE

/-! ## Progress extractor (backup.go:162-326, restore.go:158-320) -/

/-- `Task.Message` (backup.go:162-181). Takes the clock tick and returns the next one:
`time.Now()` is read only when `CompletionTimestamp` is nil. -/
def Message (rt : Runtime) (tick : Nat) (pvb : PodVolumeBackup) (msg : String) :
    Option (Progress × Nat) :=
  let lastUpdated : Option Time × Nat :=
    match pvb.Status.CompletionTimestamp with
    | some c => (some c, tick)
    | none => (some (rt.now tick), tick + 1)
  let raw : GoMap String :=
    [("Kind", pvb.Kind), ("Name", pvb.Name), ("Namespace", pvb.Namespace)]
  if pvb.Status.Progress ≠ ⟨0, 0⟩ then
    match bytesToSI pvb.Status.Progress.TotalBytes, bytesToSI pvb.Status.Progress.BytesDone with
    | some total, some bytesDone =>
      some (⟨msg, pvb.Status.StartTimestamp, lastUpdated.1,
        some (mapSet (mapSet raw "TotalBytes" total) "BytesDone" bytesDone)⟩, lastUpdated.2)
    | _, _ => none
  else some (⟨msg, pvb.Status.StartTimestamp, lastUpdated.1, some raw⟩, lastUpdated.2)

/-- `Task.PVRMessage` (restore.go:158-177). -/
def PVRMessage (rt : Runtime) (tick : Nat) (pvr : PodVolumeRestore) (msg : String) :
    Option (Progress × Nat) :=
  let lastUpdated : Option Time × Nat :=
    match pvr.Status.CompletionTimestamp with
    | some c => (some c, tick)
    | none => (some (rt.now tick), tick + 1)
  let raw : GoMap String :=
    [("Kind", pvr.Kind), ("Name", pvr.Name), ("Namespace", pvr.Namespace)]
  if pvr.Status.Progress ≠ ⟨0, 0⟩ then
    match bytesToSI pvr.Status.Progress.TotalBytes, bytesToSI pvr.Status.Progress.BytesDone with
    | some total, some bytesDone =>
      some (⟨msg, pvr.Status.StartTimestamp, lastUpdated.1,
        some (mapSet (mapSet raw "TotalBytes" total) "BytesDone" bytesDone)⟩, lastUpdated.2)
    | _, _ => none
  else some (⟨msg, pvr.Status.StartTimestamp, lastUpdated.1, some raw⟩, lastUpdated.2)

/-- The `switch pvb.Status.Phase` of `getPodVolumeBackupsProgress` (backup.go:194-222):
the new value of the loop variable `msg` and the next clock tick. A nil timestamp that
is dereferenced is a panic (`none`). -/
def pvbSwitch (rt : Runtime) (tick : Nat) (msg : Progress) (pvb : PodVolumeBackup) :
    Option (Progress × Nat) :=
  if pvb.Status.Phase = PodVolumePhaseInProgress then
    match bytesToSI pvb.Status.Progress.BytesDone, bytesToSI pvb.Status.Progress.TotalBytes,
      pvb.Status.StartTimestamp with
    | some bytesDone, some total, some start =>
      Message rt (tick + 1) pvb
        ("PodVolumeBackup " ++ pvb.Namespace ++ "/" ++ pvb.Name ++ ": " ++ bytesDone ++
          " out of " ++ total ++ " backed up (" ++
          rt.durationString (timeSub (rt.now tick) start) ++ ")")
    | _, _, _ => none
  else if pvb.Status.Phase = PodVolumePhaseCompleted then
    match bytesToSI pvb.Status.Progress.TotalBytes, pvb.Status.CompletionTimestamp,
      pvb.Status.StartTimestamp with
    | some total, some completion, some start =>
      Message rt tick pvb
        ("PodVolumeBackup " ++ pvb.Namespace ++ "/" ++ pvb.Name ++ ": Completed, " ++ total ++
          " backed up (" ++ rt.durationString (timeSub completion start) ++ ")")
    | _, _, _ => none
  else if pvb.Status.Phase = PodVolumePhaseFailed then
    match pvb.Status.CompletionTimestamp, pvb.Status.StartTimestamp with
    | some completion, some start =>
      Message rt tick pvb
        ("PodVolumeBackup " ++ pvb.Namespace ++ "/" ++ pvb.Name ++ ": Failed (" ++
          rt.durationString (timeSub completion start) ++ ")")
    | _, _ => none
  else
    some ({ msg with
      Message := "PodVolumeBackup " ++ pvb.Namespace ++ "/" ++ pvb.Name ++
        ": Waiting for ongoing volume backup(s) to complete" }, tick)

/-- The `switch pvr.Status.Phase` of `getPodVolumeRestoresProgress` (restore.go:193-220). -/
def pvrSwitch (rt : Runtime) (tick : Nat) (_msg : Progress) (pvr : PodVolumeRestore) :
    Option (Progress × Nat) :=
  if pvr.Status.Phase = PodVolumePhaseInProgress then
    match bytesToSI pvr.Status.Progress.BytesDone, bytesToSI pvr.Status.Progress.TotalBytes,
      pvr.Status.StartTimestamp with
    | some bytesDone, some total, some start =>
      PVRMessage rt (tick + 1) pvr
        ("PodVolumeRestore " ++ pvr.Namespace ++ "/" ++ pvr.Name ++ ": " ++ bytesDone ++
          " out of " ++ total ++ " restored (" ++
          rt.durationString (timeSub (rt.now tick) start) ++ ")")
    | _, _, _ => none
  else if pvr.Status.Phase = PodVolumePhaseCompleted then
    match bytesToSI pvr.Status.Progress.TotalBytes, pvr.Status.CompletionTimestamp,
      pvr.Status.StartTimestamp with
    | some total, some completion, some start =>
      PVRMessage rt tick pvr
        ("PodVolumeRestore " ++ pvr.Namespace ++ "/" ++ pvr.Name ++ ": Completed, " ++ total ++
          " restored (" ++ rt.durationString (timeSub completion start) ++ ")")
    | _, _, _ => none
  else if pvr.Status.Phase = PodVolumePhaseFailed then
    match pvr.Status.CompletionTimestamp, pvr.Status.StartTimestamp with
    | some completion, some start =>
      PVRMessage rt tick pvr
        ("PodVolumeRestore " ++ pvr.Namespace ++ "/" ++ pvr.Name ++ ": Failed, (" ++
          rt.durationString (timeSub completion start) ++ ")")
    | _, _ => none
  else
    PVRMessage rt tick pvr
      ("PodVolumeRestore " ++ pvr.Namespace ++ "/" ++ pvr.Name ++
        ": Waiting for ongoing volume restore(s) to complete")

/-- Variables of the child loop: the map `m`, the slice `keys`, the entry `msg` that
survives from one iteration to the next, and the clock tick. -/
structure ChildLoop where
  m : GoMap Progress
  keys : List String
  msg : Progress
  tick : Nat
deriving DecidableEq, Repr

/-- The `for _, item := range list.Items` loop shared by both child extractors
(backup.go:193-225, restore.go:192-223): run the phase switch, then
`m[key] = msg; keys = append(keys, key)`. -/
def childLoop {α : Type} (switch : Nat → Progress → α → Option (Progress × Nat))
    (key : α → String) : List α → ChildLoop → Option ChildLoop
  | [], st => some st
  | item :: rest, st =>
    match switch st.tick st.msg item with
    | none => none
    | some (msg, tick) =>
      childLoop switch key rest ⟨mapSet st.m (key item) msg, st.keys ++ [key item], msg, tick⟩

/-- The tail of both child extractors: `sort.Strings(keys)` and one `m[k]` per key. -/
def emitSorted (st : ChildLoop) : List Progress :=
  (sortStrings st.keys).map (fun k => (mapGet st.m k).getD Progress.zero)

/-- Map key of a pod-volume backup, `pvb.Namespace+"/"+pvb.Name`. -/
def pvbKey (pvb : PodVolumeBackup) : String := pvb.Namespace ++ "/" ++ pvb.Name

/-- Map key of a pod-volume restore, `pvr.Namespace+"/"+pvr.Name`. -/
def pvrKey (pvr : PodVolumeRestore) : String := pvr.Namespace ++ "/" ++ pvr.Name

/-- The closure `getPodVolumeBackupsProgress` (backup.go:191-232), started at clock tick
`tick`; returns the entries and the next tick. -/
def getPodVolumeBackupsProgress (rt : Runtime) (tick : Nat) (items : List PodVolumeBackup) :
    Option (List Progress × Nat) :=
  match childLoop (pvbSwitch rt) pvbKey items ⟨[], [], Progress.zero, tick⟩ with
  | none => none
  | some st => some (emitSorted st, st.tick)

/-- The closure `getPodVolumeRestoresProgress` (restore.go:187-230); `pvrList` is nil when
listing the children failed. -/
def getPodVolumeRestoresProgress (rt : Runtime) (tick : Nat)
    (pvrList : Option (List PodVolumeRestore)) : Option (List Progress × Nat) :=
  match pvrList with
  | none => some ([], tick)
  | some items =>
    match childLoop (pvrSwitch rt) pvrKey items ⟨[], [], Progress.zero, tick⟩ with
    | none => none
    | some st => some (emitSorted st, st.tick)

/-- `Task.hasBackupCompleted` (backup.go:184-326). `pvbs` is the list returned by
`getPodVolumeBackupsForBackup`. Result: the task after `t.Progress = progress`, `completed`
and `reasons`; `none` when the call panics. -/
def hasBackupCompleted (rt : Runtime) (t : Task) (backup : Backup)
    (pvbs : List PodVolumeBackup) : Option (Task × Bool × List String) :=
  if backup.Status.Phase = PhaseNew then
    some ({ t with Progress :=
      [⟨"Backup " ++ backup.Namespace ++ "/" ++ backup.Name ++ ": Not started yet",
        backup.Status.StartTimestamp, some (rt.now 0),
        some [("Kind", backup.Kind), ("Name", backup.Name),
              ("Namespace", backup.Namespace)]⟩] }, false, [])
  else if backup.Status.Phase = PhaseInProgress then
    match backup.Status.Progress with
    | none => none
    | some p =>
      match getPodVolumeBackupsProgress rt 1 pvbs with
      | none => none
      | some (children, _) =>
        some ({ t with Progress :=
          ⟨"Backup " ++ backup.Namespace ++ "/" ++ backup.Name ++ ": " ++
              toString p.ItemsBackedUp ++ " out of estimated total of " ++
              toString p.TotalItems ++ " objects backed up",
            backup.Status.StartTimestamp, some (rt.now 0),
            some [("Kind", backup.Kind), ("Name", backup.Name),
                  ("Namespace", backup.Namespace),
                  ("ItemsBackedUp", goStringOfInt p.ItemsBackedUp),
                  ("TotalItems", goStringOfInt p.TotalItems)]⟩ :: children }, false, [])
  else if backup.Status.Phase = PhaseCompleted then
    match backup.Status.Progress with
    | none => none
    | some p =>
      match getPodVolumeBackupsProgress rt 0 pvbs with
      | none => none
      | some (children, _) =>
        some ({ t with Progress :=
          ⟨"Backup " ++ backup.Namespace ++ "/" ++ backup.Name ++ ": Completed",
            backup.Status.StartTimestamp, backup.Status.CompletionTimestamp,
            some [("Kind", backup.Kind), ("Name", backup.Name),
                  ("Namespace", backup.Namespace),
                  ("ItemsBackedUp", goStringOfInt p.ItemsBackedUp),
                  ("TotalItems", goStringOfInt p.TotalItems)]⟩ :: children }, true, [])
  else if backup.Status.Phase = PhaseFailed then
    some ({ t with Progress := [] }, true,
      ["Backup: " ++ backup.Namespace ++ "/" ++ backup.Name ++ " failed."])
  else if backup.Status.Phase = PhasePartiallyFailed then
    match getPodVolumeBackupsProgress rt 0 pvbs with
    | none => none
    | some (temp, _) =>
      some ({ t with Progress := [] }, true,
        ("Backup: " ++ backup.Namespace ++ "/" ++ backup.Name ++ " partially failed.") ::
          temp.map (fun pr => pr.Message))
  else if backup.Status.Phase = PhaseFailedValidation then
    some ({ t with Progress := [] }, true,
      backup.Status.ValidationErrors ++
        ["Backup: " ++ backup.Namespace ++ "/" ++ backup.Name ++ " validation failed."])
  else some ({ t with Progress := [] }, false, [])

/-- `Task.hasRestoreCompleted` (restore.go:180-320). `pvrs` is the result of
`getPodVolumeRestoresForRestore` (nil when the listing failed). -/
def hasRestoreCompleted (rt : Runtime) (t : Task) (restore : Restore)
    (pvrs : Option (List PodVolumeRestore)) : Option (Task × Bool × List String) :=
  if restore.Status.Phase = PhaseNew then
    some ({ t with Progress :=
      [⟨"Restore " ++ restore.Namespace ++ "/" ++ restore.Name ++ ": Not started yet",
        none, none,
        some [("Kind", restore.Kind), ("Name", restore.Name),
              ("Namespace", restore.Namespace)]⟩] }, false, [])
  else if restore.Status.Phase = PhaseInProgress then
    match getPodVolumeRestoresProgress rt 0 pvrs with
    | none => none
    | some (children, _) =>
      some ({ t with Progress :=
        ⟨"Restore " ++ restore.Namespace ++ "/" ++ restore.Name ++ ": " ++
            restore.Status.Phase, none, none,
          some [("Kind", restore.Kind), ("Name", restore.Name),
                ("Namespace", restore.Namespace),
                ("Phase", restore.Status.Phase)]⟩ :: children }, false, [])
  else if restore.Status.Phase = PhaseCompleted then
    match getPodVolumeRestoresProgress rt 0 pvrs with
    | none => none
    | some (children, _) =>
      some ({ t with Progress :=
        ⟨"Restore " ++ restore.Namespace ++ "/" ++ restore.Name ++ ": " ++
            restore.Status.Phase, none, none,
          some [("Kind", restore.Kind), ("Name", restore.Name),
                ("Namespace", restore.Namespace),
                ("Phase", restore.Status.Phase)]⟩ :: children }, true, [])
  else if restore.Status.Phase = PhaseFailed then
    some ({ t with Progress := [] }, true,
      ["Restore: " ++ restore.Namespace ++ "/" ++ restore.Name ++ " failed."])
  else if restore.Status.Phase = PhasePartiallyFailed then
    match getPodVolumeRestoresProgress rt 0 pvrs with
    | none => none
    | some (temp, _) =>
      some ({ t with Progress := [] }, true,
        ("Restore: " ++ restore.Namespace ++ "/" ++ restore.Name ++ " partially failed.") ::
          temp.map (fun pr => pr.Message))
  else if restore.Status.Phase = PhaseFailedValidation then
    some ({ t with Progress := [] }, true,
      restore.Status.ValidationErrors ++
        ["Restore: " ++ restore.Namespace ++ "/" ++ restore.Name ++ " validation failed."])
  else some ({ t with Progress := [] }, false, [])

instance : IsTotal String keyLE := ⟨fun a b => le_total a.data b.data⟩

instance : IsTrans String keyLE := ⟨fun _ _ _ h1 h2 => le_trans h1 h2⟩

instance : IsAntisymm String keyLE := ⟨fun _ _ h1 h2 => String.ext (le_antisymm h1 h2)⟩

/-- The timestamps that the phase switch dereferences are set and the byte counters are
`int64` values: the switch then runs without a panic. -/
def PodVolumeStatus.Ready (s : PodVolumeStatus) : Prop :=
  IsInt64 s.Progress.TotalBytes ∧ IsInt64 s.Progress.BytesDone ∧
  (s.Phase = PodVolumePhaseInProgress → s.StartTimestamp ≠ none) ∧
  (s.Phase = PodVolumePhaseCompleted ∨ s.Phase = PodVolumePhaseFailed →
    s.StartTimestamp ≠ none ∧ s.CompletionTimestamp ≠ none)

/-- The backup and its children carry what `hasBackupCompleted` dereferences in the
backup's phase. -/
def BackupReady (backup : Backup) (pvbs : List PodVolumeBackup) : Prop :=
  (backup.Status.Phase = PhaseInProgress ∨ backup.Status.Phase = PhaseCompleted →
    backup.Status.Progress ≠ none) ∧
  (backup.Status.Phase = PhaseInProgress ∨ backup.Status.Phase = PhaseCompleted ∨
    backup.Status.Phase = PhasePartiallyFailed → ∀ pvb ∈ pvbs, pvb.Status.Ready)

/-- The children carry what `hasRestoreCompleted` dereferences in the restore's phase. -/
def RestoreReady (restore : Restore) (pvrs : Option (List PodVolumeRestore)) : Prop :=
  restore.Status.Phase = PhaseInProgress ∨ restore.Status.Phase = PhaseCompleted ∨
    restore.Status.Phase = PhasePartiallyFailed →
    ∀ items, pvrs = some items → ∀ pvr ∈ items, pvr.Status.Ready

/-- The phase-dependent part of the message that the spec gives for a pod-volume child,
for the words `verb` (`backed up` / `restored`) and `noun` (`backup` / `restore`);
`tick` is the clock reading used for the elapsed time. -/
def childMessageBody (rt : Runtime) (verb noun : String) (tick : Nat)
    (s : PodVolumeStatus) : String :=
  if s.Phase = PodVolumePhaseInProgress then
    (bytesToSI s.Progress.BytesDone).getD "" ++ " out of " ++
      (bytesToSI s.Progress.TotalBytes).getD "" ++ " " ++ verb ++ " (" ++
      rt.durationString (timeSub (rt.now tick) (s.StartTimestamp.getD 0)) ++ ")"
  else if s.Phase = PodVolumePhaseCompleted then
    "Completed, " ++ (bytesToSI s.Progress.TotalBytes).getD "" ++ " " ++ verb ++ " (" ++
      rt.durationString
        (timeSub (s.CompletionTimestamp.getD 0) (s.StartTimestamp.getD 0)) ++ ")"
  else if s.Phase = PodVolumePhaseFailed then
    "Failed (" ++
      rt.durationString
        (timeSub (s.CompletionTimestamp.getD 0) (s.StartTimestamp.getD 0)) ++ ")"
  else "Waiting for ongoing volume " ++ noun ++ "(s) to complete"

/-- The message shape that the spec gives for a pod-volume child of kind `kind`:
`<kind> <namespace>/<name>: ` followed by the phase-dependent part. -/
def childMessage (rt : Runtime) (kind verb noun : String) (tick : Nat) (ns name : String)
    (s : PodVolumeStatus) : String :=
  kind ++ " " ++ ns ++ "/" ++ name ++ ": " ++ childMessageBody rt verb noun tick s

/-- The message starts with `<kind> <key>: `, that is, it names the child with key `key`. -/
def NamesKey (kind key msg : String) : Prop := ∃ rest, msg = kind ++ " " ++ key ++ ": " ++ rest

/-- The extractor output `es` for the children `items`: one entry per child, the `i`-th entry
names the `i`-th smallest key, and that key belongs to exactly one child. -/
def EmitsInKeyOrder {α : Type} (kind : String) (key : α → String) (items : List α)
    (es : List Progress) : Prop :=
  es.length = items.length ∧
  List.Forall₂ (fun k p => NamesKey kind k p.Message ∧ ∃! item, item ∈ items ∧ key item = k)
    (sortStrings (items.map key)) es

/-- Spec scenario 3, child `ns1/p-a`: failed after 10 s. -/
def scenarioFailedPVB : PodVolumeBackup :=
  ⟨"PodVolumeBackup", "ns1", "p-a", ⟨"Failed", some 0, some 10000000000, ⟨0, 0⟩⟩⟩

/-- Spec scenario 3, child `ns1/p-b`: completed, 5 MB in 3 s. -/
def scenarioCompletedPVB : PodVolumeBackup :=
  ⟨"PodVolumeBackup", "ns1", "p-b", ⟨"Completed", some 0, some 3000000000, ⟨5000000, 5000000⟩⟩⟩

/-- A pod-volume backup that velero has not started yet (phase `New`, no timestamps). -/
def scenarioWaitingPVB : PodVolumeBackup :=
  ⟨"PodVolumeBackup", "ns1", "p-c", ⟨"New", none, none, ⟨0, 0⟩⟩⟩

/-- A pod-volume restore that failed after 10 s. -/
def scenarioFailedPVR : PodVolumeRestore :=
  ⟨"PodVolumeRestore", "ns1", "p-a", ⟨"Failed", some 0, some 10000000000, ⟨0, 0⟩⟩⟩

/-- A pod-volume restore that completed, 5 MB in 3 s. -/
def scenarioCompletedPVR : PodVolumeRestore :=
  ⟨"PodVolumeRestore", "ns1", "p-b", ⟨"Completed", some 0, some 3000000000, ⟨5000000, 5000000⟩⟩⟩

/-- A backup `velero/b1` in the given phase, 4 of 10 items backed up. -/
def scenarioBackup (phase : String) : Backup :=
  ⟨"Backup", "velero", "b1", "", [], [], ⟨[], [], [], none, "", [], 0, none⟩,
    ⟨phase, [], some 0, none, some ⟨10, 4⟩⟩⟩

/-- A runtime for evaluation: the clock reads 20 s, 21 s, ...; durations print as a
count of nanoseconds. -/
def scenarioRuntime : Runtime :=
  ⟨fun i => 20000000000 + 1000000000 * i, fun d => toString d ++ "ns"⟩

/-- The entry `p` carries a `RawProgress` map with the keys `Kind`, `Name` and `Namespace`
bound to the given values. -/
def HasOwnRaw (p : Progress) (kind name ns : String) : Prop :=
  ∃ raw, p.RawProgress = some raw ∧ mapGet raw "Kind" = some kind ∧
    mapGet raw "Name" = some name ∧ mapGet raw "Namespace" = some ns

/-! ## Token secret and authorization probe (migtoken_types.go) -/

/-- Go `error` values, identified by their message. -/
abbrev Error := String

/-- Kubernetes `Secret`, the `Data` field: `map[string][]byte`. A value is a byte slice,
rendered by its text `string(b)`; `none` is the nil slice. -/
structure Secret where
  Data : GoMap (Option String)
deriving DecidableEq, Repr

/-- Go read `secret.Data[key]`: the stored slice, nil when the key is missing. -/
def Secret.lookup (secret : Secret) (key : String) : Option String :=
  match mapGet secret.Data key with
  | some v => v
  | none => none

/-- `MigToken.GetToken` (migtoken_types.go:172-184); `getSecret` is the result of
`GetSecret(client, r.Spec.SecretRef)`. -/
def GetToken (getSecret : Except Error (Option Secret)) : Except Error String :=
  match getSecret with
  | .error err => .error err
  | .ok none => .error "identity secret not found"
  | .ok (some secret) =>
    match secret.lookup "token" with
    | none => .error "identity secret doesn't contain token"
    | some token => .ok token

/-- Arguments of one `CanI` call: a self-subject access review request. -/
structure Probe where
  verb : String
  group : String
  resource : String
  ns : String
  name : String
deriving DecidableEq, Repr

/-- The slice `resources` of `HasMigratePermission`. -/
def migrateResources : List String :=
  ["/pods", "apps/deployments", "apps.openshift.io/deploymentconfigs", "apps/daemonsets",
   "apps/replicasets", "apps/statefulsets", "/persistentvolumeclaims"]

/-- The slice `verbs` of `HasMigratePermission`. -/
def migrateVerbs : List String := ["get", "create", "update", "delete"]

/-- The inner loop `for _, verb := range verbs` (migtoken_types.go:128-140) for one resource.
Result: `some (ok true)` when the loop ran to its end, `some (ok false)` on `break loop`,
`some (error err)` on `return nil, err`, `none` on an index panic; with the probes issued. -/
def verbsLoop (canI : Probe → Except Error Bool) (ns resource : String) :
    List String → List Probe → Option (Except Error Bool) × List Probe
  | [], log => (some (.ok true), log)
  | verb :: rest, log =>
    let groupResource := stringsSplit resource '/'
    match groupResource[0]?, groupResource[1]? with
    | some group, some res =>
      match canI ⟨verb, group, res, ns, ""⟩ with
      | .error err => (some (.error err), log ++ [⟨verb, group, res, ns, ""⟩])
      | .ok allowed =>
        if !allowed then (some (.ok false), log ++ [⟨verb, group, res, ns, ""⟩])
        else verbsLoop canI ns resource rest (log ++ [⟨verb, group, res, ns, ""⟩])
    | _, _ => (none, log)

/-- The labelled loop `for _, resource := range resources` (migtoken_types.go:126-141). -/
def resourcesLoop (canI : Probe → Except Error Bool) (ns : String) :
    List String → List Probe → Option (Except Error Bool) × List Probe
  | [], log => (some (.ok true), log)
  | resource :: rest, log =>
    match verbsLoop canI ns resource migrateVerbs log with
    | (some (.ok true), log') => resourcesLoop canI ns rest log'
    | other => other

/-- The outer loop `for _, namespace := range namespaces` (migtoken_types.go:124-142). -/
def namespacesLoop (canI : Probe → Except Error Bool) :
    List String → GoMap Bool → List Probe → Option (Except Error (GoMap Bool)) × List Probe
  | [], authorized, log => (some (.ok authorized), log)
  | ns :: rest, authorized, log =>
    match resourcesLoop canI ns migrateResources log with
    | (none, log') => (none, log')
    | (some (.error err), log') => (some (.error err), log')
    | (some (.ok true), log') => namespacesLoop canI rest (mapSet authorized ns true) log'
    | (some (.ok false), log') =>
      namespacesLoop canI rest (mapSet (mapSet authorized ns true) ns false) log'

/-- `MigToken.HasMigratePermission` (migtoken_types.go:112-145); `canI` answers
`r.CanI(client, verb, group, resource, namespace, name)`. The second component lists the
probes in the order they were issued. -/
def HasMigratePermission (canI : Probe → Except Error Bool) (namespaces : List String) :
    Option (Except Error (GoMap Bool)) × List Probe :=
  namespacesLoop canI namespaces [] []

/-- The seven (group, resource) pairs that the spec lists for the migrate permission. -/
def migratePairs : List (String × String) :=
  [("", "pods"), ("apps", "deployments"), ("apps.openshift.io", "deploymentconfigs"),
   ("apps", "daemonsets"), ("apps", "replicasets"), ("apps", "statefulsets"),
   ("", "persistentvolumeclaims")]

/-- Every one of the 28 probes (verb, resource) is allowed in namespace `ns`. -/
def AllowedAll (allow : Probe → Bool) (ns : String) : Prop :=
  ∀ verb ∈ migrateVerbs, ∀ gr ∈ migratePairs, allow ⟨verb, gr.1, gr.2, ns, ""⟩ = true

/-- A plan namespace entry `e` is `src:dest` with exactly one colon, `dest ≠ src`, `dest ≠ ""`. -/
def Qualifies (e src dest : String) : Prop :=
  e = src ++ ":" ++ dest ∧ ':' ∉ src.data ∧ ':' ∉ dest.data ∧ dest ≠ src ∧ dest ≠ ""

/-- Entry `src:dest` qualifies and no later entry of the list qualifies with the same `src`. -/
def LastFor (namespaces : List String) (src dest : String) : Prop :=
  ∃ pre e post, namespaces = pre ++ e :: post ∧ Qualifies e src dest ∧
    ∀ e' ∈ post, ∀ d', ¬ Qualifies e' src d'

/-- The 28 probes of one namespace entry in the order of the loops: resources outside, verbs
inside. -/
def migrateProbes (ns : String) : List Probe :=
  migratePairs.flatMap fun gr => migrateVerbs.map fun verb => ⟨verb, gr.1, gr.2, ns, ""⟩

/-- The probes of `ps` up to and including the first one that is not answered `true`. -/
def issuedProbes (canI : Probe → Except Error Bool) : List Probe → List Probe
  | [] => []
  | p :: rest =>
    match canI p with
    | .ok true => p :: issuedProbes canI rest
    | _ => [p]

/-- The answer that ends the probes of `ps`: the first one that is not `true`. -/
def probeOutcome (canI : Probe → Except Error Bool) : List Probe → Except Error Bool
  | [] => .ok true
  | p :: rest =>
    match canI p with
    | .ok true => probeOutcome canI rest
    | other => other

/-- The oracle of scenario 2: everything is allowed but `delete pods` in `ns2`. -/
def scenarioCanI (p : Probe) : Except Error Bool :=
  .ok (!(decide (p.verb = "delete" ∧ p.resource = "pods" ∧ p.ns = "ns2")))

/-! ## Owned backups and restores on the remote clusters
(backup.go:22-160, 328-471; restore.go:21-133, 342-362) -/

/-- Go `delete(m, k)`. -/
def mapDelete {β : Type} (m : GoMap β) (k : String) : GoMap β :=
  m.filter fun kv => decide (kv.1 ≠ k)

/-- A `mapset.Set` of strings (package golang-set): `elems` lists every element once. -/
structure StringSet where
  elems : List String
  nodup : elems.Nodup

/-- `mapset.NewSetFromSlice`. -/
def NewSetFromSlice (s : List String) : StringSet := ⟨s.dedup, s.nodup_dedup⟩

/-- `Set.Difference`: the elements of `set` that are not in `other`. -/
def StringSet.Difference (set other : StringSet) : StringSet :=
  ⟨set.elems.filter fun x => decide (x ∉ other.elems), set.nodup.filter _⟩

/-- `Set.Union`: the elements of either set. -/
def StringSet.Union (set other : StringSet) : StringSet :=
  ⟨set.elems ∪ other.elems, List.Nodup.union _ other.nodup⟩

/-- Order in which `Set.ToSlice` hands out the elements of a set. The set is a Go map, whose
iteration order is unspecified: any rearrangement of the elements may come out. -/
structure SliceOrder where
  arrange : List String → List String
  perm : ∀ l, (arrange l).Perm l

/-- `Set.ToSlice`. -/
def StringSet.ToSlice (order : SliceOrder) (set : StringSet) : List String :=
  order.arrange set.elems

/-- `toStringSlice` (backup.go:55-62): the elements of `set.ToSlice()`, copied in order. -/
def toStringSlice (order : SliceOrder) (set : StringSet) : List String :=
  (set.ToSlice order).map fun s => s

/-- `toSet` (backup.go:63-69). -/
def toSet (strSlice : List String) : StringSet :=
  NewSetFromSlice (strSlice.map fun s => s)

/-- What the ensure functions read from the migration task `t` and from package-level
values that are declared outside `backup.go` and `restore.go`; all of it is a parameter.
Owner: `t.UID()`, `t.Owner.Name` (also `t.Owner.GetName()`), `t.Owner.Spec.MigPlanRef.Name`,
`t.Owner.GetCorrelationLabels()` (a freshly allocated map on every call). Plan:
`t.PlanResources.MigPlan.Status.ExcludedResources`, `...Status.ResourceList()`,
`t.sourceNamespaces()`, `t.namespaces()`. Constants: `migapi.VeleroNamespace`, the label and
annotation keys, and the four default resource sets of package `settings`. -/
structure TaskEnv where
  UID : String
  OwnerName : String
  MigPlanRefName : String
  CorrelationLabels : GoMap String
  ExcludedResources : List String
  ResourceList : List String
  sourceNamespaces : List String
  namespaces : List String
  VeleroNamespace : String
  InitialBackupLabel : String
  StageBackupLabel : String
  StageRestoreLabel : String
  FinalRestoreLabel : String
  MigMigrationDebugLabel : String
  MigPlanDebugLabel : String
  IncludedInStageBackupLabel : String
  QuiesceAnnotationKey : String
  StagePodImageAnnotationKey : String
  IncludedInitialResources : StringSet
  ExcludedInitialResources : StringSet
  IncludedStageResources : StringSet
  ExcludedStageResources : StringSet

/-- Answers of the collaborators during one call of an ensure function. `getSourceClient k`
and `getDestinationClient k` are the errors (`none` is nil) of the `k`-th call of these
functions, counted from 0; `listBackups`, `listRestores` are the errors of `client.List`;
`getAnnotations` is the result of `t.getAnnotations(client)` (an allocated map); `GetBSL`,
`GetVSL` are the results of `plan.GetBSL(client)`, `plan.GetVSL(client)`: the name of the
location, or nil; `getStagePodImage` is the result of `t.getStagePodImage(client)`; `create`
is the error of `client.Create`, or the suffix from which the API server makes the name of
the new object; `sliceOrder k` is the order of the `k`-th `ToSlice` call. -/
structure Calls where
  getSourceClient : Nat → Option Error
  getDestinationClient : Nat → Option Error
  listBackups : Option Error
  listRestores : Option Error
  getAnnotations : Except Error (GoMap String)
  GetBSL : Except Error (Option String)
  GetVSL : Except Error (Option String)
  getStagePodImage : Except Error String
  create : Except Error String
  sliceOrder : Nat → SliceOrder

/-- The backups and restores stored on a remote cluster, in the order in which a `List` call
of the client returns them. -/
structure Cluster where
  Backups : List Backup
  Restores : List Restore
deriving DecidableEq, Repr

/-- A request that an ensure function sends to a remote API server. -/
inductive ApiCall where
  | listBackups (labels : GoMap String)
  | createBackup (backup : Backup)
  | listRestores (labels : GoMap String)
  | createRestore (restore : Restore)
deriving DecidableEq, Repr

/-- The request is a `Create`. -/
def ApiCall.isCreate : ApiCall → Bool
  | .createBackup _ => true
  | .createRestore _ => true
  | _ => false

/-- Selector `k8sclient.MatchingLabels(labels)` applied to the labels of an object: every key
of `labels` is bound to the same value in `objLabels`. -/
def matchingLabels (labels objLabels : GoMap String) : Bool :=
  labels.all fun kv => decide (mapGet objLabels kv.1 = mapGet labels kv.1)

/-- Items that `client.List` with `MatchingLabels(labels)` puts into a `BackupList`. -/
def Cluster.ListBackups (c : Cluster) (labels : GoMap String) : List Backup :=
  c.Backups.filter fun b => matchingLabels labels b.Labels

/-- Items that `client.List` with `MatchingLabels(labels)` puts into a `RestoreList`. -/
def Cluster.ListRestores (c : Cluster) (labels : GoMap String) : List Restore :=
  c.Restores.filter fun r => matchingLabels labels r.Labels

/-- Name of a created object: the API server keeps a given name and otherwise appends a
suffix to `GenerateName`. -/
def serverName (name generateName suffix : String) : String :=
  if name = "" then generateName ++ suffix else name

/-- A successful `client.Create` of a backup: the object is stored under its server-side
name and the caller's object is updated to the stored one. -/
def Cluster.CreateBackup (c : Cluster) (backup : Backup) (suffix : String) :
    Cluster × Backup :=
  let stored := { backup with Name := serverName backup.Name backup.GenerateName suffix }
  ({ c with Backups := c.Backups ++ [stored] }, stored)

/-- A successful `client.Create` of a restore. -/
def Cluster.CreateRestore (c : Cluster) (restore : Restore) (suffix : String) :
    Cluster × Restore :=
  let stored := { restore with Name := serverName restore.Name restore.GenerateName suffix }
  ({ c with Restores := c.Restores ++ [stored] }, stored)

/-- `Task.getBackup` (backup.go:143-160) on the source cluster `src`; the result comes with
the requests sent. -/
def getBackup (calls : Calls) (src : Cluster) (labels : GoMap String) :
    Except Error (Option Backup) × List ApiCall :=
  match calls.getSourceClient 0 with
  | some err => (.error err, [])
  | none =>
    match calls.listBackups with
    | some err => (.error err, [.listBackups labels])
    | none =>
      let items := src.ListBackups labels
      if 0 < items.length then (.ok items[0]?, [.listBackups labels])
      else (.ok none, [.listBackups labels])

/-- `Task.getInitialBackup` (backup.go:72-76). -/
def getInitialBackup (cfg : TaskEnv) (calls : Calls) (src : Cluster) :
    Except Error (Option Backup) × List ApiCall :=
  let labels := cfg.CorrelationLabels
  let labels := mapSet labels cfg.InitialBackupLabel cfg.UID
  getBackup calls src labels

/-- `Task.getStageBackup` (backup.go:115-119). -/
def getStageBackup (cfg : TaskEnv) (calls : Calls) (src : Cluster) :
    Except Error (Option Backup) × List ApiCall :=
  let labels := cfg.CorrelationLabels
  let labels := mapSet labels cfg.StageBackupLabel cfg.UID
  getBackup calls src labels

/-- `Task.getBSL` (backup.go:329-344); the third call of `getSourceClient` in an ensure. -/
def getBSL (calls : Calls) : Except Error String :=
  match calls.getSourceClient 2 with
  | some err => .error err
  | none =>
    match calls.GetBSL with
    | .error err => .error err
    | .ok none => .error "BSL not found"
    | .ok (some location) => .ok location

/-- `Task.getVSL` (backup.go:347-362); the fourth call of `getSourceClient` in an ensure. -/
def getVSL (calls : Calls) : Except Error String :=
  match calls.getSourceClient 3 with
  | some err => .error err
  | none =>
    match calls.GetVSL with
    | .error err => .error err
    | .ok none => .error "VSL not found"
    | .ok (some location) => .ok location

/-- `Task.buildBackup` (backup.go:365-395). `liberr.Wrap` keeps the message of an error. -/
def buildBackup (cfg : TaskEnv) (calls : Calls) : Except Error Backup :=
  match calls.getAnnotations with
  | .error err => .error err
  | .ok annotations =>
    match getBSL calls with
    | .error err => .error err
    | .ok backupLocation =>
      match getVSL calls with
      | .error err => .error err
      | .ok snapshotLocation =>
        .ok { Kind := "", Namespace := cfg.VeleroNamespace, Name := "",
              GenerateName := cfg.OwnerName ++ "-",
              Labels := cfg.CorrelationLabels,
              Annotations := annotations,
              Spec := { IncludedNamespaces := cfg.sourceNamespaces, IncludedResources := [],
                        ExcludedResources := [], LabelSelector := none,
                        StorageLocation := backupLocation,
                        VolumeSnapshotLocations := [snapshotLocation],
                        TTL := 720 * 3600000000000, IncludeClusterResources := none },
              Status := ⟨"", [], none, none, none⟩ }

/-- `Task.ensureInitialBackup` (backup.go:24-53). Result: the returned backup or error, the
source cluster afterwards, and the requests sent. -/
def ensureInitialBackup (cfg : TaskEnv) (calls : Calls) (src : Cluster) :
    Except Error Backup × Cluster × List ApiCall :=
  match getInitialBackup cfg calls src with
  | (.error err, log) => (.error err, src, log)
  | (.ok (some backup), log) => (.ok backup, src, log)
  | (.ok none, log) =>
    match calls.getSourceClient 1 with
    | some err => (.error err, src, log)
    | none =>
      match buildBackup cfg calls with
      | .error err => (.error err, src, log)
      | .ok newBackup =>
        let newBackup := { newBackup with
          Labels := mapSet newBackup.Labels cfg.InitialBackupLabel cfg.UID }
        let newBackup := { newBackup with
          Labels := mapSet newBackup.Labels cfg.MigMigrationDebugLabel cfg.OwnerName }
        let newBackup := { newBackup with
          Labels := mapSet newBackup.Labels cfg.MigPlanDebugLabel cfg.MigPlanRefName }
        let newBackup := { newBackup with Spec := { newBackup.Spec with
          IncludedResources := toStringSlice (calls.sliceOrder 0)
            (cfg.IncludedInitialResources.Difference (toSet cfg.ExcludedResources)) } }
        let newBackup := { newBackup with Spec := { newBackup.Spec with
          ExcludedResources := toStringSlice (calls.sliceOrder 1)
            (cfg.ExcludedInitialResources.Union (toSet cfg.ExcludedResources)) } }
        let newBackup := { newBackup with
          Annotations := mapDelete newBackup.Annotations cfg.QuiesceAnnotationKey }
        match calls.create with
        | .error err => (.error err, src, log ++ [.createBackup newBackup])
        | .ok suffix =>
          ((.ok (src.CreateBackup newBackup suffix).2), (src.CreateBackup newBackup suffix).1,
            log ++ [.createBackup newBackup])

/-- `Task.ensureStageBackup` (backup.go:80-112). -/
def ensureStageBackup (cfg : TaskEnv) (calls : Calls) (src : Cluster) :
    Except Error Backup × Cluster × List ApiCall :=
  match getStageBackup cfg calls src with
  | (.error err, log) => (.error err, src, log)
  | (.ok (some backup), log) => (.ok backup, src, log)
  | (.ok none, log) =>
    match calls.getSourceClient 1 with
    | some err => (.error err, src, log)
    | none =>
      match buildBackup cfg calls with
      | .error err => (.error err, src, log)
      | .ok newBackup =>
        let labelSelector : GoMap String := [(cfg.IncludedInStageBackupLabel, cfg.UID)]
        let newBackup := { newBackup with
          Labels := mapSet newBackup.Labels cfg.StageBackupLabel cfg.UID }
        let newBackup := { newBackup with
          Labels := mapSet newBackup.Labels cfg.MigMigrationDebugLabel cfg.OwnerName }
        let newBackup := { newBackup with
          Labels := mapSet newBackup.Labels cfg.MigPlanDebugLabel cfg.MigPlanRefName }
        let newBackup := { newBackup with Spec := { newBackup.Spec with
          IncludedResources := toStringSlice (calls.sliceOrder 0)
            (cfg.IncludedStageResources.Difference (toSet cfg.ExcludedResources)) } }
        let newBackup := { newBackup with Spec := { newBackup.Spec with
          ExcludedResources := toStringSlice (calls.sliceOrder 1)
            (cfg.ExcludedStageResources.Union (toSet cfg.ExcludedResources)) } }
        let newBackup := { newBackup with Spec := { newBackup.Spec with
          LabelSelector := some labelSelector } }
        match calls.create with
        | .error err => (.error err, src, log ++ [.createBackup newBackup])
        | .ok suffix =>
          ((.ok (src.CreateBackup newBackup suffix).2), (src.CreateBackup newBackup suffix).1,
            log ++ [.createBackup newBackup])

/-- `Task.getRestore` (restore.go:116-133) on the destination cluster `dest`. -/
def getRestore (calls : Calls) (dest : Cluster) (labels : GoMap String) :
    Except Error (Option Restore) × List ApiCall :=
  match calls.getDestinationClient 0 with
  | some err => (.error err, [])
  | none =>
    match calls.listRestores with
    | some err => (.error err, [.listRestores labels])
    | none =>
      let items := dest.ListRestores labels
      if 0 < items.length then (.ok items[0]?, [.listRestores labels])
      else (.ok none, [.listRestores labels])

/-- `Task.getFinalRestore` (restore.go:59-63). -/
def getFinalRestore (cfg : TaskEnv) (calls : Calls) (dest : Cluster) :
    Except Error (Option Restore) × List ApiCall :=
  let labels := cfg.CorrelationLabels
  let labels := mapSet labels cfg.FinalRestoreLabel cfg.UID
  getRestore calls dest labels

/-- `Task.getStageRestore` (restore.go:108-112). -/
def getStageRestore (cfg : TaskEnv) (calls : Calls) (dest : Cluster) :
    Except Error (Option Restore) × List ApiCall :=
  let labels := cfg.CorrelationLabels
  let labels := mapSet labels cfg.StageRestoreLabel cfg.UID
  getRestore calls dest labels

/-- `Task.buildRestore` (restore.go:343-362). -/
def buildRestore (cfg : TaskEnv) (calls : Calls) (backupName : String) :
    Except Error Restore :=
  match calls.getAnnotations with
  | .error err => .error err
  | .ok annotations =>
    .ok (updateRestore cfg.namespaces cfg.ResourceList
      { Kind := "", Namespace := cfg.VeleroNamespace, Name := "",
        GenerateName := cfg.OwnerName ++ "-",
        Labels := cfg.CorrelationLabels,
        Annotations := annotations,
        Spec := ⟨"", none, [], none⟩,
        Status := ⟨"", []⟩ } backupName)

/-- `Task.ensureFinalRestore` (restore.go:23-56). Result: the returned restore or error, the
destination cluster afterwards, and the requests sent (to either cluster). -/
def ensureFinalRestore (cfg : TaskEnv) (calls : Calls) (src dest : Cluster) :
    Except Error Restore × Cluster × List ApiCall :=
  match getInitialBackup cfg calls src with
  | (.error err, log) => (.error err, dest, log)
  | (.ok none, log) => (.error "Backup not found", dest, log)
  | (.ok (some backup), log) =>
    match getFinalRestore cfg calls dest with
    | (.error err, log') => (.error err, dest, log ++ log')
    | (.ok (some restore), log') => (.ok restore, dest, log ++ log')
    | (.ok none, log') =>
      match calls.getDestinationClient 1 with
      | some err => (.error err, dest, log ++ log')
      | none =>
        match buildRestore cfg calls backup.Name with
        | .error err => (.error err, dest, log ++ log')
        | .ok newRestore =>
          let newRestore := { newRestore with
            Labels := mapSet newRestore.Labels cfg.FinalRestoreLabel cfg.UID }
          let newRestore := { newRestore with
            Labels := mapSet newRestore.Labels cfg.MigMigrationDebugLabel cfg.OwnerName }
          let newRestore := { newRestore with
            Labels := mapSet newRestore.Labels cfg.MigPlanDebugLabel cfg.MigPlanRefName }
          match calls.create with
          | .error err => (.error err, dest, log ++ log' ++ [.createRestore newRestore])
          | .ok suffix =>
            ((.ok (dest.CreateRestore newRestore suffix).2),
              (dest.CreateRestore newRestore suffix).1,
              log ++ log' ++ [.createRestore newRestore])

/-- `Task.ensureStageRestore` (restore.go:67-105). -/
def ensureStageRestore (cfg : TaskEnv) (calls : Calls) (src dest : Cluster) :
    Except Error Restore × Cluster × List ApiCall :=
  match getStageBackup cfg calls src with
  | (.error err, log) => (.error err, dest, log)
  | (.ok none, log) => (.error "Backup not found", dest, log)
  | (.ok (some backup), log) =>
    match getStageRestore cfg calls dest with
    | (.error err, log') => (.error err, dest, log ++ log')
    | (.ok (some restore), log') => (.ok restore, dest, log ++ log')
    | (.ok none, log') =>
      match calls.getDestinationClient 1 with
      | some err => (.error err, dest, log ++ log')
      | none =>
        match buildRestore cfg calls backup.Name with
        | .error err => (.error err, dest, log ++ log')
        | .ok newRestore =>
          let newRestore := { newRestore with
            Labels := mapSet newRestore.Labels cfg.StageRestoreLabel cfg.UID }
          let newRestore := { newRestore with
            Labels := mapSet newRestore.Labels cfg.MigMigrationDebugLabel cfg.OwnerName }
          let newRestore := { newRestore with
            Labels := mapSet newRestore.Labels cfg.MigPlanDebugLabel cfg.MigPlanRefName }
          match calls.getStagePodImage with
          | .error err => (.error err, dest, log ++ log')
          | .ok stagePodImage =>
            let newRestore := { newRestore with
              Annotations :=
                mapSet newRestore.Annotations cfg.StagePodImageAnnotationKey stagePodImage }
            match calls.create with
            | .error err => (.error err, dest, log ++ log' ++ [.createRestore newRestore])
            | .ok suffix =>
              ((.ok (dest.CreateRestore newRestore suffix).2),
                (dest.CreateRestore newRestore suffix).1,
                log ++ log' ++ [.createRestore newRestore])

/-- `Task.isBackupReplicated` (backup.go:433-471). `getDestinationClient` and `get` are the
errors (`none` is nil) of `t.getDestinationClient()` and of `client.Get` for the key
`backup.Namespace`/`backup.Name`; `isNotFound` is `k8serrors.IsNotFound`. Result: the task
afterwards, the flag and the error returned. -/
def isBackupReplicated (isNotFound : Error → Bool) (getDestinationClient get : Option Error)
    (t : Task) (backup : Backup) : Task × Bool × Option Error :=
  let progress : List Progress := []
  match getDestinationClient with
  | some err => (t, false, some err)
  | none =>
    match get with
    | none => (t, true, none)
    | some err =>
      if isNotFound err then
        ({ t with Progress := progress ++
            [⟨"Backup " ++ backup.Namespace ++ "/" ++ backup.Name ++ ": Not replicated",
              backup.Status.StartTimestamp, backup.Status.CompletionTimestamp,
              some [("Kind", backup.Kind), ("Name", backup.Name),
                    ("Namespace", backup.Namespace)]⟩] }, false, none)
      else ({ t with Progress := progress }, false, some err)
/-- The labels by which an owned backup or restore of the given role is looked up: the
correlation labels of the owner and the role label bound to the task UID. -/
def roleLabels (cfg : TaskEnv) (role : String) : GoMap String :=
  mapSet cfg.CorrelationLabels role cfg.UID

/-- The `Create` requests among the requests sent. -/
def createsOf (log : List ApiCall) : List ApiCall := log.filter ApiCall.isCreate

/-- Labels of the lookup in the scenario with two owned objects. -/
def scenarioLabels : GoMap String := [("migmigration", "uid-1"), ("initial-backup", "T1")]

/-- A backup `velero/name` with the labels `scenarioLabels`. -/
def scenarioOwnedBackup (name : String) : Backup :=
  ⟨"Backup", "velero", name, "m1-", scenarioLabels, [], ⟨[], [], [], none, "", [], 0, none⟩,
    ⟨"New", [], none, none, none⟩⟩

/-- A restore `velero/name` with the labels `scenarioLabels`. -/
def scenarioOwnedRestore (name : String) : Restore :=
  ⟨"Restore", "velero", name, "m1-", scenarioLabels, [], ⟨"", none, [], none⟩, ⟨"New", []⟩⟩

/-- Collaborators that all succeed: clients are built, lists and creates go through, the
locations are `bsl1` and `vsl1`, created objects get the suffix `x7k2p`, sets are handed out
in their stored order. -/
def scenarioCalls : Calls :=
  { getSourceClient := fun _ => none
    getDestinationClient := fun _ => none
    listBackups := none
    listRestores := none
    getAnnotations := .ok []
    GetBSL := .ok (some "bsl1")
    GetVSL := .ok (some "vsl1")
    getStagePodImage := .ok "stage-pod:latest"
    create := .ok "x7k2p"
    sliceOrder := fun _ => ⟨fun l => l, fun l => List.Perm.refl l⟩ }

/-- The two debug label keys are not among the keys of the lookup labels of the role (the
correlation labels and the role label), so writing them leaves the lookup labels as set. -/
def DebugLabelsApart (cfg : TaskEnv) (role : String) : Prop :=
  cfg.MigMigrationDebugLabel ∉ (roleLabels cfg role).map Prod.fst ∧
  cfg.MigPlanDebugLabel ∉ (roleLabels cfg role).map Prod.fst

instance (cfg : TaskEnv) (role : String) : Decidable (DebugLabelsApart cfg role) :=
  inferInstanceAs (Decidable (_ ∧ _))

/-- The resource lists of a backup spec against the default sets and the resources that the
plan excludes: the included list is the difference and the excluded list is the union, as
sets; no resource excluded by the plan is included, all of them are excluded; neither list
repeats an element. -/
def ResourceLists (spec : BackupSpec) (included excluded : StringSet)
    (planExcluded : List String) : Prop :=
  (∀ x, x ∈ spec.IncludedResources ↔ x ∈ included.elems ∧ x ∉ planExcluded) ∧
  (∀ x, x ∈ spec.ExcludedResources ↔ x ∈ excluded.elems ∨ x ∈ planExcluded) ∧
  (∀ x ∈ planExcluded, x ∉ spec.IncludedResources ∧ x ∈ spec.ExcludedResources) ∧
  spec.IncludedResources.Nodup ∧ spec.ExcludedResources.Nodup

/-- Scenario 1: owner `m1` with task UID `T1`, plan `plan1` with the namespace `ns1`; the
plan excludes `imagetags` and `routes`. -/
def scenarioEnv : TaskEnv :=
  { UID := "T1"
    OwnerName := "m1"
    MigPlanRefName := "plan1"
    CorrelationLabels := [("migmigration", "uid-1")]
    ExcludedResources := ["imagetags", "routes", "imagetags"]
    ResourceList := []
    sourceNamespaces := ["ns1"]
    namespaces := ["ns1"]
    VeleroNamespace := "velero"
    InitialBackupLabel := "initial-backup"
    StageBackupLabel := "stage-backup"
    StageRestoreLabel := "stage-restore"
    FinalRestoreLabel := "final-restore"
    MigMigrationDebugLabel := "migmigration-name"
    MigPlanDebugLabel := "migplan-name"
    IncludedInStageBackupLabel := "included-in-stage-backup"
    QuiesceAnnotationKey := "quiesce"
    StagePodImageAnnotationKey := "stage-pod-image"
    IncludedInitialResources := NewSetFromSlice ["routes", "services", "configmaps"]
    ExcludedInitialResources := NewSetFromSlice ["imagetags", "pods"]
    IncludedStageResources := NewSetFromSlice ["persistentvolumes", "routes"]
    ExcludedStageResources := NewSetFromSlice [] }

/-- The initial backup that scenario 1 creates on an empty source cluster. -/
def scenarioInitialBackup : Backup :=
  { Kind := "", Namespace := "velero", Name := "m1-x7k2p", GenerateName := "m1-",
    Labels := [("migmigration", "uid-1"), ("initial-backup", "T1"),
               ("migmigration-name", "m1"), ("migplan-name", "plan1")],
    Annotations := [],
    Spec := { IncludedNamespaces := ["ns1"], IncludedResources := ["services", "configmaps"],
              ExcludedResources := ["pods", "routes", "imagetags"], LabelSelector := none,
              StorageLocation := "bsl1", VolumeSnapshotLocations := ["vsl1"],
              TTL := 2592000000000000, IncludeClusterResources := none },
    Status := ⟨"", [], none, none, none⟩ }

/-- Every collaborator of a backup ensure answers without an error: the four source clients
are built, the label query and the `Create` go through, the annotations are computed, and
the plan has a storage and a snapshot location. -/
def BackupCallsSucceed (calls : Calls) : Prop :=
  calls.getSourceClient 0 = none ∧ calls.getSourceClient 1 = none ∧
  calls.getSourceClient 2 = none ∧ calls.getSourceClient 3 = none ∧
  calls.listBackups = none ∧
  (∃ annotations, calls.getAnnotations = .ok annotations) ∧
  (∃ location, calls.GetBSL = .ok (some location)) ∧
  (∃ location, calls.GetVSL = .ok (some location)) ∧
  (∃ suffix, calls.create = .ok suffix)

/-- The stage backup that scenario 1 creates on an empty source cluster. -/
def scenarioStageBackup : Backup :=
  { Kind := "", Namespace := "velero", Name := "m1-x7k2p", GenerateName := "m1-",
    Labels := [("migmigration", "uid-1"), ("stage-backup", "T1"),
               ("migmigration-name", "m1"), ("migplan-name", "plan1")],
    Annotations := [],
    Spec := { IncludedNamespaces := ["ns1"], IncludedResources := ["persistentvolumes"],
              ExcludedResources := ["routes", "imagetags"],
              LabelSelector := some [("included-in-stage-backup", "T1")],
              StorageLocation := "bsl1", VolumeSnapshotLocations := ["vsl1"],
              TTL := 2592000000000000, IncludeClusterResources := none },
    Status := ⟨"", [], none, none, none⟩ }

/-! ## The velero runner task (velerorunner/task.go) -/

/-- Phase `Started` (task.go:17). -/
abbrev Started : String := ""
/-- Phase `WaitOnResticRestart` (task.go:18). -/
abbrev WaitOnResticRestart : String := "WaitOnResticRestart"
/-- Phase `ResticRestartCompleted` (task.go:19). -/
abbrev ResticRestartCompleted : String := "ResticRestartCompleted"
/-- Phase `BackupStarted` (task.go:20). -/
abbrev BackupStarted : String := "BackupStarted"
/-- Phase `BackupCompleted` (task.go:21). -/
abbrev BackupCompleted : String := "BackupCompleted"
/-- Phase `BackupFailed` (task.go:22). -/
abbrev BackupFailed : String := "BackupFailed"
/-- Phase `WaitOnBackupReplication` (task.go:23). -/
abbrev WaitOnBackupReplication : String := "WaitOnBackupReplication"
/-- Phase `BackupReplicated` (task.go:24). -/
abbrev BackupReplicated : String := "BackupReplicated"
/-- Phase `RestoreStarted` (task.go:25). -/
abbrev RestoreStarted : String := "RestoreStarted"
/-- Phase `RestoreCompleted` (task.go:26). -/
abbrev RestoreCompleted : String := "RestoreCompleted"
/-- Phase `RestoreFailed` (task.go:27). -/
abbrev RestoreFailed : String := "RestoreFailed"
/-- Phase `Completed` (task.go:28). -/
abbrev Completed : String := "Completed"

/-- The phase constants declared in task.go:16-29. -/
def declaredPhases : List String :=
  [Started, WaitOnResticRestart, ResticRestartCompleted, BackupStarted, BackupCompleted,
   BackupFailed, WaitOnBackupReplication, BackupReplicated, RestoreStarted, RestoreCompleted,
   RestoreFailed, Completed]

/-- The `Task` of package `velerorunner` (task.go:41-53), the fields that `Run` reads or
assigns; `Backup` and `Restore` are pointers. -/
structure RunnerTask where
  Phase : String
  Backup : Option Backup
  Restore : Option Restore
deriving DecidableEq, Repr

/-- The methods that `Run` calls and that other files of the package declare; they are
parameters. Each receives the task, may change it, and returns an error (`none` is nil);
`getReplicatedBackup` also returns a backup pointer. A method is called at most once in a
run, so a function of the task describes whatever it does in that run. -/
structure RunnerSteps where
  bounceResticPod : RunnerTask → Option Error × RunnerTask
  ensureSrcMigRegistry : RunnerTask → Option Error × RunnerTask
  ensureBackup : RunnerTask → Option Error × RunnerTask
  getReplicatedBackup : RunnerTask → Except Error (Option Backup) × RunnerTask
  ensureDestMigRegistry : RunnerTask → Option Error × RunnerTask
  ensureRestore : RunnerTask → Option Error × RunnerTask

/-- What `Run` does, in order: the methods it calls and the phases it assigns. -/
inductive RunEvent where
  | bounceResticPod
  | ensureSrcMigRegistry
  | ensureBackup
  | getReplicatedBackup
  | ensureDestMigRegistry
  | ensureRestore
  | setPhase (phase : String)
deriving DecidableEq, Repr

/-- `Task.Run` (task.go:89-155); the logging of `logEnter` and `logExit` changes nothing.
Result: the error returned (`none` is nil) with the task afterwards, or `none` when the run
panics on a nil `t.Backup` or `t.Restore`; and the events of the run. -/
def Run (steps : RunnerSteps) (t : RunnerTask) :
    Option (Option Error × RunnerTask) × List RunEvent :=
  let log : List RunEvent := [.bounceResticPod]
  match steps.bounceResticPod t with
  | (some err, t) => (some (some err, t), log)
  | (none, t) =>
    if t.Phase = Started ∨ t.Phase = WaitOnResticRestart then (some (none, t), log)
    else
      let log := log ++ [.ensureSrcMigRegistry]
      match steps.ensureSrcMigRegistry t with
      | (some err, t) => (some (some err, t), log)
      | (none, t) =>
        let log := log ++ [.ensureBackup]
        match steps.ensureBackup t with
        | (some err, t) => (some (some err, t), log)
        | (none, t) =>
          match t.Backup with
          | none => (none, log)
          | some backup =>
            if backup.Status.Phase ≠ PhaseCompleted then
              (some (none, { t with Phase := BackupStarted }), log ++ [.setPhase BackupStarted])
            else
              let t := { t with Phase := BackupCompleted }
              let log := log ++ [.setPhase BackupCompleted]
              let t := { t with Phase := WaitOnBackupReplication }
              let log := log ++ [.setPhase WaitOnBackupReplication, .getReplicatedBackup]
              match steps.getReplicatedBackup t with
              | (.error err, t) => (some (some err, t), log)
              | (.ok none, t) => (some (none, t), log)
              | (.ok (some _), t) =>
                let t := { t with Phase := BackupReplicated }
                let log := log ++ [.setPhase BackupReplicated, .ensureDestMigRegistry]
                match steps.ensureDestMigRegistry t with
                | (some err, t) => (some (some err, t), log)
                | (none, t) =>
                  let log := log ++ [.ensureRestore]
                  match steps.ensureRestore t with
                  | (some err, t) => (some (some err, t), log)
                  | (none, t) =>
                    match t.Restore with
                    | none => (none, log)
                    | some restore =>
                      if restore.Status.Phase ≠ PhaseCompleted then
                        (some (none, { t with Phase := RestoreStarted }),
                          log ++ [.setPhase RestoreStarted])
                      else
                        let t := { t with Phase := RestoreCompleted }
                        let log := log ++ [.setPhase RestoreCompleted]
                        let t := { t with Phase := Completed }
                        (some (none, t), log ++ [.setPhase Completed])

/-- The run passes every gate of `Run`: the restic step is past, the ensured backup is
`Completed`, a replicated backup is found and the ensured restore is `Completed`, none of the
methods returning an error; `t6` is the task that `ensureRestore` leaves. -/
def RunPassesAll (steps : RunnerSteps) (t t6 : RunnerTask) : Prop :=
  ∃ t1 t2 t3 t4 t5 backup replicated restore,
    steps.bounceResticPod t = (none, t1) ∧
    t1.Phase ≠ Started ∧ t1.Phase ≠ WaitOnResticRestart ∧
    steps.ensureSrcMigRegistry t1 = (none, t2) ∧
    steps.ensureBackup t2 = (none, t3) ∧
    t3.Backup = some backup ∧ backup.Status.Phase = PhaseCompleted ∧
    steps.getReplicatedBackup { t3 with Phase := WaitOnBackupReplication } =
      (.ok (some replicated), t4) ∧
    steps.ensureDestMigRegistry { t4 with Phase := BackupReplicated } = (none, t5) ∧
    steps.ensureRestore t5 = (none, t6) ∧
    t6.Restore = some restore ∧ restore.Status.Phase = PhaseCompleted

/-- The run reaches `ensureRestore`: the restic step is past, the ensured backup is
`Completed` and a replicated backup is found. -/
def RunReachesRestore (steps : RunnerSteps) (t : RunnerTask) : Prop :=
  ∃ t1 t2 t3 t4 backup replicated,
    steps.bounceResticPod t = (none, t1) ∧
    t1.Phase ≠ Started ∧ t1.Phase ≠ WaitOnResticRestart ∧
    steps.ensureSrcMigRegistry t1 = (none, t2) ∧
    steps.ensureBackup t2 = (none, t3) ∧
    t3.Backup = some backup ∧ backup.Status.Phase = PhaseCompleted ∧
    steps.getReplicatedBackup { t3 with Phase := WaitOnBackupReplication } =
      (.ok (some replicated), t4)

/-- The method `getReplicatedBackup` is a query: it leaves the phase of the task as it is. -/
def KeepsPhase (steps : RunnerSteps) : Prop :=
  ∀ t, (steps.getReplicatedBackup t).2.Phase = t.Phase

/-- Collaborators for a run: the restic restart is done, the registries are in place,
`ensureBackup` and `ensureRestore` find the given backup and restore, and the backup is
replicated when `replicated` is set. -/
def scenarioSteps (backup : Backup) (replicated : Bool) (restore : Restore) : RunnerSteps :=
  { bounceResticPod := fun t => (none, { t with Phase := ResticRestartCompleted })
    ensureSrcMigRegistry := fun t => (none, t)
    ensureBackup := fun t => (none, { t with Backup := some backup })
    getReplicatedBackup := fun t => (.ok (if replicated then some backup else none), t)
    ensureDestMigRegistry := fun t => (none, t)
    ensureRestore := fun t => (none, { t with Restore := some restore }) }

/-- A restore `velero/r1` of the backup `b1` in the given phase. -/
def scenarioRestore (phase : String) : Restore :=
  ⟨"Restore", "velero", "r1", "", [], [], ⟨"b1", some true, [], none⟩, ⟨phase, []⟩⟩

/-! ## Lemmas: splitting and maps -/

theorem splitChars_ne_nil (sep : Char) (l : List Char) : splitChars sep l ≠ [] := by
  induction l with
  | nil => simp [splitChars]
  | cons c cs ih =>
    unfold splitChars
    split
    · simp
    · split <;> simp

theorem splitChars_single (sep : Char) (l a : List Char) :
    splitChars sep l = [a] ↔ l = a ∧ sep ∉ a := by
  induction l generalizing a with
  | nil =>
    simp only [splitChars, List.cons.injEq, and_true]
    constructor
    · intro h; subst h; simp
    · intro h; exact h.1
  | cons c cs ih =>
    unfold splitChars
    by_cases hc : c = sep
    · simp only [hc, if_true, List.cons.injEq]
      constructor
      · intro h; exact absurd h.2 (splitChars_ne_nil sep cs)
      · rintro ⟨h, hn⟩; subst h; simp at hn
    · simp only [hc, if_false]
      cases hs : splitChars sep cs with
      | nil => exact absurd hs (splitChars_ne_nil sep cs)
      | cons p ps =>
        simp only [List.cons.injEq]
        constructor
        · rintro ⟨h1, h2⟩
          subst h1 h2
          have := (ih p).1 hs
          refine ⟨by rw [this.1], ?_⟩
          simp only [List.mem_cons, not_or]
          exact ⟨fun h => hc h.symm, this.2⟩
        · rintro ⟨h1, h2⟩
          subst h1
          simp only [List.mem_cons, not_or] at h2
          have := (ih cs).2 ⟨rfl, h2.2⟩
          rw [hs] at this
          simp only [List.cons.injEq] at this
          exact ⟨by rw [this.1], this.2⟩

theorem splitChars_pair (sep : Char) (l a b : List Char) :
    splitChars sep l = [a, b] ↔ l = a ++ sep :: b ∧ sep ∉ a ∧ sep ∉ b := by
  induction l generalizing a with
  | nil => simp [splitChars]
  | cons c cs ih =>
    unfold splitChars
    by_cases hc : c = sep
    · simp only [hc, if_true, List.cons.injEq]
      constructor
      · rintro ⟨h1, h2⟩
        subst h1
        have := (splitChars_single sep cs b).1 h2
        exact ⟨by simp [this.1], by simp, this.2⟩
      · rintro ⟨h1, h2, h3⟩
        cases a with
        | nil =>
          simp only [List.nil_append, List.cons.injEq, true_and] at h1
          exact ⟨rfl, (splitChars_single sep cs b).2 ⟨h1, h3⟩⟩
        | cons x xs =>
          simp only [List.cons_append, List.cons.injEq] at h1
          simp only [List.mem_cons, not_or] at h2
          exact absurd h1.1 h2.1
    · simp only [hc, if_false]
      cases hs : splitChars sep cs with
      | nil => exact absurd hs (splitChars_ne_nil sep cs)
      | cons p ps =>
        simp only [List.cons.injEq]
        constructor
        · rintro ⟨h1, h2⟩
          subst h1 h2
          have := (ih p).1 hs
          refine ⟨by rw [this.1]; simp, ?_, this.2.2⟩
          simp only [List.mem_cons, not_or]
          exact ⟨fun h => hc h.symm, this.2.1⟩
        · rintro ⟨h1, h2, h3⟩
          cases a with
          | nil =>
            simp only [List.nil_append, List.cons.injEq] at h1
            exact absurd h1.1 hc
          | cons x xs =>
            simp only [List.cons_append, List.cons.injEq] at h1
            simp only [List.mem_cons, not_or] at h2
            have := (ih xs).2 ⟨h1.2, h2.2, h3⟩
            rw [hs] at this
            simp only [List.cons.injEq] at this
            exact ⟨by rw [h1.1, this.1], this.2⟩

theorem stringsSplit_pair (e s d : String) :
    stringsSplit e ':' = [s, d] ↔ e = s ++ ":" ++ d ∧ ':' ∉ s.data ∧ ':' ∉ d.data := by
  unfold stringsSplit
  constructor
  · intro h
    cases hs : splitChars ':' e.data with
    | nil => exact absurd hs (splitChars_ne_nil _ _)
    | cons a t =>
      rw [hs] at h
      cases t with
      | nil => simp at h
      | cons b t2 =>
        cases t2 with
        | cons _ _ => simp at h
        | nil =>
          simp only [List.map_cons, List.map_nil, List.cons.injEq, and_true] at h
          obtain ⟨h1, h2⟩ := h
          subst h1 h2
          have := (splitChars_pair ':' e.data a b).1 hs
          refine ⟨?_, this.2.1, this.2.2⟩
          apply String.ext
          simp [this.1]
  · rintro ⟨h1, h2, h3⟩
    have hd : e.data = s.data ++ ':' :: d.data := by rw [h1]; simp
    have := (splitChars_pair ':' e.data s.data d.data).2 ⟨hd, h2, h3⟩
    rw [this]
    rfl

theorem mapGet_mapSet {β : Type} (m : GoMap β) (k k' : String) (v : β) :
    mapGet (mapSet m k v) k' = if k = k' then some v else mapGet m k' := by
  induction m with
  | nil => simp [mapSet, mapGet]
  | cons p rest ih =>
    obtain ⟨a, b⟩ := p
    unfold mapSet
    by_cases h : a = k
    · subst h
      simp only [if_true, mapGet]
      split <;> rfl
    · simp only [h, if_false, mapGet]
      by_cases h2 : a = k'
      · subst h2
        simp [Ne.symm h]
      · simp only [h2, if_false]
        exact ih

theorem mapSet_ne_nil {β : Type} (m : GoMap β) (k : String) (v : β) : mapSet m k v ≠ [] := by
  cases m with
  | nil => simp [mapSet]
  | cons p rest =>
    obtain ⟨a, b⟩ := p
    unfold mapSet
    split <;> simp

theorem mapSet_keys {β : Type} (m : GoMap β) (k : String) (v : β) :
    (mapSet m k v).map Prod.fst =
      if k ∈ m.map Prod.fst then m.map Prod.fst else m.map Prod.fst ++ [k] := by
  induction m with
  | nil => simp [mapSet]
  | cons p rest ih =>
    obtain ⟨a, b⟩ := p
    unfold mapSet
    by_cases h : a = k
    · subst h; simp
    · have h' : ¬ k = a := fun e => h e.symm
      simp only [h, if_false, List.map_cons, ih, List.mem_cons, h', false_or]
      split <;> simp

theorem mapSet_nodup {β : Type} (m : GoMap β) (k : String) (v : β)
    (h : (m.map Prod.fst).Nodup) : ((mapSet m k v).map Prod.fst).Nodup := by
  rw [mapSet_keys]
  split
  · exact h
  · rename_i hk
    rw [List.nodup_append]
    refine ⟨h, List.nodup_singleton k, ?_⟩
    intro a ha hb
    simp only [List.mem_singleton] at hb
    subst hb
    exact hk ha

theorem Qualifies.split {e s d : String} (h : Qualifies e s d) :
    stringsSplit e ':' = [s, d] :=
  (stringsSplit_pair e s d).2 ⟨h.1, h.2.1, h.2.2.1⟩

theorem Qualifies.unique {e s d s' d' : String} (h : Qualifies e s d) (h' : Qualifies e s' d') :
    s = s' ∧ d = d' := by
  have h1 := h.split
  rw [h'.split] at h1
  simp only [List.cons.injEq, and_true] at h1
  exact ⟨h1.1.symm, h1.2.symm⟩

theorem namespaceMappingStep_cases (m : GoMap String) (e : String) :
    (∃ s d, Qualifies e s d ∧ namespaceMappingStep m e = mapSet m s d) ∨
    ((∀ s d, ¬ Qualifies e s d) ∧ namespaceMappingStep m e = m) := by
  unfold namespaceMappingStep
  split
  · rename_i m0 m1 hs
    have hp := (stringsSplit_pair e m0 m1).1 hs
    by_cases h01 : m0 = m1
    · right
      refine ⟨?_, by simp [h01]⟩
      intro s d hq
      have := hq.split
      rw [hs] at this
      simp only [List.cons.injEq, and_true] at this
      exact hq.2.2.2.1 (by rw [← this.1, ← this.2, h01])
    · by_cases h1 : m1 = ""
      · right
        refine ⟨?_, by simp [h01, h1]⟩
        intro s d hq
        have := hq.split
        rw [hs] at this
        simp only [List.cons.injEq, and_true] at this
        exact hq.2.2.2.2 (by rw [← this.2, h1])
      · left
        exact ⟨m0, m1, ⟨hp.1, hp.2.1, hp.2.2, fun h => h01 h.symm, h1⟩, by simp [h01, h1]⟩
  · rename_i hs
    right
    refine ⟨?_, rfl⟩
    intro s d hq
    exact hs s d hq.split

theorem LastFor_nil (s d : String) : ¬ LastFor [] s d := by
  rintro ⟨pre, e, post, h, _⟩
  simp at h

theorem LastFor_cons (e : String) (l : List String) (s d : String) :
    LastFor (e :: l) s d ↔
      LastFor l s d ∨ (Qualifies e s d ∧ ∀ e' ∈ l, ∀ d', ¬ Qualifies e' s d') := by
  constructor
  · rintro ⟨pre, x, post, h, hq, hn⟩
    cases pre with
    | nil =>
      simp only [List.nil_append, List.cons.injEq] at h
      obtain ⟨h1, h2⟩ := h
      subst h1 h2
      exact Or.inr ⟨hq, hn⟩
    | cons y ys =>
      simp only [List.cons_append, List.cons.injEq] at h
      exact Or.inl ⟨ys, x, post, h.2, hq, hn⟩
  · rintro (⟨pre, x, post, h, hq, hn⟩ | ⟨hq, hn⟩)
    · exact ⟨e :: pre, x, post, by simp [h], hq, hn⟩
    · exact ⟨[], e, l, rfl, hq, hn⟩

theorem LastFor.not_none {l : List String} {s d : String} (h : LastFor l s d) :
    ¬ ∀ e' ∈ l, ∀ d', ¬ Qualifies e' s d' := by
  obtain ⟨pre, x, post, h, hq, _⟩ := h
  intro hn
  exact hn x (by simp [h]) d hq

theorem foldl_namespaceMappingStep_get (l : List String) (m : GoMap String) (k d : String) :
    mapGet (l.foldl namespaceMappingStep m) k = some d ↔
      LastFor l k d ∨ ((∀ e ∈ l, ∀ d', ¬ Qualifies e k d') ∧ mapGet m k = some d) := by
  induction l generalizing m with
  | nil => simp [LastFor_nil]
  | cons e l ih =>
    rw [List.foldl_cons, ih, LastFor_cons]
    rcases namespaceMappingStep_cases m e with ⟨s, d0, hq, hstep⟩ | ⟨hnq, hstep⟩
    · rw [hstep, mapGet_mapSet]
      by_cases hsk : s = k
      · subst hsk
        simp only [if_true, Option.some.injEq, List.mem_cons, forall_eq_or_imp]
        constructor
        · rintro (h | ⟨hn, hd⟩)
          · exact Or.inl (Or.inl h)
          · subst hd; exact Or.inl (Or.inr ⟨hq, hn⟩)
        · rintro ((h | ⟨hq', hn⟩) | ⟨⟨hne, _⟩, _⟩)
          · exact Or.inl h
          · exact Or.inr ⟨hn, (hq.unique hq').2⟩
          · exact absurd hq (hne d0)
      · simp only [hsk, if_false, List.mem_cons, forall_eq_or_imp]
        have hne : ∀ d', ¬ Qualifies e k d' := fun d' hq' => hsk (hq.unique hq').1
        constructor
        · rintro (h | ⟨hn, hg⟩)
          · exact Or.inl (Or.inl h)
          · exact Or.inr ⟨⟨hne, hn⟩, hg⟩
        · rintro ((h | ⟨hq', _⟩) | ⟨⟨_, hn⟩, hg⟩)
          · exact Or.inl h
          · exact absurd hq' (hne d)
          · exact Or.inr ⟨hn, hg⟩
    · rw [hstep]
      simp only [List.mem_cons, forall_eq_or_imp]
      constructor
      · rintro (h | ⟨hn, hg⟩)
        · exact Or.inl (Or.inl h)
        · exact Or.inr ⟨⟨fun d' => hnq k d', hn⟩, hg⟩
      · rintro ((h | ⟨hq', _⟩) | ⟨⟨_, hn⟩, hg⟩)
        · exact Or.inl h
        · exact absurd hq' (hnq k d)
        · exact Or.inr ⟨hn, hg⟩

theorem foldl_namespaceMappingStep_nodup (l : List String) (m : GoMap String)
    (h : (m.map Prod.fst).Nodup) :
    ((l.foldl namespaceMappingStep m).map Prod.fst).Nodup := by
  induction l generalizing m with
  | nil => exact h
  | cons e l ih =>
    rw [List.foldl_cons]
    apply ih
    rcases namespaceMappingStep_cases m e with ⟨s, d0, _, hstep⟩ | ⟨_, hstep⟩
    · rw [hstep]; exact mapSet_nodup m s d0 h
    · rw [hstep]; exact h

theorem foldl_namespaceMappingStep_nil (l : List String) (m : GoMap String) :
    l.foldl namespaceMappingStep m = [] ↔ m = [] ∧ ∀ e ∈ l, ∀ s d, ¬ Qualifies e s d := by
  induction l generalizing m with
  | nil => simp
  | cons e l ih =>
    rw [List.foldl_cons, ih]
    simp only [List.mem_cons, forall_eq_or_imp]
    rcases namespaceMappingStep_cases m e with ⟨s, d0, hq, hstep⟩ | ⟨hnq, hstep⟩
    · rw [hstep]
      constructor
      · rintro ⟨h, _⟩; exact absurd h (mapSet_ne_nil m s d0)
      · rintro ⟨_, h, _⟩; exact absurd hq (h s d0)
    · rw [hstep]
      constructor
      · rintro ⟨h, hn⟩; exact ⟨h, hnq, hn⟩
      · rintro ⟨h, _, hn⟩; exact ⟨h, hn⟩

/-! ## Lemmas: the byte formatter -/

theorem pow1000_pos (k : Nat) : (0 : Int) < 1000 ^ k := by positivity

theorem int_div_div (B D c : Int) (hB : 0 ≤ B) (hD : 0 ≤ D) (hc : 0 ≤ c) :
    B / D / c = B / (D * c) := by
  lift B to Nat using hB
  lift D to Nat using hD
  lift c to Nat using hc
  norm_cast
  exact Nat.div_div_eq_div_mul _ _ _

theorem wrapInt64_of_isInt64 (x : Int) (h : IsInt64 x) : wrapInt64 x = x := by
  unfold IsInt64 minInt64 maxInt64 at h
  unfold wrapInt64
  omega

theorem bytesToSILoop_spec (B : Int) (hB : B ≤ maxInt64) :
    ∀ (fuel e : Nat) (n : Int), n = B / 1000 ^ (e + 1) → (1000 : Int) ^ (e + 1) ≤ B →
      n.toNat < fuel →
      ∃ k, e + 1 ≤ k ∧ bytesToSILoop fuel n (1000 ^ (e + 1)) e = some (1000 ^ k, k - 1) ∧
        (1000 : Int) ^ k ≤ B ∧ B < 1000 ^ (k + 1) := by
  intro fuel
  induction fuel with
  | zero => intro e n _ _ h; omega
  | succ fuel ih =>
    intro e n hn hle hfuel
    have hD := pow1000_pos (e + 1)
    have hB0 : 0 ≤ B := le_trans hD.le hle
    have hn0 : 0 ≤ n := by rw [hn]; exact Int.ediv_nonneg hB0 hD.le
    unfold bytesToSILoop
    by_cases hge : n ≥ baseUnit
    · simp only [hge, if_true]
      have hge' : (1000 : Int) ≤ B / 1000 ^ (e + 1) := by rw [← hn]; exact hge
      have hle2 : (1000 : Int) ^ (e + 1 + 1) ≤ B := by
        have := (Int.le_ediv_iff_mul_le hD).1 hge'
        rw [pow_succ]; linarith
      have hwrap : wrapInt64 (1000 ^ (e + 1) * baseUnit) = 1000 ^ (e + 1 + 1) := by
        rw [show (1000 : Int) ^ (e + 1) * baseUnit = 1000 ^ (e + 1 + 1) by
          rw [pow_succ (1000 : Int) (e + 1)]; rfl]
        apply wrapInt64_of_isInt64
        constructor
        · unfold minInt64; have := pow1000_pos (e + 1 + 1); omega
        · exact le_trans hle2 hB
      have hdiv : Int.tdiv n baseUnit = B / 1000 ^ (e + 1 + 1) := by
        rw [Int.tdiv_eq_ediv hn0 (by decide), hn, pow_succ (1000 : Int) (e + 1)]
        exact int_div_div B _ 1000 hB0 hD.le (by decide)
      have hfuel' : (Int.tdiv n baseUnit).toNat < fuel := by
        rw [Int.tdiv_eq_ediv hn0 (by decide)]
        unfold baseUnit at hge ⊢
        omega
      rw [hwrap]
      obtain ⟨k, hk1, hk2, hk3, hk4⟩ := ih (e + 1) _ hdiv hle2 hfuel'
      exact ⟨k, by omega, hk2, hk3, hk4⟩
    · simp only [hge, if_false]
      refine ⟨e + 1, le_refl _, by simp, hle, ?_⟩
      have hlt : B / 1000 ^ (e + 1) < 1000 := by rw [← hn]; unfold baseUnit at hge; omega
      have := (Int.ediv_lt_iff_lt_mul hD).1 hlt
      rw [pow_succ (1000 : Int) (e + 1)]; linarith

theorem bytesToSI_small (n : Int) (h : n < 1000) : bytesToSI n = some (toString n ++ " bytes") := by
  unfold bytesToSI baseUnit
  simp [h]

theorem bytesToSI_large (B : Int) (h1 : 1000 ≤ B) (h2 : B ≤ maxInt64) :
    ∃ k c, 1 ≤ k ∧ k ≤ 6 ∧ (1000 : Int) ^ k ≤ B ∧ B < 1000 ^ (k + 1) ∧
      siUnits.data[k - 1]? = some c ∧
      bytesToSI B = some (fmtFloat2 ((roundFloat64 B.toNat 1).div (roundFloat64 (1000 ^ k) 1))
        ++ " " ++ String.mk [c] ++ "B") := by
  obtain ⟨k, hk1, hk2, hk3, hk4⟩ :=
    bytesToSILoop_spec B h2 B.toNat 0 (Int.tdiv B baseUnit)
      (by rw [Int.tdiv_eq_ediv (by omega) (by decide)]; rfl) (by simpa using h1)
      (by rw [Int.tdiv_eq_ediv (by omega) (by decide)]; unfold baseUnit; omega)
  have hk6 : k ≤ 6 := by
    by_contra hcon
    have h7 : (1000 : Int) ^ 7 ≤ 1000 ^ k := pow_le_pow_right₀ (by norm_num) (by omega)
    unfold maxInt64 at h2
    have : (1000 : Int) ^ 7 ≤ 2 ^ 63 - 1 := le_trans h7 (le_trans hk3 h2)
    norm_num at this
  have hc : ∃ c, siUnits.data[k - 1]? = some c := by
    have : k - 1 < siUnits.data.length := by
      have : siUnits.data.length = 6 := by decide
      omega
    exact ⟨siUnits.data[k - 1], List.getElem?_eq_getElem this⟩
  obtain ⟨c, hc⟩ := hc
  refine ⟨k, c, hk1, hk6, hk3, hk4, hc, ?_⟩
  unfold bytesToSI
  have hnot : ¬ B < baseUnit := by unfold baseUnit; omega
  simp only [hnot, if_false]
  have hk2' : bytesToSILoop B.toNat (Int.tdiv B baseUnit) baseUnit 0
      = some ((1000 : Int) ^ k, k - 1) := by
    simp only [zero_add, pow_one] at hk2
    exact hk2
  rw [hk2']
  have hpos := pow1000_pos k
  simp only [hc, hpos, if_true]
  have : ((1000 : Int) ^ k).toNat = 1000 ^ k := by
    have : ((1000 : Int) ^ k) = ((1000 ^ k : Nat) : Int) := by norm_cast
    rw [this, Int.toNat_natCast]
  rw [this]

theorem toDigitsCore_digits (fuel n : Nat) (ds : List Char)
    (h : ∀ c ∈ ds, c.isDigit = true) : ∀ c ∈ Nat.toDigitsCore 10 fuel n ds, c.isDigit = true := by
  induction fuel generalizing n ds with
  | zero => simpa [Nat.toDigitsCore] using h
  | succ fuel ih =>
    have hd : (Nat.digitChar (n % 10)).isDigit = true := by
      have := Nat.mod_lt n (show 10 > 0 by norm_num)
      interval_cases (n % 10) <;> rfl
    have h' : ∀ c ∈ Nat.digitChar (n % 10) :: ds, c.isDigit = true := by
      intro c hc
      rcases List.mem_cons.1 hc with rfl | hc
      · exact hd
      · exact h c hc
    unfold Nat.toDigitsCore
    simp only []
    split
    · exact h'
    · exact ih _ _ h'

theorem natRepr_digits (n : Nat) : ∀ c ∈ (Nat.repr n).data, c.isDigit = true := by
  unfold Nat.repr Nat.toDigits
  simpa [List.asString] using toDigitsCore_digits (n + 1) n [] (by simp)

theorem digitChar_isDigit (d : Nat) : (digitChar d).isDigit = true := by
  unfold digitChar
  have := Nat.mod_lt d (show 10 > 0 by norm_num)
  interval_cases (d % 10) <;> rfl

theorem fmtHundredths_numeric (h : Nat) : NumericText (fmtHundredths h) := by
  intro c hc
  unfold fmtHundredths at hc
  simp only [String.data_append, List.mem_append, List.mem_cons, List.mem_singleton,
    List.not_mem_nil, or_false] at hc
  rcases hc with (hc | hc) | hc | hc
  · exact Or.inl (natRepr_digits _ c hc)
  · right; simpa using hc
  · subst hc; exact Or.inl (digitChar_isDigit _)
  · subst hc; exact Or.inl (digitChar_isDigit _)

theorem infix_of_append_of_disjoint {p : Char → Prop} (u a b : List Char) (hu : u ≠ [])
    (hup : ∀ c ∈ u, p c) (hap : ∀ c ∈ a, ¬ p c) (h : u <:+: a ++ b) : u <:+: b := by
  obtain ⟨s, t, h⟩ := h
  rw [List.append_assoc] at h
  rcases List.append_eq_append_iff.1 h with ⟨a', ha, hb⟩ | ⟨c', hs, hb⟩
  · cases a' with
    | nil =>
      simp only [List.nil_append] at hb
      exact ⟨[], t, by simpa using hb⟩
    | cons x xs =>
      cases u with
      | nil => exact absurd rfl hu
      | cons y ys =>
        simp only [List.cons_append, List.cons.injEq] at hb
        have hx : x ∈ a := by rw [ha]; simp
        exact absurd (hb.1 ▸ hup y (by simp)) (hap x hx)
  · exact ⟨c', t, by rw [hb]; simp⟩

theorem unitLiteral_of_letter (k : Nat) (h1 : 1 ≤ k) (h6 : k ≤ 6) (c : Char)
    (hc : siUnits.data[k - 1]? = some c) : unitLiterals[k]? = some (String.mk [c, 'B']) := by
  interval_cases k <;> simp [siUnits] at hc <;> subst hc <;> rfl

theorem bytesToSI_shape (n : Int) (h0 : 0 ≤ n) (hmax : n ≤ maxInt64) :
    ∃ k num u, k ≤ 6 ∧ (k = 0 ↔ n < 1000) ∧ (1 ≤ k → (1000 : Int) ^ k ≤ n) ∧
      n < 1000 ^ (k + 1) ∧ NumericText num ∧ unitLiterals[k]? = some u ∧
      (1 ≤ k → ∃ c, siUnits.data[k - 1]? = some c ∧ u = String.mk [c, 'B']) ∧
      (k = 0 → num = Nat.repr n.toNat) ∧
      bytesToSI n = some (num ++ " " ++ u) := by
  by_cases hsmall : n < 1000
  · obtain ⟨m, rfl⟩ := Int.eq_ofNat_of_zero_le h0
    refine ⟨0, Nat.repr m, "bytes", by omega, by simp [hsmall], by omega, by simpa using hsmall,
      fun c hc => Or.inl (natRepr_digits m c hc), rfl, by omega, fun _ => rfl, ?_⟩
    rw [bytesToSI_small _ hsmall]
    have h1 : toString (m : Int) = Nat.repr m := rfl
    rw [h1, String.append_assoc]
    rfl
  · obtain ⟨k, c, hk1, hk6, hk3, hk4, hc, hres⟩ := bytesToSI_large n (by omega) hmax
    refine ⟨k, fmtFloat2 ((roundFloat64 n.toNat 1).div (roundFloat64 (1000 ^ k) 1)),
      String.mk [c, 'B'], hk6, ?_, fun _ => hk3, hk4, fmtHundredths_numeric _,
      unitLiteral_of_letter k hk1 hk6 c hc, fun _ => ⟨c, hc, rfl⟩, by omega, ?_⟩
    · constructor
      · intro h; omega
      · intro h; exact absurd h hsmall
    · rw [hres, String.append_assoc]
      rfl

theorem unit_carried_iff (num u : String) (hn : NumericText num) (hu : u ∈ unitLiterals) :
    ∀ u' ∈ unitLiterals, u'.data <:+: (num ++ " " ++ u).data ↔ u' = u := by
  intro u' hu'
  constructor
  · intro h
    have hdata : (num ++ " " ++ u).data = (num.data ++ [' ']) ++ u.data := by simp
    rw [hdata] at h
    have hne : ∀ v ∈ unitLiterals, v.data ≠ [] := by decide
    have hp : ∀ v ∈ unitLiterals, ∀ c ∈ v.data, c.isDigit = false ∧ c ≠ '.' ∧ c ≠ ' ' := by
      decide
    have hfin : ∀ v ∈ unitLiterals, ∀ w ∈ unitLiterals, v.data <:+: w.data → v = w := by
      decide
    refine hfin u' hu' u hu (infix_of_append_of_disjoint u'.data _ _ (hne u' hu') (hp u' hu') ?_ h)
    intro c hc hpc
    rcases List.mem_append.1 hc with hc | hc
    · rcases hn c hc with hd | hd
      · rw [hd] at hpc; exact absurd hpc.1 (by simp)
      · exact hpc.2.1 hd
    · simp only [List.mem_singleton] at hc
      exact hpc.2.2 hc
  · rintro rfl
    exact ⟨(num ++ " ").data, [], by simp⟩

/-! ## Lemmas: the authorization probe -/

theorem mapSet_mapSet_same {β : Type} (m : GoMap β) (k : String) (v w : β) :
    mapSet (mapSet m k v) k w = mapSet m k w := by
  induction m with
  | nil => simp [mapSet]
  | cons p rest ih =>
    obtain ⟨a, b⟩ := p
    by_cases h : a = k
    · simp [mapSet, h]
    · simp [mapSet, h, ih]

theorem verbsLoop_ok (allow : Probe → Bool) (ns resource g r : String)
    (hs : stringsSplit resource '/' = [g, r]) (vs : List String) (log : List Probe) :
    (verbsLoop (fun p => .ok (allow p)) ns resource vs log).1 =
      some (.ok (vs.all fun v => allow ⟨v, g, r, ns, ""⟩)) := by
  induction vs generalizing log with
  | nil => simp [verbsLoop]
  | cons v rest ih =>
    unfold verbsLoop
    simp only [hs, List.getElem?_cons_zero, List.getElem?_cons_succ, List.all_cons]
    by_cases ha : allow ⟨v, g, r, ns, ""⟩ = true
    · simp only [ha, Bool.not_true, Bool.false_eq_true, if_false, Bool.true_and]
      exact ih _
    · simp only [Bool.not_eq_true] at ha
      simp [ha]

theorem resourcesLoop_ok (allow : Probe → Bool) (ns : String) (rs : List String)
    (ps : List (String × String))
    (h : List.Forall₂ (fun res p => stringsSplit res '/' = [p.1, p.2]) rs ps)
    (log : List Probe) :
    (resourcesLoop (fun p => .ok (allow p)) ns rs log).1 =
      some (.ok (ps.all fun p => migrateVerbs.all fun v => allow ⟨v, p.1, p.2, ns, ""⟩)) := by
  induction h generalizing log with
  | nil => simp [resourcesLoop]
  | @cons res p rs ps hsp _ ih =>
    unfold resourcesLoop
    have hv := verbsLoop_ok allow ns res p.1 p.2 hsp migrateVerbs log
    generalize verbsLoop (fun p => Except.ok (allow p)) ns res migrateVerbs log = out at hv ⊢
    obtain ⟨o, log'⟩ := out
    simp only at hv
    subst hv
    by_cases hall : (migrateVerbs.all fun v => allow ⟨v, p.1, p.2, ns, ""⟩) = true
    · simp only [hall, List.all_cons, Bool.true_and]
      exact ih log'
    · simp only [Bool.not_eq_true] at hall
      simp [hall]

theorem migrateResources_pairs :
    List.Forall₂ (fun res p => stringsSplit res '/' = [p.1, p.2]) migrateResources
      migratePairs := by
  unfold migrateResources migratePairs
  repeat (first | exact List.Forall₂.nil | refine List.Forall₂.cons (by decide) ?_)

/-- Decision of `AllowedAll`, as computed by the loops. -/
theorem allowedAll_iff (allow : Probe → Bool) (ns : String) :
    (migratePairs.all fun p => migrateVerbs.all fun v => allow ⟨v, p.1, p.2, ns, ""⟩) = true ↔
      AllowedAll allow ns := by
  unfold AllowedAll
  simp only [List.all_eq_true]
  constructor
  · intro h v hv gr hgr; exact h gr hgr v hv
  · intro h gr hgr v hv; exact h v hv gr hgr

theorem namespacesLoop_ok (allow : Probe → Bool) (nss : List String) (auth : GoMap Bool)
    (log : List Probe) :
    (namespacesLoop (fun p => .ok (allow p)) nss auth log).1 =
      some (.ok (nss.foldl (fun a ns => mapSet a ns
        (migratePairs.all fun p => migrateVerbs.all fun v => allow ⟨v, p.1, p.2, ns, ""⟩))
        auth)) := by
  induction nss generalizing auth log with
  | nil => simp [namespacesLoop]
  | cons ns rest ih =>
    unfold namespacesLoop
    have hr := resourcesLoop_ok allow ns migrateResources migratePairs migrateResources_pairs log
    generalize resourcesLoop (fun p => Except.ok (allow p)) ns migrateResources log = out at hr ⊢
    obtain ⟨o, log'⟩ := out
    simp only at hr
    subst hr
    simp only [List.foldl_cons]
    by_cases hall : (migratePairs.all fun p => migrateVerbs.all fun v =>
        allow ⟨v, p.1, p.2, ns, ""⟩) = true
    · simp only [hall]
      exact ih _ _
    · simp only [Bool.not_eq_true] at hall
      simp only [hall, mapSet_mapSet_same]
      exact ih _ _

theorem foldl_mapSet_get {β : Type} (f : String → β) (nss : List String) (auth : GoMap β)
    (k : String) :
    mapGet (nss.foldl (fun a ns => mapSet a ns (f ns)) auth) k =
      if k ∈ nss then some (f k) else mapGet auth k := by
  induction nss generalizing auth with
  | nil => simp
  | cons ns rest ih =>
    rw [List.foldl_cons, ih, mapGet_mapSet]
    by_cases h1 : k ∈ rest
    · simp [h1]
    · by_cases h2 : ns = k
      · subst h2; simp
      · have h3 : ¬ k = ns := fun e => h2 e.symm
        simp [h1, h2, h3]

theorem foldl_mapSet_nodup {β : Type} (f : String → β) (nss : List String) (auth : GoMap β)
    (h : (auth.map Prod.fst).Nodup) :
    ((nss.foldl (fun a ns => mapSet a ns (f ns)) auth).map Prod.fst).Nodup := by
  induction nss generalizing auth with
  | nil => exact h
  | cons ns rest ih =>
    rw [List.foldl_cons]
    exact ih _ (mapSet_nodup auth ns _ h)

/-! ## Lemmas: the progress extractor -/

theorem bytesToSI_isSome (n : Int) (h : IsInt64 n) : ∃ s, bytesToSI n = some s := by
  by_cases hs : n < 1000
  · exact ⟨_, bytesToSI_small n hs⟩
  · obtain ⟨k, c, _, _, _, _, _, hres⟩ := bytesToSI_large n (by omega) h.2
    exact ⟨_, hres⟩

theorem Message_message (rt : Runtime) (tick : Nat) (pvb : PodVolumeBackup) (msg : String)
    (p : Progress) (t' : Nat) (h : Message rt tick pvb msg = some (p, t')) :
    p.Message = msg := by
  unfold Message at h
  by_cases hp : pvb.Status.Progress ≠ ⟨0, 0⟩
  · rw [if_pos hp] at h
    cases ha : bytesToSI pvb.Status.Progress.TotalBytes <;>
      cases hb : bytesToSI pvb.Status.Progress.BytesDone <;>
      simp only [ha, hb, Option.some.injEq, Prod.mk.injEq, reduceCtorEq] at h
    rw [← h.1]
  · rw [if_neg hp] at h
    simp only [Option.some.injEq, Prod.mk.injEq] at h
    rw [← h.1]

theorem PVRMessage_message (rt : Runtime) (tick : Nat) (pvr : PodVolumeRestore) (msg : String)
    (p : Progress) (t' : Nat) (h : PVRMessage rt tick pvr msg = some (p, t')) :
    p.Message = msg := by
  unfold PVRMessage at h
  by_cases hp : pvr.Status.Progress ≠ ⟨0, 0⟩
  · rw [if_pos hp] at h
    cases ha : bytesToSI pvr.Status.Progress.TotalBytes <;>
      cases hb : bytesToSI pvr.Status.Progress.BytesDone <;>
      simp only [ha, hb, Option.some.injEq, Prod.mk.injEq, reduceCtorEq] at h
    rw [← h.1]
  · rw [if_neg hp] at h
    simp only [Option.some.injEq, Prod.mk.injEq] at h
    rw [← h.1]

theorem Message_isSome (rt : Runtime) (tick : Nat) (pvb : PodVolumeBackup) (msg : String)
    (h1 : IsInt64 pvb.Status.Progress.TotalBytes) (h2 : IsInt64 pvb.Status.Progress.BytesDone) :
    ∃ r, Message rt tick pvb msg = some r := by
  obtain ⟨a, ha⟩ := bytesToSI_isSome _ h1
  obtain ⟨b, hb⟩ := bytesToSI_isSome _ h2
  unfold Message
  rw [ha, hb]
  by_cases hp : pvb.Status.Progress ≠ ⟨0, 0⟩
  · simp only [if_pos hp]; exact ⟨_, rfl⟩
  · simp only [if_neg hp]; exact ⟨_, rfl⟩

theorem PVRMessage_isSome (rt : Runtime) (tick : Nat) (pvr : PodVolumeRestore) (msg : String)
    (h1 : IsInt64 pvr.Status.Progress.TotalBytes) (h2 : IsInt64 pvr.Status.Progress.BytesDone) :
    ∃ r, PVRMessage rt tick pvr msg = some r := by
  obtain ⟨a, ha⟩ := bytesToSI_isSome _ h1
  obtain ⟨b, hb⟩ := bytesToSI_isSome _ h2
  unfold PVRMessage
  rw [ha, hb]
  by_cases hp : pvr.Status.Progress ≠ ⟨0, 0⟩
  · simp only [if_pos hp]; exact ⟨_, rfl⟩
  · simp only [if_neg hp]; exact ⟨_, rfl⟩

theorem pvbSwitch_isSome (rt : Runtime) (tick : Nat) (msg : Progress) (pvb : PodVolumeBackup)
    (h : pvb.Status.Ready) : ∃ r, pvbSwitch rt tick msg pvb = some r := by
  obtain ⟨h1, h2, h3, h4⟩ := h
  obtain ⟨a, ha⟩ := bytesToSI_isSome _ h1
  obtain ⟨b, hb⟩ := bytesToSI_isSome _ h2
  unfold pvbSwitch
  by_cases p1 : pvb.Status.Phase = PodVolumePhaseInProgress
  · obtain ⟨s, hs⟩ := Option.ne_none_iff_exists'.1 (h3 p1)
    simp only [p1, if_true, ha, hb, hs]
    exact Message_isSome rt _ pvb _ h1 h2
  · by_cases p2 : pvb.Status.Phase = PodVolumePhaseCompleted
    · obtain ⟨s, hs⟩ := Option.ne_none_iff_exists'.1 (h4 (Or.inl p2)).1
      obtain ⟨c, hc⟩ := Option.ne_none_iff_exists'.1 (h4 (Or.inl p2)).2
      simp only [p1, p2, if_true, if_false, ha, hs, hc]
      exact Message_isSome rt _ pvb _ h1 h2
    · by_cases p3 : pvb.Status.Phase = PodVolumePhaseFailed
      · obtain ⟨s, hs⟩ := Option.ne_none_iff_exists'.1 (h4 (Or.inr p3)).1
        obtain ⟨c, hc⟩ := Option.ne_none_iff_exists'.1 (h4 (Or.inr p3)).2
        simp only [p1, p2, p3, if_true, if_false, hs, hc]
        exact Message_isSome rt _ pvb _ h1 h2
      · simp only [p1, p2, p3, if_false]
        exact ⟨_, rfl⟩

theorem pvrSwitch_isSome (rt : Runtime) (tick : Nat) (msg : Progress) (pvr : PodVolumeRestore)
    (h : pvr.Status.Ready) : ∃ r, pvrSwitch rt tick msg pvr = some r := by
  obtain ⟨h1, h2, h3, h4⟩ := h
  obtain ⟨a, ha⟩ := bytesToSI_isSome _ h1
  obtain ⟨b, hb⟩ := bytesToSI_isSome _ h2
  unfold pvrSwitch
  by_cases p1 : pvr.Status.Phase = PodVolumePhaseInProgress
  · obtain ⟨s, hs⟩ := Option.ne_none_iff_exists'.1 (h3 p1)
    simp only [p1, if_true, ha, hb, hs]
    exact PVRMessage_isSome rt _ pvr _ h1 h2
  · by_cases p2 : pvr.Status.Phase = PodVolumePhaseCompleted
    · obtain ⟨s, hs⟩ := Option.ne_none_iff_exists'.1 (h4 (Or.inl p2)).1
      obtain ⟨c, hc⟩ := Option.ne_none_iff_exists'.1 (h4 (Or.inl p2)).2
      simp only [p1, p2, if_true, if_false, ha, hs, hc]
      exact PVRMessage_isSome rt _ pvr _ h1 h2
    · by_cases p3 : pvr.Status.Phase = PodVolumePhaseFailed
      · obtain ⟨s, hs⟩ := Option.ne_none_iff_exists'.1 (h4 (Or.inr p3)).1
        obtain ⟨c, hc⟩ := Option.ne_none_iff_exists'.1 (h4 (Or.inr p3)).2
        simp only [p1, p2, p3, if_true, if_false, hs, hc]
        exact PVRMessage_isSome rt _ pvr _ h1 h2
      · simp only [p1, p2, p3, if_false]
        exact PVRMessage_isSome rt _ pvr _ h1 h2

theorem lit_merge (a b c X : String) (h : a ++ b = c) : a ++ (b ++ X) = c ++ X := by
  rw [← String.append_assoc, h]

theorem childMessage_inProgress (rt : Runtime) (kind verb noun : String) (tick : Nat)
    (ns name : String) (s : PodVolumeStatus) (h : s.Phase = PodVolumePhaseInProgress) :
    childMessage rt kind verb noun tick ns name s =
      kind ++ " " ++ ns ++ "/" ++ name ++ ": " ++ (bytesToSI s.Progress.BytesDone).getD "" ++
        " out of " ++ (bytesToSI s.Progress.TotalBytes).getD "" ++ " " ++ verb ++ " (" ++
        rt.durationString (timeSub (rt.now tick) (s.StartTimestamp.getD 0)) ++ ")" := by
  unfold childMessage childMessageBody
  rw [if_pos h]
  simp only [String.append_assoc]

theorem childMessage_completed (rt : Runtime) (kind verb noun : String) (tick : Nat)
    (ns name : String) (s : PodVolumeStatus) (h : s.Phase = PodVolumePhaseCompleted) :
    childMessage rt kind verb noun tick ns name s =
      kind ++ " " ++ ns ++ "/" ++ name ++ ": " ++ "Completed, " ++
        (bytesToSI s.Progress.TotalBytes).getD "" ++ " " ++ verb ++ " (" ++
        rt.durationString (timeSub (s.CompletionTimestamp.getD 0) (s.StartTimestamp.getD 0))
        ++ ")" := by
  unfold childMessage childMessageBody
  rw [if_neg (by rw [h]; decide), if_pos h]
  simp only [String.append_assoc]

theorem childMessage_failed (rt : Runtime) (kind verb noun : String) (tick : Nat)
    (ns name : String) (s : PodVolumeStatus) (h : s.Phase = PodVolumePhaseFailed) :
    childMessage rt kind verb noun tick ns name s =
      kind ++ " " ++ ns ++ "/" ++ name ++ ": " ++ "Failed (" ++
        rt.durationString (timeSub (s.CompletionTimestamp.getD 0) (s.StartTimestamp.getD 0))
        ++ ")" := by
  unfold childMessage childMessageBody
  rw [if_neg (by rw [h]; decide), if_neg (by rw [h]; decide), if_pos h]
  simp only [String.append_assoc]

theorem childMessage_waiting (rt : Runtime) (kind verb noun : String) (tick : Nat)
    (ns name : String) (s : PodVolumeStatus) (h1 : s.Phase ≠ PodVolumePhaseInProgress)
    (h2 : s.Phase ≠ PodVolumePhaseCompleted) (h3 : s.Phase ≠ PodVolumePhaseFailed) :
    childMessage rt kind verb noun tick ns name s =
      kind ++ " " ++ ns ++ "/" ++ name ++ ": " ++ "Waiting for ongoing volume " ++ noun ++
        "(s) to complete" := by
  unfold childMessage childMessageBody
  rw [if_neg h1, if_neg h2, if_neg h3]
  simp only [String.append_assoc]

theorem pvbSwitch_message (rt : Runtime) (tick : Nat) (msg : Progress) (pvb : PodVolumeBackup)
    (p : Progress) (t' : Nat) (h : pvbSwitch rt tick msg pvb = some (p, t')) :
    p.Message = childMessage rt "PodVolumeBackup" "backed up" "backup" tick
      pvb.Namespace pvb.Name pvb.Status := by
  unfold pvbSwitch at h
  by_cases p1 : pvb.Status.Phase = PodVolumePhaseInProgress
  · rw [if_pos p1] at h
    rw [childMessage_inProgress _ _ _ _ _ _ _ _ p1]
    cases ha : bytesToSI pvb.Status.Progress.BytesDone <;>
      cases hb : bytesToSI pvb.Status.Progress.TotalBytes <;>
      cases hs : pvb.Status.StartTimestamp <;>
      simp only [ha, hb, hs, reduceCtorEq] at h
    rw [Message_message _ _ _ _ _ _ h]
    simp only [Option.getD_some, String.append_assoc]
    rw [lit_merge "PodVolumeBackup" " " "PodVolumeBackup " _ (by decide),
      lit_merge "backed up" " (" "backed up (" _ (by decide),
      lit_merge " " "backed up (" " backed up (" _ (by decide)]
  · by_cases p2 : pvb.Status.Phase = PodVolumePhaseCompleted
    · rw [if_neg p1, if_pos p2] at h
      rw [childMessage_completed _ _ _ _ _ _ _ _ p2]
      cases hb : bytesToSI pvb.Status.Progress.TotalBytes <;>
        cases hc : pvb.Status.CompletionTimestamp <;>
        cases hs : pvb.Status.StartTimestamp <;>
        simp only [hb, hs, hc, reduceCtorEq] at h
      rw [Message_message _ _ _ _ _ _ h]
      simp only [Option.getD_some, String.append_assoc]
      rw [lit_merge "PodVolumeBackup" " " "PodVolumeBackup " _ (by decide),
        lit_merge ": " "Completed, " ": Completed, " _ (by decide),
        lit_merge "backed up" " (" "backed up (" _ (by decide),
        lit_merge " " "backed up (" " backed up (" _ (by decide)]
    · by_cases p3 : pvb.Status.Phase = PodVolumePhaseFailed
      · rw [if_neg p1, if_neg p2, if_pos p3] at h
        rw [childMessage_failed _ _ _ _ _ _ _ _ p3]
        cases hc : pvb.Status.CompletionTimestamp <;>
          cases hs : pvb.Status.StartTimestamp <;>
          simp only [hs, hc, reduceCtorEq] at h
        rw [Message_message _ _ _ _ _ _ h]
        simp only [Option.getD_some, String.append_assoc]
        rw [lit_merge "PodVolumeBackup" " " "PodVolumeBackup " _ (by decide),
          lit_merge ": " "Failed (" ": Failed (" _ (by decide)]
      · rw [if_neg p1, if_neg p2, if_neg p3] at h
        simp only [Option.some.injEq, Prod.mk.injEq] at h
        rw [childMessage_waiting _ _ _ _ _ _ _ _ p1 p2 p3, ← h.1]
        simp only [String.append_assoc]
        rw [lit_merge "PodVolumeBackup" " " "PodVolumeBackup " _ (by decide)]
        rfl

theorem pvrSwitch_message (rt : Runtime) (tick : Nat) (msg : Progress) (pvr : PodVolumeRestore)
    (p : Progress) (t' : Nat) (h : pvrSwitch rt tick msg pvr = some (p, t')) :
    (pvr.Status.Phase ≠ PodVolumePhaseFailed →
      p.Message = childMessage rt "PodVolumeRestore" "restored" "restore" tick
        pvr.Namespace pvr.Name pvr.Status) ∧
    (pvr.Status.Phase = PodVolumePhaseFailed →
      p.Message = "PodVolumeRestore " ++ pvr.Namespace ++ "/" ++ pvr.Name ++ ": Failed, (" ++
        rt.durationString (timeSub (pvr.Status.CompletionTimestamp.getD 0)
          (pvr.Status.StartTimestamp.getD 0)) ++ ")") := by
  unfold pvrSwitch at h
  by_cases p1 : pvr.Status.Phase = PodVolumePhaseInProgress
  · rw [if_pos p1] at h
    refine ⟨fun _ => ?_, fun hf => absurd (p1.symm.trans hf) (by decide)⟩
    rw [childMessage_inProgress _ _ _ _ _ _ _ _ p1]
    cases ha : bytesToSI pvr.Status.Progress.BytesDone <;>
      cases hb : bytesToSI pvr.Status.Progress.TotalBytes <;>
      cases hs : pvr.Status.StartTimestamp <;>
      simp only [ha, hb, hs, reduceCtorEq] at h
    rw [PVRMessage_message _ _ _ _ _ _ h]
    simp only [Option.getD_some, String.append_assoc]
    rw [lit_merge "PodVolumeRestore" " " "PodVolumeRestore " _ (by decide),
      lit_merge "restored" " (" "restored (" _ (by decide),
      lit_merge " " "restored (" " restored (" _ (by decide)]
  · by_cases p2 : pvr.Status.Phase = PodVolumePhaseCompleted
    · rw [if_neg p1, if_pos p2] at h
      refine ⟨fun _ => ?_, fun hf => absurd (p2.symm.trans hf) (by decide)⟩
      rw [childMessage_completed _ _ _ _ _ _ _ _ p2]
      cases hb : bytesToSI pvr.Status.Progress.TotalBytes <;>
        cases hc : pvr.Status.CompletionTimestamp <;>
        cases hs : pvr.Status.StartTimestamp <;>
        simp only [hb, hs, hc, reduceCtorEq] at h
      rw [PVRMessage_message _ _ _ _ _ _ h]
      simp only [Option.getD_some, String.append_assoc]
      rw [lit_merge "PodVolumeRestore" " " "PodVolumeRestore " _ (by decide),
        lit_merge ": " "Completed, " ": Completed, " _ (by decide),
        lit_merge "restored" " (" "restored (" _ (by decide),
        lit_merge " " "restored (" " restored (" _ (by decide)]
    · by_cases p3 : pvr.Status.Phase = PodVolumePhaseFailed
      · rw [if_neg p1, if_neg p2, if_pos p3] at h
        refine ⟨fun hf => absurd p3 hf, fun _ => ?_⟩
        cases hc : pvr.Status.CompletionTimestamp <;>
          cases hs : pvr.Status.StartTimestamp <;>
          simp only [hs, hc, reduceCtorEq] at h
        rw [PVRMessage_message _ _ _ _ _ _ h]
        simp only [Option.getD_some]
      · rw [if_neg p1, if_neg p2, if_neg p3] at h
        refine ⟨fun _ => ?_, fun hf => absurd hf p3⟩
        rw [childMessage_waiting _ _ _ _ _ _ _ _ p1 p2 p3, PVRMessage_message _ _ _ _ _ _ h]
        simp only [String.append_assoc]
        rw [lit_merge "PodVolumeRestore" " " "PodVolumeRestore " _ (by decide)]
        rfl

theorem childMessage_namesKey (rt : Runtime) (kind verb noun : String) (tick : Nat)
    (ns name : String) (s : PodVolumeStatus) :
    NamesKey kind (ns ++ "/" ++ name) (childMessage rt kind verb noun tick ns name s) := by
  unfold childMessage NamesKey
  exact ⟨childMessageBody rt verb noun tick s, by simp only [String.append_assoc]⟩

theorem pvbSwitch_namesKey (rt : Runtime) (tick : Nat) (msg : Progress) (pvb : PodVolumeBackup)
    (p : Progress) (t' : Nat) (h : pvbSwitch rt tick msg pvb = some (p, t')) :
    NamesKey "PodVolumeBackup" (pvbKey pvb) p.Message := by
  rw [pvbSwitch_message rt tick msg pvb p t' h]
  exact childMessage_namesKey _ _ _ _ _ _ _ _

theorem pvrSwitch_namesKey (rt : Runtime) (tick : Nat) (msg : Progress) (pvr : PodVolumeRestore)
    (p : Progress) (t' : Nat) (h : pvrSwitch rt tick msg pvr = some (p, t')) :
    NamesKey "PodVolumeRestore" (pvrKey pvr) p.Message := by
  have hm := pvrSwitch_message rt tick msg pvr p t' h
  by_cases p3 : pvr.Status.Phase = PodVolumePhaseFailed
  · rw [hm.2 p3]
    unfold pvrKey NamesKey
    refine ⟨"Failed, (" ++ rt.durationString (timeSub (pvr.Status.CompletionTimestamp.getD 0)
          (pvr.Status.StartTimestamp.getD 0)) ++ ")", ?_⟩
    simp only [String.append_assoc]
    rw [lit_merge "PodVolumeRestore" " " "PodVolumeRestore " _ (by decide),
      lit_merge ": " "Failed, (" ": Failed, (" _ (by decide)]
  · rw [hm.1 p3]
    exact childMessage_namesKey _ _ _ _ _ _ _ _

theorem childLoop_isSome {α : Type} (sw : Nat → Progress → α → Option (Progress × Nat))
    (key : α → String) (items : List α)
    (h : ∀ item ∈ items, ∀ tick msg, ∃ r, sw tick msg item = some r) (st : ChildLoop) :
    ∃ st', childLoop sw key items st = some st' := by
  induction items generalizing st with
  | nil => exact ⟨st, rfl⟩
  | cons item rest ih =>
    obtain ⟨⟨p, t⟩, hr⟩ := h item (by simp) st.tick st.msg
    unfold childLoop
    rw [hr]
    exact ih (fun i hi => h i (List.mem_cons_of_mem _ hi)) _

theorem childLoop_inv {α : Type} (sw : Nat → Progress → α → Option (Progress × Nat))
    (key : α → String) (items : List α) (st st' : ChildLoop)
    (h : childLoop sw key items st = some st') :
    st'.keys = st.keys ++ items.map key ∧
    (∀ k p, mapGet st'.m k = some p → mapGet st.m k = some p ∨
      ∃ item ∈ items, key item = k ∧ ∃ tick msg tick', sw tick msg item = some (p, tick')) ∧
    (∀ k, (k ∈ items.map key ∨ ∃ p, mapGet st.m k = some p) → ∃ p, mapGet st'.m k = some p) := by
  induction items generalizing st with
  | nil =>
    simp only [childLoop, Option.some.injEq] at h
    subst h
    refine ⟨by simp, fun k p hp => Or.inl hp, ?_⟩
    rintro k (hk | hk)
    · simp at hk
    · exact hk
  | cons item rest ih =>
    unfold childLoop at h
    cases hr : sw st.tick st.msg item with
    | none => rw [hr] at h; exact absurd h (by simp)
    | some r =>
      obtain ⟨p0, t0⟩ := r
      rw [hr] at h
      obtain ⟨h1, h2, h3⟩ := ih _ h
      refine ⟨by simp [h1], ?_, ?_⟩
      · intro k p hp
        rcases h2 k p hp with hm | ⟨i, hi, hk, hsw⟩
        · simp only [mapGet_mapSet] at hm
          by_cases hk : key item = k
          · simp only [hk, if_true, Option.some.injEq] at hm
            subst hm
            exact Or.inr ⟨item, by simp, hk, _, _, _, hr⟩
          · simp only [hk, if_false] at hm
            exact Or.inl hm
        · exact Or.inr ⟨i, List.mem_cons_of_mem _ hi, hk, hsw⟩
      · intro k hk
        apply h3
        simp only [mapGet_mapSet]
        by_cases hki : key item = k
        · right; simp [hki]
        · simp only [hki, if_false]
          rcases hk with hk | hk
          · simp only [List.map_cons, List.mem_cons] at hk
            rcases hk with hk | hk
            · exact absurd hk.symm hki
            · exact Or.inl hk
          · exact Or.inr hk

theorem sortStrings_perm (keys : List String) : (sortStrings keys).Perm keys :=
  List.perm_insertionSort keyLE keys

theorem sortStrings_sorted (keys : List String) : (sortStrings keys).Sorted keyLE :=
  List.sorted_insertionSort keyLE keys

theorem sortStrings_eq_of_perm (a b : List String) (h : a.Perm b) :
    sortStrings a = sortStrings b :=
  List.eq_of_perm_of_sorted
    ((sortStrings_perm a).trans (h.trans (sortStrings_perm b).symm))
    (sortStrings_sorted a) (sortStrings_sorted b)

theorem childLoop_emit {α : Type} (sw : Nat → Progress → α → Option (Progress × Nat))
    (key : α → String) (items : List α) (tick : Nat) (st' : ChildLoop)
    (h : childLoop sw key items ⟨[], [], Progress.zero, tick⟩ = some st') :
    (emitSorted st').length = items.length ∧
    List.Forall₂ (fun k p => ∃ item ∈ items, key item = k ∧
        ∃ tick msg tick', sw tick msg item = some (p, tick'))
      (sortStrings (items.map key)) (emitSorted st') := by
  obtain ⟨h1, h2, h3⟩ := childLoop_inv sw key items _ st' h
  simp only [List.nil_append] at h1
  unfold emitSorted
  rw [h1]
  refine ⟨by rw [List.length_map, (sortStrings_perm _).length_eq, List.length_map], ?_⟩
  rw [List.forall₂_map_right_iff, List.forall₂_same]
  intro k hk
  have hk' : k ∈ items.map key := (sortStrings_perm _).mem_iff.1 hk
  obtain ⟨p, hp⟩ := h3 k (Or.inl hk')
  rw [hp]
  rcases h2 k p hp with hm | hm
  · simp [mapGet] at hm
  · exact hm

theorem getPodVolumeBackupsProgress_isSome (rt : Runtime) (tick : Nat)
    (pvbs : List PodVolumeBackup) (h : ∀ pvb ∈ pvbs, pvb.Status.Ready) :
    ∃ r, getPodVolumeBackupsProgress rt tick pvbs = some r := by
  obtain ⟨st', hst⟩ := childLoop_isSome (pvbSwitch rt) pvbKey pvbs
    (fun pvb hp tick msg => pvbSwitch_isSome rt tick msg pvb (h pvb hp))
    ⟨[], [], Progress.zero, tick⟩
  unfold getPodVolumeBackupsProgress
  rw [hst]
  exact ⟨_, rfl⟩

theorem getPodVolumeRestoresProgress_isSome (rt : Runtime) (tick : Nat)
    (pvrs : Option (List PodVolumeRestore))
    (h : ∀ items, pvrs = some items → ∀ pvr ∈ items, pvr.Status.Ready) :
    ∃ r, getPodVolumeRestoresProgress rt tick pvrs = some r := by
  cases pvrs with
  | none => exact ⟨_, rfl⟩
  | some items =>
    obtain ⟨st', hst⟩ := childLoop_isSome (pvrSwitch rt) pvrKey items
      (fun pvr hp tick msg => pvrSwitch_isSome rt tick msg pvr (h items rfl pvr hp))
      ⟨[], [], Progress.zero, tick⟩
    unfold getPodVolumeRestoresProgress
    simp only [hst]
    exact ⟨_, rfl⟩

theorem hasBackupCompleted_new (rt : Runtime) (t : Task) (backup : Backup)
    (pvbs : List PodVolumeBackup) (h : backup.Status.Phase = PhaseNew) :
    hasBackupCompleted rt t backup pvbs =
      some ({ t with Progress :=
        [⟨"Backup " ++ backup.Namespace ++ "/" ++ backup.Name ++ ": Not started yet",
          backup.Status.StartTimestamp, some (rt.now 0),
          some [("Kind", backup.Kind), ("Name", backup.Name),
                ("Namespace", backup.Namespace)]⟩] }, false, []) := by
  unfold hasBackupCompleted
  rw [if_pos h]

theorem hasBackupCompleted_inProgress (rt : Runtime) (t : Task) (backup : Backup)
    (pvbs : List PodVolumeBackup) (h : backup.Status.Phase = PhaseInProgress) :
    hasBackupCompleted rt t backup pvbs =
      match backup.Status.Progress with
      | none => none
      | some p =>
        match getPodVolumeBackupsProgress rt 1 pvbs with
        | none => none
        | some (children, _) =>
          some ({ t with Progress :=
            ⟨"Backup " ++ backup.Namespace ++ "/" ++ backup.Name ++ ": " ++
                toString p.ItemsBackedUp ++ " out of estimated total of " ++
                toString p.TotalItems ++ " objects backed up",
              backup.Status.StartTimestamp, some (rt.now 0),
              some [("Kind", backup.Kind), ("Name", backup.Name),
                    ("Namespace", backup.Namespace),
                    ("ItemsBackedUp", goStringOfInt p.ItemsBackedUp),
                    ("TotalItems", goStringOfInt p.TotalItems)]⟩ :: children }, false, []) := by
  unfold hasBackupCompleted
  rw [if_neg (by rw [h]; decide), if_pos h]

theorem hasBackupCompleted_completed (rt : Runtime) (t : Task) (backup : Backup)
    (pvbs : List PodVolumeBackup) (h : backup.Status.Phase = PhaseCompleted) :
    hasBackupCompleted rt t backup pvbs =
      match backup.Status.Progress with
      | none => none
      | some p =>
        match getPodVolumeBackupsProgress rt 0 pvbs with
        | none => none
        | some (children, _) =>
          some ({ t with Progress :=
            ⟨"Backup " ++ backup.Namespace ++ "/" ++ backup.Name ++ ": Completed",
              backup.Status.StartTimestamp, backup.Status.CompletionTimestamp,
              some [("Kind", backup.Kind), ("Name", backup.Name),
                    ("Namespace", backup.Namespace),
                    ("ItemsBackedUp", goStringOfInt p.ItemsBackedUp),
                    ("TotalItems", goStringOfInt p.TotalItems)]⟩ :: children }, true, []) := by
  unfold hasBackupCompleted
  rw [if_neg (by rw [h]; decide), if_neg (by rw [h]; decide), if_pos h]

theorem hasBackupCompleted_failed (rt : Runtime) (t : Task) (backup : Backup)
    (pvbs : List PodVolumeBackup) (h : backup.Status.Phase = PhaseFailed) :
    hasBackupCompleted rt t backup pvbs =
      some ({ t with Progress := [] }, true,
        ["Backup: " ++ backup.Namespace ++ "/" ++ backup.Name ++ " failed."]) := by
  unfold hasBackupCompleted
  rw [if_neg (by rw [h]; decide), if_neg (by rw [h]; decide), if_neg (by rw [h]; decide),
    if_pos h]

theorem hasBackupCompleted_partiallyFailed (rt : Runtime) (t : Task) (backup : Backup)
    (pvbs : List PodVolumeBackup) (h : backup.Status.Phase = PhasePartiallyFailed) :
    hasBackupCompleted rt t backup pvbs =
      match getPodVolumeBackupsProgress rt 0 pvbs with
      | none => none
      | some (temp, _) =>
        some ({ t with Progress := [] }, true,
          ("Backup: " ++ backup.Namespace ++ "/" ++ backup.Name ++ " partially failed.") ::
            temp.map (fun pr => pr.Message)) := by
  unfold hasBackupCompleted
  rw [if_neg (by rw [h]; decide), if_neg (by rw [h]; decide), if_neg (by rw [h]; decide),
    if_neg (by rw [h]; decide), if_pos h]

theorem hasBackupCompleted_failedValidation (rt : Runtime) (t : Task) (backup : Backup)
    (pvbs : List PodVolumeBackup) (h : backup.Status.Phase = PhaseFailedValidation) :
    hasBackupCompleted rt t backup pvbs =
      some ({ t with Progress := [] }, true,
        backup.Status.ValidationErrors ++
          ["Backup: " ++ backup.Namespace ++ "/" ++ backup.Name ++ " validation failed."]) := by
  unfold hasBackupCompleted
  rw [if_neg (by rw [h]; decide), if_neg (by rw [h]; decide), if_neg (by rw [h]; decide),
    if_neg (by rw [h]; decide), if_neg (by rw [h]; decide), if_pos h]

theorem hasBackupCompleted_other (rt : Runtime) (t : Task) (backup : Backup)
    (pvbs : List PodVolumeBackup)
    (h : backup.Status.Phase ∉ [PhaseNew, PhaseInProgress, PhaseCompleted, PhaseFailed,
      PhasePartiallyFailed, PhaseFailedValidation]) :
    hasBackupCompleted rt t backup pvbs = some ({ t with Progress := [] }, false, []) := by
  simp only [List.mem_cons, List.mem_singleton, List.not_mem_nil, or_false, not_or] at h
  unfold hasBackupCompleted
  rw [if_neg h.1, if_neg h.2.1, if_neg h.2.2.1, if_neg h.2.2.2.1, if_neg h.2.2.2.2.1,
    if_neg h.2.2.2.2.2]

theorem hasRestoreCompleted_new (rt : Runtime) (t : Task) (restore : Restore)
    (pvrs : Option (List PodVolumeRestore)) (h : restore.Status.Phase = PhaseNew) :
    hasRestoreCompleted rt t restore pvrs =
      some ({ t with Progress :=
        [⟨"Restore " ++ restore.Namespace ++ "/" ++ restore.Name ++ ": Not started yet",
          none, none,
          some [("Kind", restore.Kind), ("Name", restore.Name),
                ("Namespace", restore.Namespace)]⟩] }, false, []) := by
  unfold hasRestoreCompleted
  rw [if_pos h]

theorem hasRestoreCompleted_inProgress (rt : Runtime) (t : Task) (restore : Restore)
    (pvrs : Option (List PodVolumeRestore)) (h : restore.Status.Phase = PhaseInProgress) :
    hasRestoreCompleted rt t restore pvrs =
      match getPodVolumeRestoresProgress rt 0 pvrs with
      | none => none
      | some (children, _) =>
        some ({ t with Progress :=
          ⟨"Restore " ++ restore.Namespace ++ "/" ++ restore.Name ++ ": " ++
              restore.Status.Phase, none, none,
            some [("Kind", restore.Kind), ("Name", restore.Name),
                  ("Namespace", restore.Namespace),
                  ("Phase", restore.Status.Phase)]⟩ :: children }, false, []) := by
  unfold hasRestoreCompleted
  rw [if_neg (by rw [h]; decide), if_pos h]

theorem hasRestoreCompleted_completed (rt : Runtime) (t : Task) (restore : Restore)
    (pvrs : Option (List PodVolumeRestore)) (h : restore.Status.Phase = PhaseCompleted) :
    hasRestoreCompleted rt t restore pvrs =
      match getPodVolumeRestoresProgress rt 0 pvrs with
      | none => none
      | some (children, _) =>
        some ({ t with Progress :=
          ⟨"Restore " ++ restore.Namespace ++ "/" ++ restore.Name ++ ": " ++
              restore.Status.Phase, none, none,
            some [("Kind", restore.Kind), ("Name", restore.Name),
                  ("Namespace", restore.Namespace),
                  ("Phase", restore.Status.Phase)]⟩ :: children }, true, []) := by
  unfold hasRestoreCompleted
  rw [if_neg (by rw [h]; decide), if_neg (by rw [h]; decide), if_pos h]

theorem hasRestoreCompleted_failed (rt : Runtime) (t : Task) (restore : Restore)
    (pvrs : Option (List PodVolumeRestore)) (h : restore.Status.Phase = PhaseFailed) :
    hasRestoreCompleted rt t restore pvrs =
      some ({ t with Progress := [] }, true,
        ["Restore: " ++ restore.Namespace ++ "/" ++ restore.Name ++ " failed."]) := by
  unfold hasRestoreCompleted
  rw [if_neg (by rw [h]; decide), if_neg (by rw [h]; decide), if_neg (by rw [h]; decide),
    if_pos h]

theorem hasRestoreCompleted_partiallyFailed (rt : Runtime) (t : Task) (restore : Restore)
    (pvrs : Option (List PodVolumeRestore)) (h : restore.Status.Phase = PhasePartiallyFailed) :
    hasRestoreCompleted rt t restore pvrs =
      match getPodVolumeRestoresProgress rt 0 pvrs with
      | none => none
      | some (temp, _) =>
        some ({ t with Progress := [] }, true,
          ("Restore: " ++ restore.Namespace ++ "/" ++ restore.Name ++ " partially failed.") ::
            temp.map (fun pr => pr.Message)) := by
  unfold hasRestoreCompleted
  rw [if_neg (by rw [h]; decide), if_neg (by rw [h]; decide), if_neg (by rw [h]; decide),
    if_neg (by rw [h]; decide), if_pos h]

theorem hasRestoreCompleted_failedValidation (rt : Runtime) (t : Task) (restore : Restore)
    (pvrs : Option (List PodVolumeRestore)) (h : restore.Status.Phase = PhaseFailedValidation) :
    hasRestoreCompleted rt t restore pvrs =
      some ({ t with Progress := [] }, true,
        restore.Status.ValidationErrors ++
          ["Restore: " ++ restore.Namespace ++ "/" ++ restore.Name ++ " validation failed."]) := by
  unfold hasRestoreCompleted
  rw [if_neg (by rw [h]; decide), if_neg (by rw [h]; decide), if_neg (by rw [h]; decide),
    if_neg (by rw [h]; decide), if_neg (by rw [h]; decide), if_pos h]

theorem hasRestoreCompleted_other (rt : Runtime) (t : Task) (restore : Restore)
    (pvrs : Option (List PodVolumeRestore))
    (h : restore.Status.Phase ∉ [PhaseNew, PhaseInProgress, PhaseCompleted, PhaseFailed,
      PhasePartiallyFailed, PhaseFailedValidation]) :
    hasRestoreCompleted rt t restore pvrs = some ({ t with Progress := [] }, false, []) := by
  simp only [List.mem_cons, List.mem_singleton, List.not_mem_nil, or_false, not_or] at h
  unfold hasRestoreCompleted
  rw [if_neg h.1, if_neg h.2.1, if_neg h.2.2.1, if_neg h.2.2.2.1, if_neg h.2.2.2.2.1,
    if_neg h.2.2.2.2.2]

theorem phase_cases (ph : String) :
    ph = PhaseNew ∨ ph = PhaseInProgress ∨ ph = PhaseCompleted ∨ ph = PhaseFailed ∨
    ph = PhasePartiallyFailed ∨ ph = PhaseFailedValidation ∨
    ph ∉ [PhaseNew, PhaseInProgress, PhaseCompleted, PhaseFailed, PhasePartiallyFailed,
      PhaseFailedValidation] := by
  simp only [List.mem_cons, List.mem_singleton, List.not_mem_nil, or_false]
  tauto

theorem hasBackupCompleted_flags (rt : Runtime) (t : Task) (backup : Backup)
    (pvbs : List PodVolumeBackup) (r : Task × Bool × List String)
    (h : hasBackupCompleted rt t backup pvbs = some r) :
    (r.2.1 = true ↔ backup.Status.Phase ∈
      [PhaseCompleted, PhaseFailed, PhasePartiallyFailed, PhaseFailedValidation]) ∧
    (backup.Status.Phase ∈ [PhaseNew, PhaseInProgress, PhaseCompleted] → r.2.2 = []) := by
  rcases phase_cases backup.Status.Phase with hp | hp | hp | hp | hp | hp | hp
  · rw [hasBackupCompleted_new rt t backup pvbs hp] at h
    simp only [Option.some.injEq] at h
    subst h
    rw [hp]; exact ⟨⟨fun hc => absurd hc (by simp), fun hm => absurd hm (by decide)⟩, fun _ => rfl⟩
  · rw [hasBackupCompleted_inProgress rt t backup pvbs hp] at h
    cases hpr : backup.Status.Progress <;> rw [hpr] at h <;> simp only [reduceCtorEq] at h
    cases hc : getPodVolumeBackupsProgress rt 1 pvbs <;> rw [hc] at h <;>
      simp only [reduceCtorEq, Option.some.injEq] at h
    subst h
    rw [hp]; exact ⟨⟨fun hc => absurd hc (by simp), fun hm => absurd hm (by decide)⟩, fun _ => rfl⟩
  · rw [hasBackupCompleted_completed rt t backup pvbs hp] at h
    cases hpr : backup.Status.Progress <;> rw [hpr] at h <;> simp only [reduceCtorEq] at h
    cases hc : getPodVolumeBackupsProgress rt 0 pvbs <;> rw [hc] at h <;>
      simp only [reduceCtorEq, Option.some.injEq] at h
    subst h
    rw [hp]; exact ⟨⟨fun _ => by decide, fun _ => rfl⟩, fun _ => rfl⟩
  · rw [hasBackupCompleted_failed rt t backup pvbs hp] at h
    simp only [Option.some.injEq] at h
    subst h
    rw [hp]; exact ⟨⟨fun _ => by decide, fun _ => rfl⟩, fun hm => absurd hm (by decide)⟩
  · rw [hasBackupCompleted_partiallyFailed rt t backup pvbs hp] at h
    cases hc : getPodVolumeBackupsProgress rt 0 pvbs <;> rw [hc] at h <;>
      simp only [reduceCtorEq, Option.some.injEq] at h
    subst h
    rw [hp]; exact ⟨⟨fun _ => by decide, fun _ => rfl⟩, fun hm => absurd hm (by decide)⟩
  · rw [hasBackupCompleted_failedValidation rt t backup pvbs hp] at h
    simp only [Option.some.injEq] at h
    subst h
    rw [hp]; exact ⟨⟨fun _ => by decide, fun _ => rfl⟩, fun hm => absurd hm (by decide)⟩
  · rw [hasBackupCompleted_other rt t backup pvbs hp] at h
    simp only [Option.some.injEq] at h
    subst h
    simp only [List.mem_cons, List.mem_singleton, List.not_mem_nil, or_false, not_or] at hp
    refine ⟨?_, fun _ => rfl⟩
    simp [hp.2.2.1, hp.2.2.2.1, hp.2.2.2.2.1, hp.2.2.2.2.2]

theorem hasRestoreCompleted_flags (rt : Runtime) (t : Task) (restore : Restore)
    (pvrs : Option (List PodVolumeRestore)) (r : Task × Bool × List String)
    (h : hasRestoreCompleted rt t restore pvrs = some r) :
    (r.2.1 = true ↔ restore.Status.Phase ∈
      [PhaseCompleted, PhaseFailed, PhasePartiallyFailed, PhaseFailedValidation]) ∧
    (restore.Status.Phase ∈ [PhaseNew, PhaseInProgress, PhaseCompleted] → r.2.2 = []) := by
  rcases phase_cases restore.Status.Phase with hp | hp | hp | hp | hp | hp | hp
  · rw [hasRestoreCompleted_new rt t restore pvrs hp] at h
    simp only [Option.some.injEq] at h
    subst h
    rw [hp]; exact ⟨⟨fun hc => absurd hc (by simp), fun hm => absurd hm (by decide)⟩, fun _ => rfl⟩
  · rw [hasRestoreCompleted_inProgress rt t restore pvrs hp] at h
    cases hc : getPodVolumeRestoresProgress rt 0 pvrs <;> rw [hc] at h <;>
      simp only [reduceCtorEq, Option.some.injEq] at h
    subst h
    rw [hp]; exact ⟨⟨fun hc => absurd hc (by simp), fun hm => absurd hm (by decide)⟩, fun _ => rfl⟩
  · rw [hasRestoreCompleted_completed rt t restore pvrs hp] at h
    cases hc : getPodVolumeRestoresProgress rt 0 pvrs <;> rw [hc] at h <;>
      simp only [reduceCtorEq, Option.some.injEq] at h
    subst h
    rw [hp]; exact ⟨⟨fun _ => by decide, fun _ => rfl⟩, fun _ => rfl⟩
  · rw [hasRestoreCompleted_failed rt t restore pvrs hp] at h
    simp only [Option.some.injEq] at h
    subst h
    rw [hp]; exact ⟨⟨fun _ => by decide, fun _ => rfl⟩, fun hm => absurd hm (by decide)⟩
  · rw [hasRestoreCompleted_partiallyFailed rt t restore pvrs hp] at h
    cases hc : getPodVolumeRestoresProgress rt 0 pvrs <;> rw [hc] at h <;>
      simp only [reduceCtorEq, Option.some.injEq] at h
    subst h
    rw [hp]; exact ⟨⟨fun _ => by decide, fun _ => rfl⟩, fun hm => absurd hm (by decide)⟩
  · rw [hasRestoreCompleted_failedValidation rt t restore pvrs hp] at h
    simp only [Option.some.injEq] at h
    subst h
    rw [hp]; exact ⟨⟨fun _ => by decide, fun _ => rfl⟩, fun hm => absurd hm (by decide)⟩
  · rw [hasRestoreCompleted_other rt t restore pvrs hp] at h
    simp only [Option.some.injEq] at h
    subst h
    simp only [List.mem_cons, List.mem_singleton, List.not_mem_nil, or_false, not_or] at hp
    refine ⟨?_, fun _ => rfl⟩
    simp [hp.2.2.1, hp.2.2.2.1, hp.2.2.2.2.1, hp.2.2.2.2.2]

theorem hasBackupCompleted_isSome (rt : Runtime) (t : Task) (backup : Backup)
    (pvbs : List PodVolumeBackup) (h : BackupReady backup pvbs) :
    ∃ r, hasBackupCompleted rt t backup pvbs = some r := by
  obtain ⟨h1, h2⟩ := h
  rcases phase_cases backup.Status.Phase with hp | hp | hp | hp | hp | hp | hp
  · exact ⟨_, hasBackupCompleted_new rt t backup pvbs hp⟩
  · rw [hasBackupCompleted_inProgress rt t backup pvbs hp]
    obtain ⟨p, hpr⟩ := Option.ne_none_iff_exists'.1 (h1 (Or.inl hp))
    obtain ⟨⟨c, n⟩, hc⟩ := getPodVolumeBackupsProgress_isSome rt 1 pvbs (h2 (Or.inl hp))
    rw [hpr, hc]
    exact ⟨_, rfl⟩
  · rw [hasBackupCompleted_completed rt t backup pvbs hp]
    obtain ⟨p, hpr⟩ := Option.ne_none_iff_exists'.1 (h1 (Or.inr hp))
    obtain ⟨⟨c, n⟩, hc⟩ := getPodVolumeBackupsProgress_isSome rt 0 pvbs (h2 (Or.inr (Or.inl hp)))
    rw [hpr, hc]
    exact ⟨_, rfl⟩
  · exact ⟨_, hasBackupCompleted_failed rt t backup pvbs hp⟩
  · rw [hasBackupCompleted_partiallyFailed rt t backup pvbs hp]
    obtain ⟨⟨c, n⟩, hc⟩ := getPodVolumeBackupsProgress_isSome rt 0 pvbs (h2 (Or.inr (Or.inr hp)))
    rw [hc]
    exact ⟨_, rfl⟩
  · exact ⟨_, hasBackupCompleted_failedValidation rt t backup pvbs hp⟩
  · exact ⟨_, hasBackupCompleted_other rt t backup pvbs hp⟩

theorem hasRestoreCompleted_isSome (rt : Runtime) (t : Task) (restore : Restore)
    (pvrs : Option (List PodVolumeRestore)) (h : RestoreReady restore pvrs) :
    ∃ r, hasRestoreCompleted rt t restore pvrs = some r := by
  rcases phase_cases restore.Status.Phase with hp | hp | hp | hp | hp | hp | hp
  · exact ⟨_, hasRestoreCompleted_new rt t restore pvrs hp⟩
  · rw [hasRestoreCompleted_inProgress rt t restore pvrs hp]
    obtain ⟨⟨c, n⟩, hc⟩ := getPodVolumeRestoresProgress_isSome rt 0 pvrs (h (Or.inl hp))
    rw [hc]
    exact ⟨_, rfl⟩
  · rw [hasRestoreCompleted_completed rt t restore pvrs hp]
    obtain ⟨⟨c, n⟩, hc⟩ := getPodVolumeRestoresProgress_isSome rt 0 pvrs (h (Or.inr (Or.inl hp)))
    rw [hc]
    exact ⟨_, rfl⟩
  · exact ⟨_, hasRestoreCompleted_failed rt t restore pvrs hp⟩
  · rw [hasRestoreCompleted_partiallyFailed rt t restore pvrs hp]
    obtain ⟨⟨c, n⟩, hc⟩ := getPodVolumeRestoresProgress_isSome rt 0 pvrs (h (Or.inr (Or.inr hp)))
    rw [hc]
    exact ⟨_, rfl⟩
  · exact ⟨_, hasRestoreCompleted_failedValidation rt t restore pvrs hp⟩
  · exact ⟨_, hasRestoreCompleted_other rt t restore pvrs hp⟩

theorem childLoop_order {α : Type} (sw : Nat → Progress → α → Option (Progress × Nat))
    (key : α → String) (kind : String)
    (hnames : ∀ tick msg item p t', sw tick msg item = some (p, t') →
      NamesKey kind (key item) p.Message)
    (items : List α) (hnodup : (items.map key).Nodup) (tick : Nat) (st' : ChildLoop)
    (h : childLoop sw key items ⟨[], [], Progress.zero, tick⟩ = some st') :
    EmitsInKeyOrder kind key items (emitSorted st') := by
  obtain ⟨hlen, hall⟩ := childLoop_emit sw key items tick st' h
  refine ⟨hlen, hall.imp ?_⟩
  rintro k p ⟨item, hmem, hkey, tk, msg, t', hsw⟩
  refine ⟨hkey ▸ hnames tk msg item p t' hsw, item, ⟨hmem, hkey⟩, ?_⟩
  rintro other ⟨hmem', hkey'⟩
  exact List.inj_on_of_nodup_map hnodup hmem' hmem (hkey'.trans hkey.symm)

theorem getPodVolumeBackupsProgress_order (rt : Runtime) (tick : Nat)
    (pvbs : List PodVolumeBackup) (hnodup : (pvbs.map pvbKey).Nodup)
    (es : List Progress) (t' : Nat)
    (h : getPodVolumeBackupsProgress rt tick pvbs = some (es, t')) :
    EmitsInKeyOrder "PodVolumeBackup" pvbKey pvbs es := by
  unfold getPodVolumeBackupsProgress at h
  cases hc : childLoop (pvbSwitch rt) pvbKey pvbs ⟨[], [], Progress.zero, tick⟩ with
  | none => rw [hc] at h; exact absurd h (by simp)
  | some st =>
    rw [hc] at h
    simp only [Option.some.injEq, Prod.mk.injEq] at h
    rw [← h.1]
    exact childLoop_order (pvbSwitch rt) pvbKey "PodVolumeBackup"
      (pvbSwitch_namesKey rt) pvbs hnodup tick st hc

theorem getPodVolumeRestoresProgress_order (rt : Runtime) (tick : Nat)
    (pvrs : List PodVolumeRestore) (hnodup : (pvrs.map pvrKey).Nodup)
    (es : List Progress) (t' : Nat)
    (h : getPodVolumeRestoresProgress rt tick (some pvrs) = some (es, t')) :
    EmitsInKeyOrder "PodVolumeRestore" pvrKey pvrs es := by
  unfold getPodVolumeRestoresProgress at h
  cases hc : childLoop (pvrSwitch rt) pvrKey pvrs ⟨[], [], Progress.zero, tick⟩ with
  | none => simp only [hc] at h; exact absurd h (by simp)
  | some st =>
    simp only [hc, Option.some.injEq, Prod.mk.injEq] at h
    rw [← h.1]
    exact childLoop_order (pvrSwitch rt) pvrKey "PodVolumeRestore"
      (pvrSwitch_namesKey rt) pvrs hnodup tick st hc

theorem emitsInKeyOrder_perm {α : Type} (kind : String) (key : α → String)
    (items items' : List α) (hp : items.Perm items') (es : List Progress)
    (h : EmitsInKeyOrder kind key items' es) : EmitsInKeyOrder kind key items es := by
  obtain ⟨hlen, hall⟩ := h
  refine ⟨by rw [hlen, hp.length_eq], ?_⟩
  rw [sortStrings_eq_of_perm _ _ (hp.map key)]
  refine hall.imp ?_
  rintro k p ⟨hn, item, ⟨hm, hk⟩, huniq⟩
  exact ⟨hn, item, ⟨hp.mem_iff.2 hm, hk⟩, fun y hy => huniq y ⟨hp.mem_iff.1 hy.1, hy.2⟩⟩

/-! ## Lemmas: float64 rounding in the byte formatter -/

theorem roundHalfEven_err (n d : Nat) (hd : 0 < d) :
    |(roundHalfEven n d : ℚ) - (n : ℚ) / d| ≤ 1 / 2 := by
  have hdq : (0 : ℚ) < d := by exact_mod_cast hd
  have hmod : n % d < d := Nat.mod_lt n hd
  have hdm := Nat.div_add_mod n d
  unfold roundHalfEven
  simp only []
  generalize n / d = q at hdm ⊢
  generalize n % d = r at hdm hmod ⊢
  have hsplit : (n : ℚ) / d = (q : ℚ) + (r : ℚ) / d := by
    have h' : (n : ℚ) = (d : ℚ) * (q : ℚ) + (r : ℚ) := by exact_mod_cast hdm.symm
    field_simp
    linarith
  have hr0 : (0 : ℚ) ≤ (r : ℚ) / d := by positivity
  rw [hsplit, abs_le]
  by_cases h1 : 2 * r < d
  · rw [if_pos h1]
    have : (r : ℚ) / d ≤ 1 / 2 := by
      rw [div_le_iff₀ hdq]
      have : (2 : ℚ) * (r : ℚ) ≤ d := by exact_mod_cast h1.le
      linarith
    constructor <;> linarith
  · rw [if_neg h1]
    have hge : (r : ℚ) / d ≥ 1 / 2 := by
      rw [ge_iff_le, le_div_iff₀ hdq]
      have : (d : ℚ) ≤ (2 : ℚ) * (r : ℚ) := by exact_mod_cast Nat.le_of_not_lt h1
      linarith
    have hlt : (r : ℚ) / d < 1 := by
      rw [div_lt_one hdq]
      exact_mod_cast hmod
    by_cases h2 : d < 2 * r
    · rw [if_pos h2]
      push_cast
      constructor <;> linarith
    · rw [if_neg h2]
      have heq : (r : ℚ) / d = 1 / 2 := by
        have h3 : 2 * r = d := by omega
        rw [div_eq_iff hdq.ne']
        have : (2 : ℚ) * (r : ℚ) = d := by exact_mod_cast h3
        linarith
      split
      · constructor <;> linarith
      · push_cast
        constructor <;> linarith

theorem bitLenAux_spec (fuel n : Nat) (h : n ≤ fuel) :
    n < 2 ^ bitLenAux fuel n ∧ (0 < n → 2 ^ (bitLenAux fuel n - 1) ≤ n) := by
  induction fuel generalizing n with
  | zero =>
    have : n = 0 := by omega
    subst this
    simp [bitLenAux]
  | succ fuel ih =>
    unfold bitLenAux
    by_cases hn : n = 0
    · subst hn; simp
    · rw [if_neg hn]
      obtain ⟨h1, h2⟩ := ih (n / 2) (by omega)
      constructor
      · rw [pow_succ]
        omega
      · intro _
        simp only [Nat.add_sub_cancel]
        by_cases hh : 0 < n / 2
        · have h3 := h2 hh
          have hpos : 1 ≤ bitLenAux fuel (n / 2) := by
            by_contra hc
            have : bitLenAux fuel (n / 2) = 0 := by omega
            rw [this] at h1
            simp at h1
            omega
          have : 2 ^ bitLenAux fuel (n / 2) = 2 ^ (bitLenAux fuel (n / 2) - 1) * 2 := by
            rw [← pow_succ]
            congr 1
            omega
          omega
        · have hz : n / 2 = 0 := by omega
          rw [hz]
          have : bitLenAux fuel 0 = 0 := by
            cases fuel <;> simp [bitLenAux]
          rw [this]
          simp
          omega

theorem bitLen_spec (n : Nat) (hn : 0 < n) :
    n < 2 ^ bitLen n ∧ 2 ^ (bitLen n - 1) ≤ n ∧ 1 ≤ bitLen n := by
  obtain ⟨h1, h2⟩ := bitLenAux_spec n n le_rfl
  refine ⟨h1, h2 hn, ?_⟩
  by_contra hc
  have : bitLen n = 0 := by omega
  unfold bitLen at this
  rw [this] at h1
  simp at h1
  omega

theorem zpow_two_toNat (e : Int) (he : 0 ≤ e) : (2 : ℚ) ^ e = (2 : ℚ) ^ e.toNat := by
  conv_lhs => rw [← Int.toNat_of_nonneg he]
  exact zpow_natCast 2 e.toNat

theorem zpow_two_neg_toNat (e : Int) (he : e < 0) : (2 : ℚ) ^ e = ((2 : ℚ) ^ (-e).toNat)⁻¹ := by
  have h : e = -((-e).toNat : Int) := by
    rw [Int.toNat_of_nonneg (by omega)]; ring
  conv_lhs => rw [h]
  rw [zpow_neg, zpow_natCast]

theorem floorLog2_le (a b : Nat) (ha : 0 < a) (hb : 0 < b) :
    (2 : ℚ) ^ (floorLog2 a b) ≤ (a : ℚ) / b := by
  have haq : (0 : ℚ) < a := by exact_mod_cast ha
  have hbq : (0 : ℚ) < b := by exact_mod_cast hb
  obtain ⟨_, ha2, ha3⟩ := bitLen_spec a ha
  obtain ⟨hb1, _, _⟩ := bitLen_spec b hb
  have hfallback : (2 : ℚ) ^ ((bitLen a : Int) - (bitLen b : Int) - 1) ≤ (a : ℚ) / b := by
    have e1 : ((bitLen a : Int) - (bitLen b : Int) - 1)
        = ((bitLen a - 1 : Nat) : Int) - ((bitLen b : Nat) : Int) := by
      rw [Nat.cast_sub ha3]; push_cast; ring
    rw [e1, zpow_sub₀ (by norm_num : (2 : ℚ) ≠ 0), zpow_natCast, zpow_natCast]
    have h1 : ((2 : ℚ) ^ (bitLen a - 1)) ≤ a := by exact_mod_cast ha2
    have h2 : (b : ℚ) ≤ (2 : ℚ) ^ bitLen b := by exact_mod_cast hb1.le
    exact div_le_div₀ haq.le h1 hbq h2
  unfold floorLog2
  simp only []
  by_cases hl : 0 ≤ (bitLen a : Int) - (bitLen b : Int)
  · simp only [hl, if_true]
    by_cases hc : b * 2 ^ ((bitLen a : Int) - (bitLen b : Int)).toNat ≤ a
    · rw [if_pos hc, zpow_two_toNat _ hl, le_div_iff₀ hbq]
      have : ((b * 2 ^ ((bitLen a : Int) - (bitLen b : Int)).toNat : Nat) : ℚ) ≤ a := by
        exact_mod_cast hc
      push_cast at this
      linarith
    · rw [if_neg hc]
      exact hfallback
  · simp only [hl, if_false]
    by_cases hc : b ≤ a * 2 ^ (-((bitLen a : Int) - (bitLen b : Int))).toNat
    · rw [if_pos hc, zpow_two_neg_toNat _ (by omega), le_div_iff₀ hbq]
      have h2 : ((b : Nat) : ℚ) ≤ ((a * 2 ^ (-((bitLen a : Int) - (bitLen b : Int))).toNat : Nat) : ℚ) := by
        exact_mod_cast hc
      push_cast at h2
      have hpos : (0 : ℚ) < (2 : ℚ) ^ (-((bitLen a : Int) - (bitLen b : Int))).toNat := by
        positivity
      rw [inv_mul_le_iff₀ hpos]
      linarith
    · rw [if_neg hc]
      exact hfallback

theorem roundFloat64_err (a b : Nat) (ha : 0 < a) (hb : 0 < b) :
    |(roundFloat64 a b).toRat - (a : ℚ) / b| ≤ (a : ℚ) / b / 2 ^ 53 ∧
      0 < (roundFloat64 a b).m := by
  have haq : (0 : ℚ) < a := by exact_mod_cast ha
  have hbq : (0 : ℚ) < b := by exact_mod_cast hb
  have hp := floorLog2_le a b ha hb
  have key : ∀ (m : Nat) (e : Int), e = floorLog2 a b - 52 →
      |(m : ℚ) - (a : ℚ) / b / (2 : ℚ) ^ e| ≤ 1 / 2 →
      |(m : ℚ) * (2 : ℚ) ^ e - (a : ℚ) / b| ≤ (a : ℚ) / b / 2 ^ 53 ∧ 0 < m := by
    intro m e he hm
    have hpe : (0 : ℚ) < (2 : ℚ) ^ e := by positivity
    have h52 : (2 : ℚ) ^ e * 2 ^ 52 ≤ (a : ℚ) / b := by
      have : (2 : ℚ) ^ (floorLog2 a b) = (2 : ℚ) ^ e * 2 ^ 52 := by
        have h1 : floorLog2 a b = e + 52 := by omega
        rw [h1, zpow_add₀ (by norm_num : (2 : ℚ) ≠ 0)]
        norm_num
      rw [← this]; exact hp
    have hs : (2 : ℚ) ^ 52 ≤ (a : ℚ) / b / (2 : ℚ) ^ e := by
      rw [le_div_iff₀ hpe]; linarith
    rw [abs_le] at hm
    constructor
    · have e1 : (m : ℚ) * (2 : ℚ) ^ e - (a : ℚ) / b
          = ((m : ℚ) - (a : ℚ) / b / (2 : ℚ) ^ e) * (2 : ℚ) ^ e := by
        field_simp
        ring
      rw [e1, abs_mul, abs_of_pos hpe]
      have h2 : |(m : ℚ) - (a : ℚ) / b / (2 : ℚ) ^ e| ≤ 1 / 2 := abs_le.2 hm
      have h3 : |(m : ℚ) - (a : ℚ) / b / (2 : ℚ) ^ e| * (2 : ℚ) ^ e ≤ 1 / 2 * (2 : ℚ) ^ e :=
        mul_le_mul_of_nonneg_right h2 hpe.le
      have h4 : 1 / 2 * (2 : ℚ) ^ e ≤ (a : ℚ) / b / 2 ^ 53 := by
        rw [le_div_iff₀ (by positivity)]
        have : (2 : ℚ) ^ 53 = 2 ^ 52 * 2 := by norm_num
        rw [this]
        nlinarith
      linarith
    · have : (0 : ℚ) < m := by
        have : (2 : ℚ) ^ 52 > 1 := by norm_num
        linarith [hm.1]
      exact_mod_cast this
  unfold roundFloat64
  simp only []
  by_cases he : 0 ≤ floorLog2 a b - 52
  · rw [if_pos he]
    unfold Float64.toRat
    simp only []
    apply key _ _ rfl
    have hd : 0 < b * 2 ^ (floorLog2 a b - 52).toNat := by positivity
    have := roundHalfEven_err a (b * 2 ^ (floorLog2 a b - 52).toNat) hd
    rw [zpow_two_toNat _ he]
    push_cast at this
    rw [div_div]
    exact this
  · rw [if_neg he]
    unfold Float64.toRat
    simp only []
    apply key _ _ rfl
    have := roundHalfEven_err (a * 2 ^ (-(floorLog2 a b - 52)).toNat) b hb
    rw [zpow_two_neg_toNat _ (by omega)]
    push_cast at this
    have e2 : (a : ℚ) / b / ((2 : ℚ) ^ (-(floorLog2 a b - 52)).toNat)⁻¹
        = (a : ℚ) * 2 ^ (-(floorLog2 a b - 52)).toNat / b := by
      field_simp
    rw [e2]
    exact this

theorem Float64.div_err (x y : Float64) (hx : 0 < x.m) (hy : 0 < y.m) :
    |(x.div y).toRat - x.toRat / y.toRat| ≤ x.toRat / y.toRat / 2 ^ 53 := by
  have hxq : (0 : ℚ) < x.m := by exact_mod_cast hx
  have hyq : (0 : ℚ) < y.m := by exact_mod_cast hy
  unfold Float64.div
  simp only []
  by_cases hd : 0 ≤ x.e - y.e
  · rw [if_pos hd]
    have h := (roundFloat64_err (x.m * 2 ^ (x.e - y.e).toNat) y.m (by positivity) hy).1
    have e1 : ((x.m * 2 ^ (x.e - y.e).toNat : Nat) : ℚ) / (y.m : ℚ) = x.toRat / y.toRat := by
      unfold Float64.toRat
      push_cast
      rw [← zpow_two_toNat _ hd, zpow_sub₀ (by norm_num : (2 : ℚ) ≠ 0)]
      field_simp
      ring
    rw [e1] at h
    exact h
  · rw [if_neg hd]
    have h := (roundFloat64_err x.m (y.m * 2 ^ (-(x.e - y.e)).toNat) hx (by positivity)).1
    have e1 : (x.m : ℚ) / ((y.m * 2 ^ (-(x.e - y.e)).toNat : Nat) : ℚ)
        = x.toRat / y.toRat := by
      unfold Float64.toRat
      push_cast
      have h2 : (2 : ℚ) ^ (-(x.e - y.e)).toNat = (2 : ℚ) ^ (y.e - x.e) := by
        rw [zpow_two_toNat (y.e - x.e) (by omega)]
        congr 1
        omega
      rw [h2, zpow_sub₀ (by norm_num : (2 : ℚ) ≠ 0)]
      field_simp
    rw [e1] at h
    exact h

theorem Float64.hundredths_err (x : Float64) :
    |(x.hundredths : ℚ) - 100 * x.toRat| ≤ 1 / 2 := by
  unfold Float64.hundredths Float64.toRat
  by_cases he : 0 ≤ x.e
  · rw [if_pos he, zpow_two_toNat _ he]
    push_cast
    have : (100 : ℚ) * (x.m : ℚ) * 2 ^ x.e.toNat - 100 * ((x.m : ℚ) * 2 ^ x.e.toNat) = 0 := by
      ring
    rw [this]
    norm_num
  · rw [if_neg he]
    have h := roundHalfEven_err (100 * x.m) (2 ^ (-x.e).toNat) (by positivity)
    rw [zpow_two_neg_toNat _ (by omega)]
    push_cast at h
    have e1 : (100 : ℚ) * (x.m : ℚ) / 2 ^ (-x.e).toNat
        = 100 * ((x.m : ℚ) * ((2 : ℚ) ^ (-x.e).toNat)⁻¹) := by
      field_simp
    rw [e1] at h
    exact h

theorem roundFloat64_pow1000 (k : Nat) (h1 : 1 ≤ k) (h6 : k ≤ 6) :
    (roundFloat64 (1000 ^ k) 1).toRat = 1000 ^ k ∧ 0 < (roundFloat64 (1000 ^ k) 1).m := by
  interval_cases k
  · rw [show roundFloat64 (1000 ^ 1) 1 = ⟨8796093022208000, -43⟩ from by rfl]
    exact ⟨by unfold Float64.toRat; norm_num, by norm_num⟩
  · rw [show roundFloat64 (1000 ^ 2) 1 = ⟨8589934592000000, -33⟩ from by rfl]
    exact ⟨by unfold Float64.toRat; norm_num, by norm_num⟩
  · rw [show roundFloat64 (1000 ^ 3) 1 = ⟨8388608000000000, -23⟩ from by rfl]
    exact ⟨by unfold Float64.toRat; norm_num, by norm_num⟩
  · rw [show roundFloat64 (1000 ^ 4) 1 = ⟨8192000000000000, -13⟩ from by rfl]
    exact ⟨by unfold Float64.toRat; norm_num, by norm_num⟩
  · rw [show roundFloat64 (1000 ^ 5) 1 = ⟨8000000000000000, -3⟩ from by rfl]
    exact ⟨by unfold Float64.toRat; norm_num, by norm_num⟩
  · rw [show roundFloat64 (1000 ^ 6) 1 = ⟨7812500000000000, 7⟩ from by rfl]
    exact ⟨by unfold Float64.toRat; norm_num, by norm_num⟩

theorem hundredths_near (N k : Nat) (hk1 : 1 ≤ k) (hk6 : k ≤ 6) (hlo : 1000 ^ k ≤ N)
    (hhi : N < 1000 ^ (k + 1)) :
    |((((roundFloat64 N 1).div (roundFloat64 (1000 ^ k) 1)).hundredths : Nat) : ℚ)
        - 100 * (N : ℚ) / 1000 ^ k| ≤ 1 / 2 + 1 / 10 ^ 9 := by
  have hN : 0 < N := lt_of_lt_of_le (by positivity) hlo
  obtain ⟨hx, hxm⟩ := roundFloat64_err N 1 hN (by norm_num)
  obtain ⟨hy, hym⟩ := roundFloat64_pow1000 k hk1 hk6
  have hq := Float64.div_err _ _ hxm hym
  have hh := Float64.hundredths_err ((roundFloat64 N 1).div (roundFloat64 (1000 ^ k) 1))
  rw [hy] at hq
  simp only [Nat.cast_one, div_one] at hx
  have hY : (0 : ℚ) < (1000 : ℚ) ^ k := by positivity
  generalize ((roundFloat64 N 1).div (roundFloat64 (1000 ^ k) 1)).hundredths = H at hh ⊢
  generalize ((roundFloat64 N 1).div (roundFloat64 (1000 ^ k) 1)).toRat = Q at hh hq
  generalize (roundFloat64 N 1).toRat = X at hx hq
  have hu1 : (1 : ℚ) ≤ (N : ℚ) / 1000 ^ k := by
    rw [le_div_iff₀ hY]
    have : ((1000 ^ k : Nat) : ℚ) ≤ N := by exact_mod_cast hlo
    push_cast at this
    linarith
  have hu2 : (N : ℚ) / 1000 ^ k < 1000 := by
    rw [div_lt_iff₀ hY]
    have : (N : ℚ) < ((1000 ^ (k + 1) : Nat) : ℚ) := by exact_mod_cast hhi
    push_cast at this
    rw [pow_succ] at this
    linarith
  rw [abs_le] at hx hq hh
  have hv1 : X / 1000 ^ k ≤ (N : ℚ) / 1000 ^ k + (N : ℚ) / 1000 ^ k / 2 ^ 53 := by
    have : X ≤ (N : ℚ) + (N : ℚ) / 2 ^ 53 := by linarith [hx.2]
    have h2 := div_le_div_of_nonneg_right this hY.le
    have e : ((N : ℚ) + (N : ℚ) / 2 ^ 53) / 1000 ^ k
        = (N : ℚ) / 1000 ^ k + (N : ℚ) / 1000 ^ k / 2 ^ 53 := by ring
    rw [e] at h2
    exact h2
  have hv2 : (N : ℚ) / 1000 ^ k - (N : ℚ) / 1000 ^ k / 2 ^ 53 ≤ X / 1000 ^ k := by
    have : (N : ℚ) - (N : ℚ) / 2 ^ 53 ≤ X := by linarith [hx.1]
    have h2 := div_le_div_of_nonneg_right this hY.le
    have e : ((N : ℚ) - (N : ℚ) / 2 ^ 53) / 1000 ^ k
        = (N : ℚ) / 1000 ^ k - (N : ℚ) / 1000 ^ k / 2 ^ 53 := by ring
    rw [e] at h2
    exact h2
  have e100 : 100 * (N : ℚ) / 1000 ^ k = 100 * ((N : ℚ) / 1000 ^ k) := by ring
  rw [e100, abs_le]
  generalize (N : ℚ) / 1000 ^ k = u at hu1 hu2 hv1 hv2 ⊢
  generalize X / 1000 ^ k = v at hq hv1 hv2
  obtain ⟨hq1, hq2⟩ := hq
  obtain ⟨hh1, hh2⟩ := hh
  norm_num at hq1 hq2 hv1 hv2 ⊢
  constructor <;> linarith

theorem rawTriple_hasKeys (kind name ns : String) (extra : Option (String × String)) :
    ∃ raw, (match extra with
        | some (total, bytesDone) =>
          some (mapSet (mapSet [("Kind", kind), ("Name", name), ("Namespace", ns)]
            "TotalBytes" total) "BytesDone" bytesDone)
        | none => some [("Kind", kind), ("Name", name), ("Namespace", ns)]) = some raw ∧
      mapGet raw "Kind" = some kind ∧ mapGet raw "Name" = some name ∧
      mapGet raw "Namespace" = some ns := by
  cases extra with
  | none => exact ⟨_, rfl, by simp [mapGet], by simp [mapGet], by simp [mapGet]⟩
  | some tb =>
    refine ⟨_, rfl, ?_, ?_, ?_⟩ <;> simp [mapSet, mapGet]

theorem Message_raw (rt : Runtime) (tick : Nat) (pvb : PodVolumeBackup) (msg : String)
    (p : Progress) (t' : Nat) (h : Message rt tick pvb msg = some (p, t')) :
    HasOwnRaw p pvb.Kind pvb.Name pvb.Namespace := by
  unfold Message at h
  by_cases hp : pvb.Status.Progress ≠ ⟨0, 0⟩
  · rw [if_pos hp] at h
    cases ha : bytesToSI pvb.Status.Progress.TotalBytes <;>
      cases hb : bytesToSI pvb.Status.Progress.BytesDone <;>
      simp only [ha, hb, Option.some.injEq, Prod.mk.injEq, reduceCtorEq] at h
    rw [← h.1]
    obtain ⟨raw, h1, h2⟩ := rawTriple_hasKeys pvb.Kind pvb.Name pvb.Namespace (some (_, _))
    exact ⟨raw, h1, h2⟩
  · rw [if_neg hp] at h
    simp only [Option.some.injEq, Prod.mk.injEq] at h
    rw [← h.1]
    obtain ⟨raw, h1, h2⟩ := rawTriple_hasKeys pvb.Kind pvb.Name pvb.Namespace none
    exact ⟨raw, h1, h2⟩

theorem PVRMessage_raw (rt : Runtime) (tick : Nat) (pvr : PodVolumeRestore) (msg : String)
    (p : Progress) (t' : Nat) (h : PVRMessage rt tick pvr msg = some (p, t')) :
    HasOwnRaw p pvr.Kind pvr.Name pvr.Namespace := by
  unfold PVRMessage at h
  by_cases hp : pvr.Status.Progress ≠ ⟨0, 0⟩
  · rw [if_pos hp] at h
    cases ha : bytesToSI pvr.Status.Progress.TotalBytes <;>
      cases hb : bytesToSI pvr.Status.Progress.BytesDone <;>
      simp only [ha, hb, Option.some.injEq, Prod.mk.injEq, reduceCtorEq] at h
    rw [← h.1]
    obtain ⟨raw, h1, h2⟩ := rawTriple_hasKeys pvr.Kind pvr.Name pvr.Namespace (some (_, _))
    exact ⟨raw, h1, h2⟩
  · rw [if_neg hp] at h
    simp only [Option.some.injEq, Prod.mk.injEq] at h
    rw [← h.1]
    obtain ⟨raw, h1, h2⟩ := rawTriple_hasKeys pvr.Kind pvr.Name pvr.Namespace none
    exact ⟨raw, h1, h2⟩

theorem pvrSwitch_raw (rt : Runtime) (tick : Nat) (msg : Progress) (pvr : PodVolumeRestore)
    (p : Progress) (t' : Nat) (h : pvrSwitch rt tick msg pvr = some (p, t')) :
    HasOwnRaw p pvr.Kind pvr.Name pvr.Namespace := by
  unfold pvrSwitch at h
  by_cases p1 : pvr.Status.Phase = PodVolumePhaseInProgress
  · rw [if_pos p1] at h
    cases ha : bytesToSI pvr.Status.Progress.BytesDone <;>
      cases hb : bytesToSI pvr.Status.Progress.TotalBytes <;>
      cases hs : pvr.Status.StartTimestamp <;>
      simp only [ha, hb, hs, reduceCtorEq] at h
    exact PVRMessage_raw _ _ _ _ _ _ h
  · by_cases p2 : pvr.Status.Phase = PodVolumePhaseCompleted
    · rw [if_neg p1, if_pos p2] at h
      cases hb : bytesToSI pvr.Status.Progress.TotalBytes <;>
        cases hc : pvr.Status.CompletionTimestamp <;>
        cases hs : pvr.Status.StartTimestamp <;>
        simp only [hb, hs, hc, reduceCtorEq] at h
      exact PVRMessage_raw _ _ _ _ _ _ h
    · by_cases p3 : pvr.Status.Phase = PodVolumePhaseFailed
      · rw [if_neg p1, if_neg p2, if_pos p3] at h
        cases hc : pvr.Status.CompletionTimestamp <;>
          cases hs : pvr.Status.StartTimestamp <;>
          simp only [hs, hc, reduceCtorEq] at h
        exact PVRMessage_raw _ _ _ _ _ _ h
      · rw [if_neg p1, if_neg p2, if_neg p3] at h
        exact PVRMessage_raw _ _ _ _ _ _ h

theorem pvbSwitch_raw (rt : Runtime) (tick : Nat) (msg : Progress) (pvb : PodVolumeBackup)
    (p : Progress) (t' : Nat) (h : pvbSwitch rt tick msg pvb = some (p, t')) :
    (pvb.Status.Phase ∈ [PodVolumePhaseInProgress, PodVolumePhaseCompleted,
        PodVolumePhaseFailed] → HasOwnRaw p pvb.Kind pvb.Name pvb.Namespace) ∧
    (pvb.Status.Phase ∉ [PodVolumePhaseInProgress, PodVolumePhaseCompleted,
        PodVolumePhaseFailed] →
      p.RawProgress = msg.RawProgress ∧ p.CreatedTimestamp = msg.CreatedTimestamp ∧
      p.LastUpdated = msg.LastUpdated) := by
  unfold pvbSwitch at h
  simp only [List.mem_cons, List.mem_singleton, List.not_mem_nil, or_false, not_or]
  by_cases p1 : pvb.Status.Phase = PodVolumePhaseInProgress
  · rw [if_pos p1] at h
    cases ha : bytesToSI pvb.Status.Progress.BytesDone <;>
      cases hb : bytesToSI pvb.Status.Progress.TotalBytes <;>
      cases hs : pvb.Status.StartTimestamp <;>
      simp only [ha, hb, hs, reduceCtorEq] at h
    exact ⟨fun _ => Message_raw _ _ _ _ _ _ h, fun hn => absurd p1 hn.1⟩
  · by_cases p2 : pvb.Status.Phase = PodVolumePhaseCompleted
    · rw [if_neg p1, if_pos p2] at h
      cases hb : bytesToSI pvb.Status.Progress.TotalBytes <;>
        cases hc : pvb.Status.CompletionTimestamp <;>
        cases hs : pvb.Status.StartTimestamp <;>
        simp only [hb, hs, hc, reduceCtorEq] at h
      exact ⟨fun _ => Message_raw _ _ _ _ _ _ h, fun hn => absurd p2 hn.2.1⟩
    · by_cases p3 : pvb.Status.Phase = PodVolumePhaseFailed
      · rw [if_neg p1, if_neg p2, if_pos p3] at h
        cases hc : pvb.Status.CompletionTimestamp <;>
          cases hs : pvb.Status.StartTimestamp <;>
          simp only [hs, hc, reduceCtorEq] at h
        exact ⟨fun _ => Message_raw _ _ _ _ _ _ h, fun hn => absurd p3 hn.2.2⟩
      · rw [if_neg p1, if_neg p2, if_neg p3] at h
        simp only [Option.some.injEq, Prod.mk.injEq] at h
        rw [← h.1]
        refine ⟨fun hm => ?_, fun _ => ⟨rfl, rfl, rfl⟩⟩
        rcases hm with hm | hm | hm
        · exact absurd hm p1
        · exact absurd hm p2
        · exact absurd hm p3

theorem floorLog2_lt (a b : Nat) (ha : 0 < a) (hb : 0 < b) :
    (a : ℚ) / b < (2 : ℚ) ^ (floorLog2 a b + 1) := by
  have haq : (0 : ℚ) < a := by exact_mod_cast ha
  have hbq : (0 : ℚ) < b := by exact_mod_cast hb
  obtain ⟨ha1, _, _⟩ := bitLen_spec a ha
  obtain ⟨_, hb2, hb3⟩ := bitLen_spec b hb
  have hfallback : (a : ℚ) / b < (2 : ℚ) ^ ((bitLen a : Int) - (bitLen b : Int) + 1) := by
    have e1 : ((bitLen a : Int) - (bitLen b : Int) + 1)
        = ((bitLen a : Nat) : Int) - ((bitLen b - 1 : Nat) : Int) := by
      rw [Nat.cast_sub hb3]; push_cast; ring
    rw [e1, zpow_sub₀ (by norm_num : (2 : ℚ) ≠ 0), zpow_natCast, zpow_natCast]
    have h1 : (a : ℚ) < (2 : ℚ) ^ bitLen a := by exact_mod_cast ha1
    have h2 : ((2 : ℚ) ^ (bitLen b - 1)) ≤ b := by exact_mod_cast hb2
    have hpos : (0 : ℚ) < (2 : ℚ) ^ (bitLen b - 1) := by positivity
    calc (a : ℚ) / b ≤ (a : ℚ) / (2 : ℚ) ^ (bitLen b - 1) :=
          div_le_div_of_nonneg_left haq.le hpos h2
      _ < (2 : ℚ) ^ bitLen a / (2 : ℚ) ^ (bitLen b - 1) :=
          div_lt_div_of_pos_right h1 hpos
  unfold floorLog2
  simp only []
  by_cases hl : 0 ≤ (bitLen a : Int) - (bitLen b : Int)
  · simp only [hl, if_true]
    by_cases hc : b * 2 ^ ((bitLen a : Int) - (bitLen b : Int)).toNat ≤ a
    · rw [if_pos hc]
      exact hfallback
    · rw [if_neg hc]
      have e : (bitLen a : Int) - (bitLen b : Int) - 1 + 1
          = (bitLen a : Int) - (bitLen b : Int) := by ring
      rw [e, zpow_two_toNat _ hl, div_lt_iff₀ hbq]
      have : (a : ℚ) < ((b * 2 ^ ((bitLen a : Int) - (bitLen b : Int)).toNat : Nat) : ℚ) := by
        exact_mod_cast Nat.lt_of_not_le hc
      push_cast at this
      linarith
  · simp only [hl, if_false]
    by_cases hc : b ≤ a * 2 ^ (-((bitLen a : Int) - (bitLen b : Int))).toNat
    · rw [if_pos hc]
      exact hfallback
    · rw [if_neg hc]
      have e : (bitLen a : Int) - (bitLen b : Int) - 1 + 1
          = (bitLen a : Int) - (bitLen b : Int) := by ring
      rw [e, zpow_two_neg_toNat _ (by omega), div_lt_iff₀ hbq]
      have h2 : ((a * 2 ^ (-((bitLen a : Int) - (bitLen b : Int))).toNat : Nat) : ℚ)
          < ((b : Nat) : ℚ) := by
        exact_mod_cast Nat.lt_of_not_le hc
      push_cast at h2
      have hpos : (0 : ℚ) < (2 : ℚ) ^ (-((bitLen a : Int) - (bitLen b : Int))).toNat := by
        positivity
      rw [lt_inv_mul_iff₀ hpos]
      linarith

/-- The significand of a rounded value has 53 bits (or is `2 ^ 53` after a carry). -/
theorem roundFloat64_significand (a b : Nat) (ha : 0 < a) (hb : 0 < b) :
    2 ^ 52 ≤ (roundFloat64 a b).m ∧ (roundFloat64 a b).m ≤ 2 ^ 53 := by
  have haq : (0 : ℚ) < a := by exact_mod_cast ha
  have hbq : (0 : ℚ) < b := by exact_mod_cast hb
  have hlo := floorLog2_le a b ha hb
  have hhi := floorLog2_lt a b ha hb
  have key : ∀ (m : Nat) (e : Int), e = floorLog2 a b - 52 →
      |(m : ℚ) - (a : ℚ) / b / (2 : ℚ) ^ e| ≤ 1 / 2 → 2 ^ 52 ≤ m ∧ m ≤ 2 ^ 53 := by
    intro m e he hm
    have hpe : (0 : ℚ) < (2 : ℚ) ^ e := by positivity
    have e1 : (2 : ℚ) ^ (floorLog2 a b) = (2 : ℚ) ^ e * 2 ^ 52 := by
      have h1 : floorLog2 a b = e + 52 := by omega
      rw [h1, zpow_add₀ (by norm_num : (2 : ℚ) ≠ 0)]
      norm_num
    have e2 : (2 : ℚ) ^ (floorLog2 a b + 1) = (2 : ℚ) ^ e * 2 ^ 53 := by
      have h1 : floorLog2 a b + 1 = e + 53 := by omega
      rw [h1, zpow_add₀ (by norm_num : (2 : ℚ) ≠ 0)]
      norm_num
    have hs1 : (2 : ℚ) ^ 52 ≤ (a : ℚ) / b / (2 : ℚ) ^ e := by
      rw [le_div_iff₀ hpe]; linarith
    have hs2 : (a : ℚ) / b / (2 : ℚ) ^ e < (2 : ℚ) ^ 53 := by
      rw [div_lt_iff₀ hpe]; linarith
    rw [abs_le] at hm
    constructor
    · have h : ((2 ^ 52 : Nat) : ℚ) - 1 < (m : ℚ) := by
        push_cast
        linarith [hm.1]
      have h' : (2 ^ 52 : Nat) < m + 1 := by
        have : ((2 ^ 52 : Nat) : ℚ) < ((m + 1 : Nat) : ℚ) := by push_cast; linarith
        exact_mod_cast this
      omega
    · have h : (m : ℚ) < ((2 ^ 53 : Nat) : ℚ) + 1 := by
        push_cast
        linarith [hm.2]
      have h' : m < 2 ^ 53 + 1 := by
        have : ((m : Nat) : ℚ) < ((2 ^ 53 + 1 : Nat) : ℚ) := by push_cast; linarith
        exact_mod_cast this
      omega
  unfold roundFloat64
  simp only []
  by_cases he : 0 ≤ floorLog2 a b - 52
  · rw [if_pos he]
    simp only []
    apply key _ _ rfl
    have hd : 0 < b * 2 ^ (floorLog2 a b - 52).toNat := by positivity
    have := roundHalfEven_err a (b * 2 ^ (floorLog2 a b - 52).toNat) hd
    rw [zpow_two_toNat _ he]
    push_cast at this
    rw [div_div]
    exact this
  · rw [if_neg he]
    simp only []
    apply key _ _ rfl
    have := roundHalfEven_err (a * 2 ^ (-(floorLog2 a b - 52)).toNat) b hb
    rw [zpow_two_neg_toNat _ (by omega)]
    push_cast at this
    have e2 : (a : ℚ) / b / ((2 : ℚ) ^ (-(floorLog2 a b - 52)).toNat)⁻¹
        = (a : ℚ) * 2 ^ (-(floorLog2 a b - 52)).toNat / b := by
      field_simp
    rw [e2]
    exact this

/-! ## Lemmas: the probes issued -/

theorem verbsLoop_log (canI : Probe → Except Error Bool) (ns resource g r : String)
    (hs : stringsSplit resource '/' = [g, r]) (vs : List String) (log : List Probe) :
    verbsLoop canI ns resource vs log =
      (some (probeOutcome canI (vs.map fun v => ⟨v, g, r, ns, ""⟩)),
        log ++ issuedProbes canI (vs.map fun v => ⟨v, g, r, ns, ""⟩)) := by
  induction vs generalizing log with
  | nil => simp [verbsLoop, probeOutcome, issuedProbes]
  | cons v rest ih =>
    unfold verbsLoop
    simp only [hs, List.getElem?_cons_zero, List.getElem?_cons_succ, List.map_cons,
      probeOutcome, issuedProbes]
    rcases hc : canI ⟨v, g, r, ns, ""⟩ with err | b
    · simp
    · cases b
      · simp
      · simp only [Bool.not_true, Bool.false_eq_true, if_false]
        rw [ih]
        simp

theorem probeOutcome_append (canI : Probe → Except Error Bool) (a b : List Probe) :
    probeOutcome canI (a ++ b) =
      match probeOutcome canI a with
      | .ok true => probeOutcome canI b
      | other => other := by
  induction a with
  | nil => simp [probeOutcome]
  | cons p rest ih =>
    simp only [List.cons_append, probeOutcome]
    rcases hc : canI p with err | bb
    · simp
    · cases bb
      · simp
      · simpa using ih

theorem issuedProbes_append (canI : Probe → Except Error Bool) (a b : List Probe) :
    issuedProbes canI (a ++ b) =
      match probeOutcome canI a with
      | .ok true => a ++ issuedProbes canI b
      | _ => issuedProbes canI a := by
  induction a with
  | nil => simp [probeOutcome, issuedProbes]
  | cons p rest ih =>
    simp only [List.cons_append, probeOutcome, issuedProbes]
    rcases hc : canI p with err | bb
    · simp
    · cases bb
      · simp
      · simp only [List.append_eq]
        rw [ih]
        rcases probeOutcome canI rest with e | b2
        · simp
        · cases b2 <;> simp

theorem issuedProbes_of_ok (canI : Probe → Except Error Bool) (a : List Probe)
    (h : probeOutcome canI a = .ok true) : issuedProbes canI a = a := by
  have := issuedProbes_append canI a []
  rw [h] at this
  simpa [issuedProbes] using this

theorem resourcesLoop_log (canI : Probe → Except Error Bool) (ns : String) (rs : List String)
    (ps : List (String × String))
    (h : List.Forall₂ (fun res p => stringsSplit res '/' = [p.1, p.2]) rs ps)
    (log : List Probe) :
    resourcesLoop canI ns rs log =
      (some (probeOutcome canI
          (ps.flatMap fun gr => migrateVerbs.map fun verb => ⟨verb, gr.1, gr.2, ns, ""⟩)),
        log ++ issuedProbes canI
          (ps.flatMap fun gr => migrateVerbs.map fun verb => ⟨verb, gr.1, gr.2, ns, ""⟩)) := by
  induction h generalizing log with
  | nil => simp [resourcesLoop, probeOutcome, issuedProbes]
  | @cons res p rs ps hsp _ ih =>
    unfold resourcesLoop
    rw [verbsLoop_log canI ns res p.1 p.2 hsp migrateVerbs log]
    simp only [List.flatMap_cons, probeOutcome_append, issuedProbes_append]
    rcases ho : probeOutcome canI (migrateVerbs.map fun v => ⟨v, p.1, p.2, ns, ""⟩) with e | b
    · simp
    · cases b
      · simp
      · simp only [ih, List.append_assoc, issuedProbes_of_ok canI _ ho]

theorem issuedProbes_initial (canI : Probe → Except Error Bool) (ps : List Probe) :
    issuedProbes canI ps <+: ps := by
  induction ps with
  | nil => simp [issuedProbes]
  | cons p rest ih =>
    simp only [issuedProbes]
    rcases hc : canI p with err | b
    · simp [List.prefix_cons_iff]
    · cases b
      · simp [List.prefix_cons_iff]
      · simpa [List.prefix_cons_iff] using ih

theorem issuedProbes_stop (canI : Probe → Except Error Bool) (ps pre post : List Probe)
    (p : Probe) (h : issuedProbes canI ps = pre ++ p :: post) (hpost : post ≠ []) :
    canI p = .ok true := by
  induction ps generalizing pre with
  | nil => simp [issuedProbes] at h
  | cons q rest ih =>
    simp only [issuedProbes] at h
    rcases hc : canI q with err | b
    · rw [hc] at h
      cases pre with
      | nil => simp at h; exact absurd h.2 hpost
      | cons a pre' => simp at h
    · cases b
      · rw [hc] at h
        cases pre with
        | nil => simp at h; exact absurd h.2 hpost
        | cons a pre' => simp at h
      · rw [hc] at h
        cases pre with
        | nil =>
          simp only [List.nil_append, List.cons.injEq] at h
          rw [← h.1]; exact hc
        | cons a pre' =>
          simp only [List.cons_append, List.cons.injEq] at h
          exact ih pre' h.2

theorem migrateProbes_length (ns : String) : (migrateProbes ns).length = 28 := rfl

theorem namespacesLoop_log (canI : Probe → Except Error Bool) (nss : List String)
    (auth : GoMap Bool) (log : List Probe) :
    ∃ segs : List (List Probe),
      (namespacesLoop canI nss auth log).2 = log ++ segs.flatten ∧
      segs.length ≤ nss.length ∧
      List.Forall₂ (fun ns seg => seg = issuedProbes canI (migrateProbes ns))
        (nss.take segs.length) segs ∧
      ((∃ m, (namespacesLoop canI nss auth log).1 = some (.ok m)) → segs.length = nss.length) := by
  induction nss generalizing auth log with
  | nil => exact ⟨[], by simp [namespacesLoop]⟩
  | cons ns rest ih =>
    unfold namespacesLoop
    rw [resourcesLoop_log canI ns migrateResources migratePairs migrateResources_pairs log]
    have hm : (migratePairs.flatMap fun gr => migrateVerbs.map fun verb =>
        (⟨verb, gr.1, gr.2, ns, ""⟩ : Probe)) = migrateProbes ns := rfl
    rw [hm]
    rcases probeOutcome canI (migrateProbes ns) with e | b
    · exact ⟨[issuedProbes canI (migrateProbes ns)], by simp, by simp, by simp, by simp⟩
    · cases b
      · obtain ⟨segs, h1, h2, h3, h4⟩ := ih (mapSet (mapSet auth ns true) ns false)
          (log ++ issuedProbes canI (migrateProbes ns))
        refine ⟨issuedProbes canI (migrateProbes ns) :: segs, ?_, ?_, ?_, ?_⟩
        · simp only [h1, List.flatten_cons, List.append_assoc]
        · simpa using h2
        · simpa using h3
        · intro hm; simpa using h4 hm
      · obtain ⟨segs, h1, h2, h3, h4⟩ := ih (mapSet auth ns true)
          (log ++ issuedProbes canI (migrateProbes ns))
        refine ⟨issuedProbes canI (migrateProbes ns) :: segs, ?_, ?_, ?_, ?_⟩
        · simp only [h1, List.flatten_cons, List.append_assoc]
        · simpa using h2
        · simpa using h3
        · intro hm; simpa using h4 hm

/-! ## Lemmas: owned backups and restores -/

theorem getBackup_eq (calls : Calls) (src : Cluster) (labels : GoMap String) :
    getBackup calls src labels =
      match calls.getSourceClient 0 with
      | some err => (.error err, [])
      | none =>
        match calls.listBackups with
        | some err => (.error err, [.listBackups labels])
        | none => (.ok (src.ListBackups labels).head?, [.listBackups labels]) := by
  unfold getBackup
  cases calls.getSourceClient 0 with
  | some err => rfl
  | none =>
    cases calls.listBackups with
    | some err => rfl
    | none =>
      cases h : src.ListBackups labels with
      | nil => simp
      | cons a l => simp

theorem getRestore_eq (calls : Calls) (dest : Cluster) (labels : GoMap String) :
    getRestore calls dest labels =
      match calls.getDestinationClient 0 with
      | some err => (.error err, [])
      | none =>
        match calls.listRestores with
        | some err => (.error err, [.listRestores labels])
        | none => (.ok (dest.ListRestores labels).head?, [.listRestores labels]) := by
  unfold getRestore
  cases calls.getDestinationClient 0 with
  | some err => rfl
  | none =>
    cases calls.listRestores with
    | some err => rfl
    | none =>
      cases h : dest.ListRestores labels with
      | nil => simp
      | cons a l => simp

theorem getBackup_log (calls : Calls) (src : Cluster) (labels : GoMap String) :
    createsOf (getBackup calls src labels).2 = [] := by
  rw [getBackup_eq]
  cases calls.getSourceClient 0 with
  | some err => rfl
  | none => cases calls.listBackups <;> rfl

theorem getRestore_log (calls : Calls) (dest : Cluster) (labels : GoMap String) :
    createsOf (getRestore calls dest labels).2 = [] := by
  rw [getRestore_eq]
  cases calls.getDestinationClient 0 with
  | some err => rfl
  | none => cases calls.listRestores <;> rfl

theorem getBackup_ok (calls : Calls) (src : Cluster) (labels : GoMap String)
    (r : Option Backup) (h : (getBackup calls src labels).1 = .ok r) :
    calls.getSourceClient 0 = none ∧ calls.listBackups = none ∧
      r = (src.ListBackups labels).head? ∧
      (getBackup calls src labels).2 = [.listBackups labels] := by
  rw [getBackup_eq] at h ⊢
  cases h0 : calls.getSourceClient 0 with
  | some err => rw [h0] at h; cases h
  | none =>
    rw [h0] at h
    cases h1 : calls.listBackups with
    | some err => rw [h1] at h; cases h
    | none =>
      rw [h1] at h
      simp only [Except.ok.injEq] at h
      exact ⟨rfl, rfl, h.symm, rfl⟩

theorem getRestore_ok (calls : Calls) (dest : Cluster) (labels : GoMap String)
    (r : Option Restore) (h : (getRestore calls dest labels).1 = .ok r) :
    calls.getDestinationClient 0 = none ∧ calls.listRestores = none ∧
      r = (dest.ListRestores labels).head? ∧
      (getRestore calls dest labels).2 = [.listRestores labels] := by
  rw [getRestore_eq] at h ⊢
  cases h0 : calls.getDestinationClient 0 with
  | some err => rw [h0] at h; cases h
  | none =>
    rw [h0] at h
    cases h1 : calls.listRestores with
    | some err => rw [h1] at h; cases h
    | none =>
      rw [h1] at h
      simp only [Except.ok.injEq] at h
      exact ⟨rfl, rfl, h.symm, rfl⟩

theorem getBackup_of_ok (calls : Calls) (src : Cluster) (labels : GoMap String)
    (h0 : calls.getSourceClient 0 = none) (h1 : calls.listBackups = none) :
    getBackup calls src labels = (.ok (src.ListBackups labels).head?, [.listBackups labels]) := by
  rw [getBackup_eq, h0, h1]

theorem getRestore_of_ok (calls : Calls) (dest : Cluster) (labels : GoMap String)
    (h0 : calls.getDestinationClient 0 = none) (h1 : calls.listRestores = none) :
    getRestore calls dest labels =
      (.ok (dest.ListRestores labels).head?, [.listRestores labels]) := by
  rw [getRestore_eq, h0, h1]

theorem getByRole_none (calls : Calls) (src : Cluster) (labels : GoMap String)
    (h : src.ListBackups labels = []) :
    (getBackup calls src labels).1 = .ok none ∨
      ∃ err, (getBackup calls src labels).1 = .error err := by
  rw [getBackup_eq]
  cases calls.getSourceClient 0 with
  | some err => exact Or.inr ⟨err, rfl⟩
  | none =>
    cases calls.listBackups with
    | some err => exact Or.inr ⟨err, rfl⟩
    | none => left; simp [h]

theorem createsOf_append (a b : List ApiCall) :
    createsOf (a ++ b) = createsOf a ++ createsOf b := by
  simp [createsOf]

theorem mem_toStringSlice (order : SliceOrder) (set : StringSet) (x : String) :
    x ∈ toStringSlice order set ↔ x ∈ set.elems := by
  simp only [toStringSlice, StringSet.ToSlice, List.map_id']
  exact (order.perm set.elems).mem_iff

theorem nodup_toStringSlice (order : SliceOrder) (set : StringSet) :
    (toStringSlice order set).Nodup := by
  simp only [toStringSlice, StringSet.ToSlice, List.map_id']
  exact (order.perm set.elems).nodup_iff.2 set.nodup

theorem mem_toSet (l : List String) (x : String) : x ∈ (toSet l).elems ↔ x ∈ l := by
  simp [toSet, NewSetFromSlice]

theorem mem_Difference (a b : StringSet) (x : String) :
    x ∈ (a.Difference b).elems ↔ x ∈ a.elems ∧ x ∉ b.elems := by
  simp [StringSet.Difference]

theorem mem_Union (a b : StringSet) (x : String) :
    x ∈ (a.Union b).elems ↔ x ∈ a.elems ∨ x ∈ b.elems := by
  simp [StringSet.Union]

theorem buildBackup_ok (cfg : TaskEnv) (calls : Calls) (nb : Backup)
    (h : buildBackup cfg calls = .ok nb) :
    nb.Labels = cfg.CorrelationLabels ∧ nb.Name = "" ∧
      nb.GenerateName = cfg.OwnerName ++ "-" ∧ nb.Namespace = cfg.VeleroNamespace ∧
      nb.Spec.IncludedNamespaces = cfg.sourceNamespaces ∧ nb.Spec.LabelSelector = none ∧
      nb.Spec.TTL = 720 * 3600000000000 := by
  unfold buildBackup at h
  cases ha : calls.getAnnotations with
  | error e => rw [ha] at h; cases h
  | ok ann =>
    rw [ha] at h
    cases hb : getBSL calls with
    | error e => rw [hb] at h; cases h
    | ok bsl =>
      rw [hb] at h
      cases hv : getVSL calls with
      | error e => rw [hv] at h; cases h
      | ok vsl =>
        rw [hv] at h
        simp only [Except.ok.injEq] at h
        subst h
        exact ⟨rfl, rfl, rfl, rfl, rfl, rfl, rfl⟩

/-- What `ensureInitialBackup` does after the lookup found nothing. -/
theorem ensureInitialBackup_create (cfg : TaskEnv) (calls : Calls) (src : Cluster)
    (nb : Backup) (h : ApiCall.createBackup nb ∈ (ensureInitialBackup cfg calls src).2.2) :
    (getInitialBackup cfg calls src).1 = .ok none ∧
    nb.Labels = mapSet (mapSet (mapSet cfg.CorrelationLabels cfg.InitialBackupLabel cfg.UID)
      cfg.MigMigrationDebugLabel cfg.OwnerName) cfg.MigPlanDebugLabel cfg.MigPlanRefName ∧
    nb.Name = "" ∧
    nb.Spec.IncludedResources = toStringSlice (calls.sliceOrder 0)
      (cfg.IncludedInitialResources.Difference (toSet cfg.ExcludedResources)) ∧
    nb.Spec.ExcludedResources = toStringSlice (calls.sliceOrder 1)
      (cfg.ExcludedInitialResources.Union (toSet cfg.ExcludedResources)) ∧
    nb.Spec.LabelSelector = none ∧
    ensureInitialBackup cfg calls src =
      match calls.create with
      | .error err => (.error err, src,
          (getInitialBackup cfg calls src).2 ++ [.createBackup nb])
      | .ok suffix => (.ok (src.CreateBackup nb suffix).2, (src.CreateBackup nb suffix).1,
          (getInitialBackup cfg calls src).2 ++ [.createBackup nb]) := by
  have hlog : ∀ c ∈ (getInitialBackup cfg calls src).2, c ≠ ApiCall.createBackup nb := by
    intro c hc heq
    have := getBackup_log calls src (roleLabels cfg cfg.InitialBackupLabel)
    have hmem : c ∈ createsOf (getInitialBackup cfg calls src).2 := by
      simp only [createsOf, List.mem_filter]
      exact ⟨hc, by rw [heq]; rfl⟩
    rw [show getInitialBackup cfg calls src =
      getBackup calls src (roleLabels cfg cfg.InitialBackupLabel) from rfl, this] at hmem
    cases hmem
  unfold ensureInitialBackup at h ⊢
  generalize getInitialBackup cfg calls src = gb at h hlog ⊢
  obtain ⟨r, log⟩ := gb
  simp only at hlog
  rcases r with err | _ | backup
  · exact absurd rfl (hlog _ h)
  · simp only at h ⊢
    cases h1 : calls.getSourceClient 1 with
    | some err => rw [h1] at h; exact absurd rfl (hlog _ h)
    | none =>
      rw [h1] at h
      simp only at h ⊢
      cases hb : buildBackup cfg calls with
      | error err => rw [hb] at h; exact absurd rfl (hlog _ h)
      | ok built =>
        rw [hb] at h
        obtain ⟨hl, hn, _, _, _, hsel, _⟩ := buildBackup_ok cfg calls built hb
        simp only at h ⊢
        have hnb : ApiCall.createBackup nb = ApiCall.createBackup
            { built with
              Labels := mapSet (mapSet (mapSet built.Labels cfg.InitialBackupLabel cfg.UID)
                cfg.MigMigrationDebugLabel cfg.OwnerName) cfg.MigPlanDebugLabel
                cfg.MigPlanRefName
              Spec := { built.Spec with
                IncludedResources := toStringSlice (calls.sliceOrder 0)
                  (cfg.IncludedInitialResources.Difference (toSet cfg.ExcludedResources))
                ExcludedResources := toStringSlice (calls.sliceOrder 1)
                  (cfg.ExcludedInitialResources.Union (toSet cfg.ExcludedResources)) }
              Annotations := mapDelete built.Annotations cfg.QuiesceAnnotationKey } := by
          cases hc : calls.create with
          | error err =>
            rw [hc] at h
            simp only [List.mem_append, List.mem_singleton] at h
            rcases h with h | h
            · exact absurd rfl (hlog _ h)
            · exact h
          | ok suffix =>
            rw [hc] at h
            simp only [List.mem_append, List.mem_singleton] at h
            rcases h with h | h
            · exact absurd rfl (hlog _ h)
            · exact h
        simp only [ApiCall.createBackup.injEq] at hnb
        subst hnb
        refine ⟨trivial, by rw [hl], hn, rfl, rfl, hsel, ?_⟩
        cases calls.create <;> rfl
  · exact absurd rfl (hlog _ h)

/-- What `ensureStageBackup` does after the lookup found nothing. -/
theorem ensureStageBackup_create (cfg : TaskEnv) (calls : Calls) (src : Cluster)
    (nb : Backup) (h : ApiCall.createBackup nb ∈ (ensureStageBackup cfg calls src).2.2) :
    (getStageBackup cfg calls src).1 = .ok none ∧
    nb.Labels = mapSet (mapSet (mapSet cfg.CorrelationLabels cfg.StageBackupLabel cfg.UID)
      cfg.MigMigrationDebugLabel cfg.OwnerName) cfg.MigPlanDebugLabel cfg.MigPlanRefName ∧
    nb.Name = "" ∧
    nb.Spec.IncludedResources = toStringSlice (calls.sliceOrder 0)
      (cfg.IncludedStageResources.Difference (toSet cfg.ExcludedResources)) ∧
    nb.Spec.ExcludedResources = toStringSlice (calls.sliceOrder 1)
      (cfg.ExcludedStageResources.Union (toSet cfg.ExcludedResources)) ∧
    nb.Spec.LabelSelector = some [(cfg.IncludedInStageBackupLabel, cfg.UID)] ∧
    ensureStageBackup cfg calls src =
      match calls.create with
      | .error err => (.error err, src,
          (getStageBackup cfg calls src).2 ++ [.createBackup nb])
      | .ok suffix => (.ok (src.CreateBackup nb suffix).2, (src.CreateBackup nb suffix).1,
          (getStageBackup cfg calls src).2 ++ [.createBackup nb]) := by
  have hlog : ∀ c ∈ (getStageBackup cfg calls src).2, c ≠ ApiCall.createBackup nb := by
    intro c hc heq
    have := getBackup_log calls src (roleLabels cfg cfg.StageBackupLabel)
    have hmem : c ∈ createsOf (getStageBackup cfg calls src).2 := by
      simp only [createsOf, List.mem_filter]
      exact ⟨hc, by rw [heq]; rfl⟩
    rw [show getStageBackup cfg calls src =
      getBackup calls src (roleLabels cfg cfg.StageBackupLabel) from rfl, this] at hmem
    cases hmem
  unfold ensureStageBackup at h ⊢
  generalize getStageBackup cfg calls src = gb at h hlog ⊢
  obtain ⟨r, log⟩ := gb
  simp only at hlog
  rcases r with err | _ | backup
  · exact absurd rfl (hlog _ h)
  · simp only at h ⊢
    cases h1 : calls.getSourceClient 1 with
    | some err => rw [h1] at h; exact absurd rfl (hlog _ h)
    | none =>
      rw [h1] at h
      simp only at h ⊢
      cases hb : buildBackup cfg calls with
      | error err => rw [hb] at h; exact absurd rfl (hlog _ h)
      | ok built =>
        rw [hb] at h
        obtain ⟨hl, hn, _, _, _, _, _⟩ := buildBackup_ok cfg calls built hb
        simp only at h ⊢
        have hnb : ApiCall.createBackup nb = ApiCall.createBackup
            { built with
              Labels := mapSet (mapSet (mapSet built.Labels cfg.StageBackupLabel cfg.UID)
                cfg.MigMigrationDebugLabel cfg.OwnerName) cfg.MigPlanDebugLabel
                cfg.MigPlanRefName
              Spec := { built.Spec with
                IncludedResources := toStringSlice (calls.sliceOrder 0)
                  (cfg.IncludedStageResources.Difference (toSet cfg.ExcludedResources))
                ExcludedResources := toStringSlice (calls.sliceOrder 1)
                  (cfg.ExcludedStageResources.Union (toSet cfg.ExcludedResources))
                LabelSelector := some [(cfg.IncludedInStageBackupLabel, cfg.UID)] } } := by
          cases hc : calls.create with
          | error err =>
            rw [hc] at h
            simp only [List.mem_append, List.mem_singleton] at h
            rcases h with h | h
            · exact absurd rfl (hlog _ h)
            · exact h
          | ok suffix =>
            rw [hc] at h
            simp only [List.mem_append, List.mem_singleton] at h
            rcases h with h | h
            · exact absurd rfl (hlog _ h)
            · exact h
        simp only [ApiCall.createBackup.injEq] at hnb
        subst hnb
        refine ⟨trivial, by rw [hl], hn, rfl, rfl, rfl, ?_⟩
        cases calls.create <;> rfl
  · exact absurd rfl (hlog _ h)
theorem mapGet_of_not_mem {β : Type} (m : GoMap β) (k : String)
    (h : k ∉ m.map Prod.fst) : mapGet m k = none := by
  induction m with
  | nil => rfl
  | cons p rest ih =>
    obtain ⟨a, b⟩ := p
    simp only [List.map_cons, List.mem_cons, not_or] at h
    unfold mapGet
    rw [if_neg (fun e => h.1 e.symm)]
    exact ih h.2

theorem matchingLabels_debug (labels : GoMap String) (d1 d2 v1 v2 : String)
    (h1 : d1 ∉ labels.map Prod.fst) (h2 : d2 ∉ labels.map Prod.fst) :
    matchingLabels labels (mapSet (mapSet labels d1 v1) d2 v2) = true := by
  unfold matchingLabels
  rw [List.all_eq_true]
  intro kv hkv
  have hk : kv.1 ∈ labels.map Prod.fst := List.mem_map_of_mem _ hkv
  rw [decide_eq_true_iff, mapGet_mapSet, mapGet_mapSet]
  rw [if_neg (fun e : d2 = kv.1 => h2 (e ▸ hk)), if_neg (fun e : d1 = kv.1 => h1 (e ▸ hk))]

theorem ListBackups_append (c : Cluster) (b : Backup) (labels : GoMap String) :
    Cluster.ListBackups { c with Backups := c.Backups ++ [b] } labels =
      c.ListBackups labels ++ (if matchingLabels labels b.Labels then [b] else []) := by
  simp only [Cluster.ListBackups, List.filter_append, List.filter_cons, List.filter_nil]

theorem ensureInitialBackup_found (cfg : TaskEnv) (calls : Calls) (src : Cluster)
    (b : Backup) (h : (getInitialBackup cfg calls src).1 = .ok (some b)) :
    ensureInitialBackup cfg calls src =
      (.ok b, src, [.listBackups (roleLabels cfg cfg.InitialBackupLabel)]) := by
  have hl := (getBackup_ok calls src (roleLabels cfg cfg.InitialBackupLabel) _ h).2.2.2
  unfold ensureInitialBackup
  change (getInitialBackup cfg calls src).2 = _ at hl
  generalize getInitialBackup cfg calls src = gb at h hl ⊢
  obtain ⟨r, log⟩ := gb
  simp only at h hl
  subst h hl
  rfl

theorem ensureStageBackup_found (cfg : TaskEnv) (calls : Calls) (src : Cluster)
    (b : Backup) (h : (getStageBackup cfg calls src).1 = .ok (some b)) :
    ensureStageBackup cfg calls src =
      (.ok b, src, [.listBackups (roleLabels cfg cfg.StageBackupLabel)]) := by
  have hl := (getBackup_ok calls src (roleLabels cfg cfg.StageBackupLabel) _ h).2.2.2
  unfold ensureStageBackup
  change (getStageBackup cfg calls src).2 = _ at hl
  generalize getStageBackup cfg calls src = gb at h hl ⊢
  obtain ⟨r, log⟩ := gb
  simp only at h hl
  subst h hl
  rfl

theorem ensureInitialBackup_error (cfg : TaskEnv) (calls : Calls) (src : Cluster)
    (err : Error) (h : (getInitialBackup cfg calls src).1 = .error err) :
    ensureInitialBackup cfg calls src = (.error err, src, (getInitialBackup cfg calls src).2) := by
  unfold ensureInitialBackup
  generalize getInitialBackup cfg calls src = gb at h ⊢
  obtain ⟨r, log⟩ := gb
  simp only at h
  subst h
  rfl

theorem ensureStageBackup_error (cfg : TaskEnv) (calls : Calls) (src : Cluster)
    (err : Error) (h : (getStageBackup cfg calls src).1 = .error err) :
    ensureStageBackup cfg calls src = (.error err, src, (getStageBackup cfg calls src).2) := by
  unfold ensureStageBackup
  generalize getStageBackup cfg calls src = gb at h ⊢
  obtain ⟨r, log⟩ := gb
  simp only at h
  subst h
  rfl

/-- A successful `ensureInitialBackup` on a cluster without an owned initial backup created
one backup, which is the result and the only owned initial backup afterwards. -/
theorem ensureInitialBackup_fresh (cfg : TaskEnv) (calls : Calls) (src : Cluster)
    (hkeys : DebugLabelsApart cfg cfg.InitialBackupLabel)
    (hnone : src.ListBackups (roleLabels cfg cfg.InitialBackupLabel) = [])
    (b1 : Backup) (src1 : Cluster) (log1 : List ApiCall)
    (h1 : ensureInitialBackup cfg calls src = (.ok b1, src1, log1)) :
    src1 = { src with Backups := src.Backups ++ [b1] } ∧
      (createsOf log1).length = 1 ∧
      src1.ListBackups (roleLabels cfg cfg.InitialBackupLabel) = [b1] := by
  unfold ensureInitialBackup at h1
  have hg := getBackup_eq calls src (roleLabels cfg cfg.InitialBackupLabel)
  rw [hnone] at hg
  change getInitialBackup cfg calls src = _ at hg
  generalize getInitialBackup cfg calls src = gb at h1 hg
  cases h0 : calls.getSourceClient 0 with
  | some err => rw [h0] at hg; subst hg; simp at h1
  | none =>
    rw [h0] at hg
    cases hl : calls.listBackups with
    | some err => rw [hl] at hg; subst hg; simp at h1
    | none =>
      rw [hl] at hg
      subst hg
      simp only [List.head?_nil] at h1
      cases hc1 : calls.getSourceClient 1 with
      | some err => rw [hc1] at h1; simp at h1
      | none =>
        rw [hc1] at h1
        simp only at h1
        cases hb : buildBackup cfg calls with
        | error err => rw [hb] at h1; simp at h1
        | ok built =>
          rw [hb] at h1
          obtain ⟨hlab, _⟩ := buildBackup_ok cfg calls built hb
          simp only at h1
          cases hcr : calls.create with
          | error err => rw [hcr] at h1; simp at h1
          | ok suffix =>
            rw [hcr] at h1
            simp only [Prod.mk.injEq, Except.ok.injEq] at h1
            obtain ⟨hb1, hs1, hlog⟩ := h1
            have hlabels : matchingLabels (roleLabels cfg cfg.InitialBackupLabel) b1.Labels
                = true := by
              rw [← hb1]
              simp only [Cluster.CreateBackup, hlab]
              exact matchingLabels_debug _ _ _ _ _ hkeys.1 hkeys.2
            have hsrc : src1 = { src with Backups := src.Backups ++ [b1] } := by
              rw [← hs1, ← hb1]; rfl
            refine ⟨hsrc, ?_, ?_⟩
            · rw [← hlog]; rfl
            · rw [hsrc, ListBackups_append, hnone, hlabels]; rfl

/-- A successful `ensureStageBackup` on a cluster without an owned stage backup created one
backup, which is the result and the only owned stage backup afterwards. -/
theorem ensureStageBackup_fresh (cfg : TaskEnv) (calls : Calls) (src : Cluster)
    (hkeys : DebugLabelsApart cfg cfg.StageBackupLabel)
    (hnone : src.ListBackups (roleLabels cfg cfg.StageBackupLabel) = [])
    (b1 : Backup) (src1 : Cluster) (log1 : List ApiCall)
    (h1 : ensureStageBackup cfg calls src = (.ok b1, src1, log1)) :
    src1 = { src with Backups := src.Backups ++ [b1] } ∧
      (createsOf log1).length = 1 ∧
      src1.ListBackups (roleLabels cfg cfg.StageBackupLabel) = [b1] := by
  unfold ensureStageBackup at h1
  have hg := getBackup_eq calls src (roleLabels cfg cfg.StageBackupLabel)
  rw [hnone] at hg
  change getStageBackup cfg calls src = _ at hg
  generalize getStageBackup cfg calls src = gb at h1 hg
  cases h0 : calls.getSourceClient 0 with
  | some err => rw [h0] at hg; subst hg; simp at h1
  | none =>
    rw [h0] at hg
    cases hl : calls.listBackups with
    | some err => rw [hl] at hg; subst hg; simp at h1
    | none =>
      rw [hl] at hg
      subst hg
      simp only [List.head?_nil] at h1
      cases hc1 : calls.getSourceClient 1 with
      | some err => rw [hc1] at h1; simp at h1
      | none =>
        rw [hc1] at h1
        simp only at h1
        cases hb : buildBackup cfg calls with
        | error err => rw [hb] at h1; simp at h1
        | ok built =>
          rw [hb] at h1
          obtain ⟨hlab, _⟩ := buildBackup_ok cfg calls built hb
          simp only at h1
          cases hcr : calls.create with
          | error err => rw [hcr] at h1; simp at h1
          | ok suffix =>
            rw [hcr] at h1
            simp only [Prod.mk.injEq, Except.ok.injEq] at h1
            obtain ⟨hb1, hs1, hlog⟩ := h1
            have hlabels : matchingLabels (roleLabels cfg cfg.StageBackupLabel) b1.Labels
                = true := by
              rw [← hb1]
              simp only [Cluster.CreateBackup, hlab]
              exact matchingLabels_debug _ _ _ _ _ hkeys.1 hkeys.2
            have hsrc : src1 = { src with Backups := src.Backups ++ [b1] } := by
              rw [← hs1, ← hb1]; rfl
            refine ⟨hsrc, ?_, ?_⟩
            · rw [← hlog]; rfl
            · rw [hsrc, ListBackups_append, hnone, hlabels]; rfl
theorem ensureInitialBackup_again (cfg : TaskEnv) (calls : Calls) (src : Cluster)
    (b1 : Backup) (hlist : src.ListBackups (roleLabels cfg cfg.InitialBackupLabel) = [b1])
    (b2 : Backup) (src2 : Cluster) (log2 : List ApiCall)
    (h2 : ensureInitialBackup cfg calls src = (.ok b2, src2, log2)) :
    b2 = b1 ∧ src2 = src ∧ log2 = [.listBackups (roleLabels cfg cfg.InitialBackupLabel)] := by
  have hg := getBackup_eq calls src (roleLabels cfg cfg.InitialBackupLabel)
  rw [hlist] at hg
  change getInitialBackup cfg calls src = _ at hg
  cases h0 : calls.getSourceClient 0 with
  | some err =>
    rw [h0] at hg
    rw [ensureInitialBackup_error cfg calls src err (by rw [hg])] at h2
    simp at h2
  | none =>
    rw [h0] at hg
    cases hl : calls.listBackups with
    | some err =>
      rw [hl] at hg
      rw [ensureInitialBackup_error cfg calls src err (by rw [hg])] at h2
      simp at h2
    | none =>
      rw [hl] at hg
      rw [ensureInitialBackup_found cfg calls src b1 (by rw [hg]; rfl)] at h2
      simp only [Prod.mk.injEq, Except.ok.injEq] at h2
      exact ⟨h2.1.symm, h2.2.1.symm, h2.2.2.symm⟩

theorem ensureStageBackup_again (cfg : TaskEnv) (calls : Calls) (src : Cluster)
    (b1 : Backup) (hlist : src.ListBackups (roleLabels cfg cfg.StageBackupLabel) = [b1])
    (b2 : Backup) (src2 : Cluster) (log2 : List ApiCall)
    (h2 : ensureStageBackup cfg calls src = (.ok b2, src2, log2)) :
    b2 = b1 ∧ src2 = src ∧ log2 = [.listBackups (roleLabels cfg cfg.StageBackupLabel)] := by
  have hg := getBackup_eq calls src (roleLabels cfg cfg.StageBackupLabel)
  rw [hlist] at hg
  change getStageBackup cfg calls src = _ at hg
  cases h0 : calls.getSourceClient 0 with
  | some err =>
    rw [h0] at hg
    rw [ensureStageBackup_error cfg calls src err (by rw [hg])] at h2
    simp at h2
  | none =>
    rw [h0] at hg
    cases hl : calls.listBackups with
    | some err =>
      rw [hl] at hg
      rw [ensureStageBackup_error cfg calls src err (by rw [hg])] at h2
      simp at h2
    | none =>
      rw [hl] at hg
      rw [ensureStageBackup_found cfg calls src b1 (by rw [hg]; rfl)] at h2
      simp only [Prod.mk.injEq, Except.ok.injEq] at h2
      exact ⟨h2.1.symm, h2.2.1.symm, h2.2.2.symm⟩

theorem buildBackup_of_ok (cfg : TaskEnv) (calls : Calls) (h : BackupCallsSucceed calls) :
    ∃ built, buildBackup cfg calls = .ok built := by
  obtain ⟨_, _, h2, h3, _, ⟨ann, ha⟩, ⟨bsl, hb⟩, ⟨vsl, hv⟩, _⟩ := h
  unfold buildBackup getBSL getVSL
  rw [ha, h2, hb, h3, hv]
  exact ⟨_, rfl⟩

/-- With collaborators that succeed, `ensureInitialBackup` on a cluster without an owned
initial backup sends the label query and one `Create` and returns the stored backup. -/
theorem ensureInitialBackup_succeeds (cfg : TaskEnv) (calls : Calls) (src : Cluster)
    (hnone : src.ListBackups (roleLabels cfg cfg.InitialBackupLabel) = [])
    (h : BackupCallsSucceed calls) :
    ∃ b1 nb, ensureInitialBackup cfg calls src =
      (.ok b1, { src with Backups := src.Backups ++ [b1] },
        [.listBackups (roleLabels cfg cfg.InitialBackupLabel), .createBackup nb]) := by
  obtain ⟨built, hbuilt⟩ := buildBackup_of_ok cfg calls h
  obtain ⟨h0, h1, _, _, hl, _, _, _, ⟨suffix, hc⟩⟩ := h
  have hg : getInitialBackup cfg calls src =
      (.ok none, [.listBackups (roleLabels cfg cfg.InitialBackupLabel)]) := by
    show getBackup calls src (roleLabels cfg cfg.InitialBackupLabel) = _
    rw [getBackup_of_ok _ _ _ h0 hl, hnone]; rfl
  unfold ensureInitialBackup
  rw [hg]
  simp only [h1, hbuilt, hc]
  exact ⟨_, _, rfl⟩

/-- With collaborators that succeed, `ensureStageBackup` on a cluster without an owned stage
backup sends the label query and one `Create` and returns the stored backup. -/
theorem ensureStageBackup_succeeds (cfg : TaskEnv) (calls : Calls) (src : Cluster)
    (hnone : src.ListBackups (roleLabels cfg cfg.StageBackupLabel) = [])
    (h : BackupCallsSucceed calls) :
    ∃ b1 nb, ensureStageBackup cfg calls src =
      (.ok b1, { src with Backups := src.Backups ++ [b1] },
        [.listBackups (roleLabels cfg cfg.StageBackupLabel), .createBackup nb]) := by
  obtain ⟨built, hbuilt⟩ := buildBackup_of_ok cfg calls h
  obtain ⟨h0, h1, _, _, hl, _, _, _, ⟨suffix, hc⟩⟩ := h
  have hg : getStageBackup cfg calls src =
      (.ok none, [.listBackups (roleLabels cfg cfg.StageBackupLabel)]) := by
    show getBackup calls src (roleLabels cfg cfg.StageBackupLabel) = _
    rw [getBackup_of_ok _ _ _ h0 hl, hnone]; rfl
  unfold ensureStageBackup
  rw [hg]
  simp only [h1, hbuilt, hc]
  exact ⟨_, _, rfl⟩

theorem resourceLists_of (order0 order1 : SliceOrder) (spec : BackupSpec)
    (included excluded : StringSet) (planExcluded : List String)
    (hi : spec.IncludedResources =
      toStringSlice order0 (included.Difference (toSet planExcluded)))
    (he : spec.ExcludedResources =
      toStringSlice order1 (excluded.Union (toSet planExcluded))) :
    ResourceLists spec included excluded planExcluded := by
  have h1 : ∀ x, x ∈ spec.IncludedResources ↔ x ∈ included.elems ∧ x ∉ planExcluded := by
    intro x
    rw [hi, mem_toStringSlice, mem_Difference, mem_toSet]
  have h2 : ∀ x, x ∈ spec.ExcludedResources ↔ x ∈ excluded.elems ∨ x ∈ planExcluded := by
    intro x
    rw [he, mem_toStringSlice, mem_Union, mem_toSet]
  refine ⟨h1, h2, ?_, ?_, ?_⟩
  · intro x hx
    exact ⟨fun h => ((h1 x).1 h).2 hx, (h2 x).2 (Or.inr hx)⟩
  · rw [hi]; exact nodup_toStringSlice _ _
  · rw [he]; exact nodup_toStringSlice _ _

/-! ## Lemmas: the velero runner task -/

theorem Run_setPhase (steps : RunnerSteps) (t : RunnerTask) (p : String)
    (h : RunEvent.setPhase p ∈ (Run steps t).2) :
    p ∈ [BackupStarted, BackupCompleted, WaitOnBackupReplication, BackupReplicated,
      RestoreStarted, RestoreCompleted, Completed] := by
  revert h
  unfold Run
  simp only []
  repeat' split
  all_goals
    intro h
    simp only [List.mem_append, List.mem_cons, List.mem_singleton, List.not_mem_nil,
      RunEvent.setPhase.injEq, or_false, false_or, reduceCtorEq, List.cons_append,
      List.nil_append] at h <;>
    (simp only [List.mem_cons, List.mem_singleton, List.not_mem_nil, or_false]; tauto)

theorem Run_nil (steps : RunnerSteps) (hk : KeepsPhase steps) (t t' : RunnerTask)
    (h : (Run steps t).1 = some (none, t')) :
    t'.Phase ∈ [Started, WaitOnResticRestart, BackupStarted, WaitOnBackupReplication,
      RestoreStarted] ∨
    (∃ t6, RunPassesAll steps t t6 ∧ t' = { t6 with Phase := Completed }) := by
  revert h
  unfold Run
  simp only []
  repeat' split
  all_goals
    intro h
    simp only [Option.some.injEq, Prod.mk.injEq, reduceCtorEq, false_and, true_and] at h
  · rename_i _ t1 hb hp
    subst h
    left
    simp only [List.mem_cons, List.mem_singleton, List.not_mem_nil, or_false]
    tauto
  · subst h
    left
    simp
  · rename_i _ t1 hb hp _ t2 hr _ t3 he _ backup hbk hph _ t4 hg
    subst h
    left
    have := hk { t3 with Phase := WaitOnBackupReplication }
    rw [hg] at this
    simp only at this
    simp [this]
  · subst h
    left
    simp
  · rename_i _ t1 hb hp _ t2 hr _ t3 he _ backup hbk hph _ rb t4 hg _ t5 hd _ t6 hre _ restore
      hrs hrp
    right
    refine ⟨t6, ⟨t1, t2, t3, t4, t5, backup, rb, restore, hb, ?_, ?_, hr, he, hbk, ?_, hg, hd,
      hre, hrs, ?_⟩, h.symm⟩
    · exact fun e => hp (Or.inl e)
    · exact fun e => hp (Or.inr e)
    · exact not_not.1 hph
    · exact not_not.1 hrp

theorem Run_of_passesAll (steps : RunnerSteps) (t t6 : RunnerTask)
    (h : RunPassesAll steps t t6) :
    Run steps t = (some (none, { t6 with Phase := Completed }),
      [.bounceResticPod, .ensureSrcMigRegistry, .ensureBackup, .setPhase BackupCompleted,
       .setPhase WaitOnBackupReplication, .getReplicatedBackup, .setPhase BackupReplicated,
       .ensureDestMigRegistry, .ensureRestore, .setPhase RestoreCompleted,
       .setPhase Completed]) := by
  obtain ⟨t1, t2, t3, t4, t5, backup, rb, restore, hb, hp1, hp2, hr, he, hbk, hph, hg, hd, hre,
    hrs, hrp⟩ := h
  unfold Run
  rw [hbk] at hg
  simp only [hb, hr, he, hbk, hg, hd, hre, hrs]
  rw [if_neg (not_or.2 ⟨hp1, hp2⟩), if_neg (not_not.2 hph), if_neg (not_not.2 hrp)]
  rfl

theorem Run_ensureRestore (steps : RunnerSteps) (t : RunnerTask)
    (h : RunEvent.ensureRestore ∈ (Run steps t).2) : RunReachesRestore steps t := by
  revert h
  unfold Run
  simp only []
  repeat' split
  all_goals
    intro h
    simp only [List.mem_append, List.mem_cons, List.mem_singleton, List.not_mem_nil,
      or_false, false_or, reduceCtorEq, List.cons_append, List.nil_append, or_self] at h
  all_goals
    first
    | (rename_i _ t1 hb hp _ t2 hr _ t3 he _ backup hbk hph _ rb t4 hg _ _ _ _ _ _ _
       exact ⟨t1, t2, t3, t4, backup, rb, hb, fun e => hp (Or.inl e), fun e => hp (Or.inr e),
         hr, he, hbk, not_not.1 hph, hg⟩)
    | (rename_i _ t1 hb hp _ t2 hr _ t3 he _ backup hbk hph _ rb t4 hg _ _ _ _ _ _ _ _
       exact ⟨t1, t2, t3, t4, backup, rb, hb, fun e => hp (Or.inl e), fun e => hp (Or.inr e),
         hr, he, hbk, not_not.1 hph, hg⟩)
    | (rename_i _ t1 hb hp _ t2 hr _ t3 he _ backup hbk hph _ rb t4 hg _ _ _ _ _ _ _ _ _ _
       exact ⟨t1, t2, t3, t4, backup, rb, hb, fun e => hp (Or.inl e), fun e => hp (Or.inr e),
         hr, he, hbk, not_not.1 hph, hg⟩)
theorem ensureStageRestore_none (cfg : TaskEnv) (calls : Calls) (src dest : Cluster)
    (h : (getStageBackup cfg calls src).1 = .ok none) :
    ensureStageRestore cfg calls src dest =
      (.error "Backup not found", dest, (getStageBackup cfg calls src).2) := by
  unfold ensureStageRestore
  generalize getStageBackup cfg calls src = gb at h ⊢
  obtain ⟨r, log⟩ := gb
  simp only at h
  subst h
  rfl

theorem ensureFinalRestore_none (cfg : TaskEnv) (calls : Calls) (src dest : Cluster)
    (h : (getInitialBackup cfg calls src).1 = .ok none) :
    ensureFinalRestore cfg calls src dest =
      (.error "Backup not found", dest, (getInitialBackup cfg calls src).2) := by
  unfold ensureFinalRestore
  generalize getInitialBackup cfg calls src = gb at h ⊢
  obtain ⟨r, log⟩ := gb
  simp only at h
  subst h
  rfl

theorem ensureStageRestore_error (cfg : TaskEnv) (calls : Calls) (src dest : Cluster)
    (err : Error) (h : (getStageBackup cfg calls src).1 = .error err) :
    ensureStageRestore cfg calls src dest =
      (.error err, dest, (getStageBackup cfg calls src).2) := by
  unfold ensureStageRestore
  generalize getStageBackup cfg calls src = gb at h ⊢
  obtain ⟨r, log⟩ := gb
  simp only at h
  subst h
  rfl

theorem ensureFinalRestore_error (cfg : TaskEnv) (calls : Calls) (src dest : Cluster)
    (err : Error) (h : (getInitialBackup cfg calls src).1 = .error err) :
    ensureFinalRestore cfg calls src dest =
      (.error err, dest, (getInitialBackup cfg calls src).2) := by
  unfold ensureFinalRestore
  generalize getInitialBackup cfg calls src = gb at h ⊢
  obtain ⟨r, log⟩ := gb
  simp only at h
  subst h
  rfl

theorem ensureStageRestore_found (cfg : TaskEnv) (calls : Calls) (src dest : Cluster)
    (backup : Backup) (restore : Restore)
    (h1 : (getStageBackup cfg calls src).1 = .ok (some backup))
    (h2 : (getStageRestore cfg calls dest).1 = .ok (some restore)) :
    ensureStageRestore cfg calls src dest =
      (.ok restore, dest,
        (getStageBackup cfg calls src).2 ++ (getStageRestore cfg calls dest).2) := by
  unfold ensureStageRestore
  generalize getStageBackup cfg calls src = gb at h1 ⊢
  generalize getStageRestore cfg calls dest = gr at h2 ⊢
  obtain ⟨r, log⟩ := gb
  obtain ⟨r2, log2⟩ := gr
  simp only at h1 h2
  subst h1 h2
  rfl

theorem ensureFinalRestore_found (cfg : TaskEnv) (calls : Calls) (src dest : Cluster)
    (backup : Backup) (restore : Restore)
    (h1 : (getInitialBackup cfg calls src).1 = .ok (some backup))
    (h2 : (getFinalRestore cfg calls dest).1 = .ok (some restore)) :
    ensureFinalRestore cfg calls src dest =
      (.ok restore, dest,
        (getInitialBackup cfg calls src).2 ++ (getFinalRestore cfg calls dest).2) := by
  unfold ensureFinalRestore
  generalize getInitialBackup cfg calls src = gb at h1 ⊢
  generalize getFinalRestore cfg calls dest = gr at h2 ⊢
  obtain ⟨r, log⟩ := gb
  obtain ⟨r2, log2⟩ := gr
  simp only at h1 h2
  subst h1 h2
  rfl

/-! ## Lemmas: the progress is rewritten -/

theorem hasBackupCompleted_task (rt : Runtime) (t t' : Task) (backup : Backup)
    (pvbs : List PodVolumeBackup) :
    hasBackupCompleted rt t backup pvbs =
      (hasBackupCompleted rt t' backup pvbs).map
        fun r => ({ t with Progress := r.1.Progress }, r.2) := by
  unfold hasBackupCompleted
  split_ifs
  · rfl
  · cases backup.Status.Progress with
    | none => rfl
    | some p => cases getPodVolumeBackupsProgress rt 1 pvbs <;> rfl
  · cases backup.Status.Progress with
    | none => rfl
    | some p => cases getPodVolumeBackupsProgress rt 0 pvbs <;> rfl
  · rfl
  · cases getPodVolumeBackupsProgress rt 0 pvbs <;> rfl
  · rfl
  · rfl

theorem hasRestoreCompleted_task (rt : Runtime) (t t' : Task) (restore : Restore)
    (pvrs : Option (List PodVolumeRestore)) :
    hasRestoreCompleted rt t restore pvrs =
      (hasRestoreCompleted rt t' restore pvrs).map
        fun r => ({ t with Progress := r.1.Progress }, r.2) := by
  unfold hasRestoreCompleted
  split_ifs
  · rfl
  · cases getPodVolumeRestoresProgress rt 0 pvrs <;> rfl
  · cases getPodVolumeRestoresProgress rt 0 pvrs <;> rfl
  · rfl
  · cases getPodVolumeRestoresProgress rt 0 pvrs <;> rfl
  · rfl
  · rfl

theorem hasBackupCompleted_failing (rt : Runtime) (t : Task) (backup : Backup)
    (pvbs : List PodVolumeBackup) (r : Task × Bool × List String)
    (h : hasBackupCompleted rt t backup pvbs = some r)
    (hp : backup.Status.Phase ∈ [PhaseFailed, PhasePartiallyFailed, PhaseFailedValidation]) :
    r.1.Progress = [] := by
  simp only [List.mem_cons, List.mem_singleton, List.not_mem_nil, or_false] at hp
  rcases hp with hp | hp | hp
  · rw [hasBackupCompleted_failed rt t backup pvbs hp] at h
    cases h; rfl
  · rw [hasBackupCompleted_partiallyFailed rt t backup pvbs hp] at h
    cases hc : getPodVolumeBackupsProgress rt 0 pvbs with
    | none => rw [hc] at h; cases h
    | some c => rw [hc] at h; cases h; rfl
  · rw [hasBackupCompleted_failedValidation rt t backup pvbs hp] at h
    cases h; rfl

theorem hasRestoreCompleted_failing (rt : Runtime) (t : Task) (restore : Restore)
    (pvrs : Option (List PodVolumeRestore)) (r : Task × Bool × List String)
    (h : hasRestoreCompleted rt t restore pvrs = some r)
    (hp : restore.Status.Phase ∈ [PhaseFailed, PhasePartiallyFailed, PhaseFailedValidation]) :
    r.1.Progress = [] := by
  simp only [List.mem_cons, List.mem_singleton, List.not_mem_nil, or_false] at hp
  rcases hp with hp | hp | hp
  · rw [hasRestoreCompleted_failed rt t restore pvrs hp] at h
    cases h; rfl
  · rw [hasRestoreCompleted_partiallyFailed rt t restore pvrs hp] at h
    cases hc : getPodVolumeRestoresProgress rt 0 pvrs with
    | none => rw [hc] at h; cases h
    | some c => rw [hc] at h; cases h; rfl
  · rw [hasRestoreCompleted_failedValidation rt t restore pvrs hp] at h
    cases h; rfl

/-! ## Lemmas: totality of the byte formatter -/

theorem pow1000_bracket_unique (B : Int) (k k' : Nat)
    (h1 : (1000 : Int) ^ k ≤ B) (h2 : B < 1000 ^ (k + 1))
    (h1' : (1000 : Int) ^ k' ≤ B) (h2' : B < 1000 ^ (k' + 1)) : k = k' := by
  by_contra hne
  rcases Nat.lt_or_gt_of_ne hne with hlt | hgt
  · have : (1000 : Int) ^ (k + 1) ≤ 1000 ^ k' := pow_le_pow_right₀ (by norm_num) (by omega)
    linarith
  · have : (1000 : Int) ^ (k' + 1) ≤ 1000 ^ k := pow_le_pow_right₀ (by norm_num) (by omega)
    linarith

/-! ## Claims -/

/-- C1: applied to a restore whose mapping field is unset, `updateNamespaceMapping` leaves the
field unset exactly when no plan entry is `src:dest` with one colon, `dest ≠ src`, `dest ≠ ""`;
otherwise it stores a map (distinct keys) in which `src ↦ dest` holds exactly for the qualifying
entries (the last one per `src`, as a map keeps one value per key), and touches nothing else.
The spec examples evaluate to `{c: d}`, `{src-a: dst-a}` and no mapping field. -/
theorem updateNamespaceMapping_spec (namespaces : List String) (restore : Restore)
    (hfresh : restore.Spec.NamespaceMapping = none) :
    ((updateNamespaceMapping namespaces restore).Spec.NamespaceMapping = none ↔
        ∀ e ∈ namespaces, ∀ s d, ¬ Qualifies e s d) ∧
    (∀ m, (updateNamespaceMapping namespaces restore).Spec.NamespaceMapping = some m →
        (m.map Prod.fst).Nodup ∧ ∀ s d, mapGet m s = some d ↔ LastFor namespaces s d) ∧
    ((updateNamespaceMapping namespaces restore).Spec.NamespaceMapping = none →
        updateNamespaceMapping namespaces restore = restore) ∧
    (∀ m, (updateNamespaceMapping namespaces restore).Spec.NamespaceMapping = some m →
        updateNamespaceMapping namespaces restore =
          { restore with Spec := { restore.Spec with NamespaceMapping := some m } }) ∧
    (updateNamespaceMapping ["a", "b:b", "c:d", "e:"] restore).Spec.NamespaceMapping
        = some [("c", "d")] ∧
    (updateNamespaceMapping ["src-a:dst-a", "shared:shared", "src-b:"] restore).Spec.NamespaceMapping
        = some [("src-a", "dst-a")] ∧
    (updateNamespaceMapping ["a:a"] restore).Spec.NamespaceMapping = none := by
  have key : ∀ l : List String,
      (updateNamespaceMapping l restore).Spec.NamespaceMapping =
        if l.foldl namespaceMappingStep [] = [] then none
        else some (l.foldl namespaceMappingStep []) := by
    intro l
    unfold updateNamespaceMapping mapLen
    by_cases h : l.foldl namespaceMappingStep [] = []
    · simp [h, hfresh]
    · simp [h]
  refine ⟨?_, ?_, ?_, ?_, ?_, ?_, ?_⟩
  · rw [key]
    by_cases h : namespaces.foldl namespaceMappingStep [] = []
    · simp only [h, if_true, true_iff]
      exact ((foldl_namespaceMappingStep_nil namespaces []).1 h).2
    · simp only [h, if_false, false_iff, reduceCtorEq]
      intro hn
      exact h ((foldl_namespaceMappingStep_nil namespaces []).2 ⟨rfl, hn⟩)
  · intro m hm
    rw [key] at hm
    by_cases h : namespaces.foldl namespaceMappingStep [] = []
    · simp [h] at hm
    · simp only [h, if_false, Option.some.injEq] at hm
      subst hm
      refine ⟨foldl_namespaceMappingStep_nodup namespaces [] (by simp), ?_⟩
      intro s d
      rw [foldl_namespaceMappingStep_get]
      simp [mapGet]
  · intro hnone
    rw [key] at hnone
    by_cases h : namespaces.foldl namespaceMappingStep [] = []
    · unfold updateNamespaceMapping mapLen
      simp [h]
    · simp [h] at hnone
  · intro m hm
    rw [key] at hm
    by_cases h : namespaces.foldl namespaceMappingStep [] = []
    · simp [h] at hm
    · simp only [h, if_false, Option.some.injEq] at hm
      subst hm
      unfold updateNamespaceMapping mapLen
      simp [h]
  · rw [key]
    have : (["a", "b:b", "c:d", "e:"] : List String).foldl namespaceMappingStep []
        = [("c", "d")] := by decide
    simp [this]
  · rw [key]
    have : (["src-a:dst-a", "shared:shared", "src-b:"] : List String).foldl
        namespaceMappingStep [] = [("src-a", "dst-a")] := by decide
    simp [this]
  · rw [key]
    have : (["a:a"] : List String).foldl namespaceMappingStep [] = [] := by decide
    simp [this]

/-- Witness of `updateNamespaceMapping_spec` at a restore whose spec was just reset. -/
theorem updateNamespaceMapping_spec_witness :
    (updateRestore [] [] ⟨"Restore", "velero", "", "m-", [], [], ⟨"", none, [], none⟩, ⟨"", []⟩⟩
        "b").Spec.NamespaceMapping = none ∧
    (updateNamespaceMapping ["a", "b:b", "c:d", "e:"]
        (updateRestore [] [] ⟨"Restore", "velero", "", "m-", [], [], ⟨"", none, [], none⟩, ⟨"", []⟩⟩
          "b")).Spec.NamespaceMapping = some [("c", "d")] :=
  ⟨by decide, (updateNamespaceMapping_spec [] _ (by decide)).2.2.2.2.1⟩

/-- C2: whenever `hasBackupCompleted` returns, `completed` is true if and only if the backup
phase is one of Completed, Failed, PartiallyFailed, FailedValidation (so it is false for New,
InProgress and every other phase value), and `reasons` is empty in the phases New, InProgress
and Completed; the call does return whenever the backup and its children carry the fields
that the phase dereferences. The same holds for `hasRestoreCompleted`. -/
theorem hasCompleted_phase_table (rt : Runtime) (t : Task) (backup : Backup)
    (pvbs : List PodVolumeBackup) (restore : Restore) (pvrs : Option (List PodVolumeRestore)) :
    (∀ r, hasBackupCompleted rt t backup pvbs = some r →
      (r.2.1 = true ↔ backup.Status.Phase ∈
        [PhaseCompleted, PhaseFailed, PhasePartiallyFailed, PhaseFailedValidation]) ∧
      (backup.Status.Phase ∈ [PhaseNew, PhaseInProgress, PhaseCompleted] → r.2.2 = [])) ∧
    (BackupReady backup pvbs → ∃ r, hasBackupCompleted rt t backup pvbs = some r) ∧
    (∀ r, hasRestoreCompleted rt t restore pvrs = some r →
      (r.2.1 = true ↔ restore.Status.Phase ∈
        [PhaseCompleted, PhaseFailed, PhasePartiallyFailed, PhaseFailedValidation]) ∧
      (restore.Status.Phase ∈ [PhaseNew, PhaseInProgress, PhaseCompleted] → r.2.2 = [])) ∧
    (RestoreReady restore pvrs → ∃ r, hasRestoreCompleted rt t restore pvrs = some r) :=
  ⟨fun r h => hasBackupCompleted_flags rt t backup pvbs r h,
   hasBackupCompleted_isSome rt t backup pvbs,
   fun r h => hasRestoreCompleted_flags rt t restore pvrs r h,
   hasRestoreCompleted_isSome rt t restore pvrs⟩

/-- C3: for a backup in phase PartiallyFailed, whenever `hasBackupCompleted` returns,
`completed` is true and `reasons` is the header `Backup: <namespace>/<name> partially failed.`
followed by one message per child: the `i`-th message is the spec message of a child whose
key `namespace/name` is the `i`-th smallest key (the only such child when the keys are
pairwise distinct). The call returns whenever the children carry
the timestamps their phase needs. For the children `ns1/p-b` Completed and `ns1/p-a` Failed
the reasons are the header, the `p-a` message, the `p-b` message. -/
theorem hasBackupCompleted_partiallyFailed_reasons (rt : Runtime) (t : Task) (backup : Backup)
    (pvbs : List PodVolumeBackup) (hphase : backup.Status.Phase = PhasePartiallyFailed) :
    (∀ r, hasBackupCompleted rt t backup pvbs = some r →
      r.2.1 = true ∧
      ∃ msgs, r.2.2 =
          ("Backup: " ++ backup.Namespace ++ "/" ++ backup.Name ++ " partially failed.") :: msgs ∧
        msgs.length = pvbs.length ∧
        (sortStrings (pvbs.map pvbKey)).Sorted keyLE ∧
        (sortStrings (pvbs.map pvbKey)).Perm (pvbs.map pvbKey) ∧
        List.Forall₂ (fun k s => ∃ pvb ∈ pvbs, pvbKey pvb = k ∧
            (∃ tick, s = childMessage rt "PodVolumeBackup" "backed up" "backup" tick
              pvb.Namespace pvb.Name pvb.Status) ∧
            ((pvbs.map pvbKey).Nodup → ∀ other ∈ pvbs, pvbKey other = k → other = pvb))
          (sortStrings (pvbs.map pvbKey)) msgs) ∧
    ((∀ pvb ∈ pvbs, pvb.Status.Ready) → ∃ r, hasBackupCompleted rt t backup pvbs = some r) ∧
    hasBackupCompleted rt t (scenarioBackup PhasePartiallyFailed)
        [scenarioCompletedPVB, scenarioFailedPVB] =
      some ({ t with Progress := [] }, true,
        ["Backup: velero/b1 partially failed.",
         "PodVolumeBackup ns1/p-a: Failed (" ++ rt.durationString 10000000000 ++ ")",
         "PodVolumeBackup ns1/p-b: Completed, 5.00 MB backed up (" ++
           rt.durationString 3000000000 ++ ")"]) := by
  refine ⟨?_, ?_, rfl⟩
  · intro r h
    rw [hasBackupCompleted_partiallyFailed rt t backup pvbs hphase] at h
    unfold getPodVolumeBackupsProgress at h
    cases hc : childLoop (pvbSwitch rt) pvbKey pvbs ⟨[], [], Progress.zero, 0⟩ with
    | none => simp only [hc] at h; exact absurd h (by simp)
    | some st =>
      simp only [hc, Option.some.injEq] at h
      subst h
      obtain ⟨hlen, hall⟩ := childLoop_emit (pvbSwitch rt) pvbKey pvbs 0 st hc
      refine ⟨rfl, _, rfl, by rw [List.length_map, hlen], sortStrings_sorted _,
        sortStrings_perm _, ?_⟩
      rw [List.forall₂_map_right_iff]
      refine hall.imp ?_
      rintro k p ⟨pvb, hmem, hkey, tk, msg, t', hsw⟩
      exact ⟨pvb, hmem, hkey, ⟨tk, pvbSwitch_message rt tk msg pvb p t' hsw⟩,
        fun hnodup other hmem' hkey' =>
          List.inj_on_of_nodup_map hnodup hmem' hmem (hkey'.trans hkey.symm)⟩
  · intro hready
    exact hasBackupCompleted_isSome rt t backup pvbs
      ⟨fun hp => by rw [hphase] at hp; exact absurd hp (by decide), fun _ => hready⟩

/-- Witness of `hasBackupCompleted_partiallyFailed_reasons` at spec scenario 3. -/
theorem hasBackupCompleted_partiallyFailed_reasons_witness :
    (scenarioBackup PhasePartiallyFailed).Status.Phase = PhasePartiallyFailed ∧
    hasBackupCompleted scenarioRuntime ⟨"", [], []⟩ (scenarioBackup PhasePartiallyFailed)
        [scenarioCompletedPVB, scenarioFailedPVB] =
      some (⟨"", [], []⟩, true,
        ["Backup: velero/b1 partially failed.",
         "PodVolumeBackup ns1/p-a: Failed (10000000000ns)",
         "PodVolumeBackup ns1/p-b: Completed, 5.00 MB backed up (3000000000ns)"]) :=
  ⟨rfl, (hasBackupCompleted_partiallyFailed_reasons scenarioRuntime ⟨"", [], []⟩
    (scenarioBackup PhasePartiallyFailed) [scenarioCompletedPVB, scenarioFailedPVB] rfl).2.2⟩

/-- C4: for children with pairwise distinct `namespace/name`, given in any order, each child
extractor emits one entry per child, and the `i`-th entry names the `i`-th smallest key; the
sorted key sequence is the same for every ordering of the input list. The extractor returns
whenever the children carry the timestamps their phase needs. -/
theorem childProgress_key_order (rt : Runtime) (tick tick' : Nat)
    (pvbs pvbs' : List PodVolumeBackup) (pvrs pvrs' : List PodVolumeRestore)
    (hb : pvbs.Perm pvbs') (hr : pvrs.Perm pvrs')
    (hbk : (pvbs.map pvbKey).Nodup) (hrk : (pvrs.map pvrKey).Nodup) :
    ((sortStrings (pvbs.map pvbKey)).Sorted keyLE ∧
      (sortStrings (pvbs.map pvbKey)).Perm (pvbs.map pvbKey) ∧
      sortStrings (pvbs'.map pvbKey) = sortStrings (pvbs.map pvbKey) ∧
      (∀ es t, getPodVolumeBackupsProgress rt tick pvbs = some (es, t) →
        EmitsInKeyOrder "PodVolumeBackup" pvbKey pvbs es) ∧
      (∀ es t, getPodVolumeBackupsProgress rt tick' pvbs' = some (es, t) →
        EmitsInKeyOrder "PodVolumeBackup" pvbKey pvbs es) ∧
      ((∀ pvb ∈ pvbs, pvb.Status.Ready) →
        (∃ r, getPodVolumeBackupsProgress rt tick pvbs = some r) ∧
        ∃ r, getPodVolumeBackupsProgress rt tick' pvbs' = some r)) ∧
    ((sortStrings (pvrs.map pvrKey)).Sorted keyLE ∧
      (sortStrings (pvrs.map pvrKey)).Perm (pvrs.map pvrKey) ∧
      sortStrings (pvrs'.map pvrKey) = sortStrings (pvrs.map pvrKey) ∧
      (∀ es t, getPodVolumeRestoresProgress rt tick (some pvrs) = some (es, t) →
        EmitsInKeyOrder "PodVolumeRestore" pvrKey pvrs es) ∧
      (∀ es t, getPodVolumeRestoresProgress rt tick' (some pvrs') = some (es, t) →
        EmitsInKeyOrder "PodVolumeRestore" pvrKey pvrs es) ∧
      ((∀ pvr ∈ pvrs, pvr.Status.Ready) →
        (∃ r, getPodVolumeRestoresProgress rt tick (some pvrs) = some r) ∧
        ∃ r, getPodVolumeRestoresProgress rt tick' (some pvrs') = some r)) := by
  refine ⟨⟨sortStrings_sorted _, sortStrings_perm _,
      sortStrings_eq_of_perm _ _ (hb.symm.map pvbKey),
      fun es t h => getPodVolumeBackupsProgress_order rt tick pvbs hbk es t h, ?_, ?_⟩,
    ⟨sortStrings_sorted _, sortStrings_perm _,
      sortStrings_eq_of_perm _ _ (hr.symm.map pvrKey),
      fun es t h => getPodVolumeRestoresProgress_order rt tick pvrs hrk es t h, ?_, ?_⟩⟩
  · intro es t h
    exact emitsInKeyOrder_perm _ _ _ _ hb es
      (getPodVolumeBackupsProgress_order rt tick' pvbs'
        ((hb.map pvbKey).nodup_iff.1 hbk) es t h)
  · intro hready
    exact ⟨getPodVolumeBackupsProgress_isSome rt tick pvbs hready,
      getPodVolumeBackupsProgress_isSome rt tick' pvbs'
        (fun pvb hp => hready pvb (hb.mem_iff.2 hp))⟩
  · intro es t h
    exact emitsInKeyOrder_perm _ _ _ _ hr es
      (getPodVolumeRestoresProgress_order rt tick' pvrs'
        ((hr.map pvrKey).nodup_iff.1 hrk) es t h)
  · intro hready
    exact ⟨getPodVolumeRestoresProgress_isSome rt tick (some pvrs)
        (fun items hi pvr hp => hready pvr (by cases hi; exact hp)),
      getPodVolumeRestoresProgress_isSome rt tick' (some pvrs')
        (fun items hi pvr hp => hready pvr (by cases hi; exact hr.mem_iff.2 hp))⟩

/-- Witness of `childProgress_key_order` at the children of spec scenario 3, in both orders:
the emitted messages name `ns1/p-a` first and `ns1/p-b` second either way. -/
theorem childProgress_key_order_witness :
    [scenarioCompletedPVB, scenarioFailedPVB].Perm [scenarioFailedPVB, scenarioCompletedPVB] ∧
    [scenarioCompletedPVR, scenarioFailedPVR].Perm [scenarioFailedPVR, scenarioCompletedPVR] ∧
    ([scenarioCompletedPVB, scenarioFailedPVB].map pvbKey).Nodup ∧
    ([scenarioCompletedPVR, scenarioFailedPVR].map pvrKey).Nodup ∧
    sortStrings ([scenarioFailedPVB, scenarioCompletedPVB].map pvbKey) =
      sortStrings ([scenarioCompletedPVB, scenarioFailedPVB].map pvbKey) ∧
    sortStrings ([scenarioCompletedPVB, scenarioFailedPVB].map pvbKey) = ["ns1/p-a", "ns1/p-b"] :=
  ⟨by decide, by decide, by decide, by decide,
   (childProgress_key_order scenarioRuntime 0 0 _ _ _ _
      (by decide :
        [scenarioCompletedPVB, scenarioFailedPVB].Perm [scenarioFailedPVB, scenarioCompletedPVB])
      (by decide :
        [scenarioCompletedPVR, scenarioFailedPVR].Perm [scenarioFailedPVR, scenarioCompletedPVR])
      (by decide) (by decide)).1.2.2.1,
   by decide⟩

/-- C5 (what the code does): every entry that the pod-volume restore extractor emits carries
`Kind`, `Name` and `Namespace` of its own child, in every phase. The pod-volume backup
extractor does so for the phases InProgress, Completed and Failed only: for a waiting child
it keeps `RawProgress` and the timestamps of the loop variable `msg`, so that the stored
entry has no `RawProgress` map when the waiting child comes first, and carries the `Name` of
the previous child (`p-b` instead of `p-c`) when it follows another child. -/
theorem childEntries_rawProgress (rt : Runtime) (tick : Nat) (msg : Progress)
    (pvb : PodVolumeBackup) (pvr : PodVolumeRestore) (pvrs : List PodVolumeRestore) :
    (∀ p t', pvrSwitch rt tick msg pvr = some (p, t') →
      HasOwnRaw p pvr.Kind pvr.Name pvr.Namespace) ∧
    (∀ es t', getPodVolumeRestoresProgress rt tick (some pvrs) = some (es, t') →
      List.Forall₂ (fun k p => ∃ child ∈ pvrs, pvrKey child = k ∧
          NamesKey "PodVolumeRestore" k p.Message ∧
          HasOwnRaw p child.Kind child.Name child.Namespace)
        (sortStrings (pvrs.map pvrKey)) es) ∧
    (∀ p t', pvbSwitch rt tick msg pvb = some (p, t') →
      (pvb.Status.Phase ∈ [PodVolumePhaseInProgress, PodVolumePhaseCompleted,
          PodVolumePhaseFailed] → HasOwnRaw p pvb.Kind pvb.Name pvb.Namespace) ∧
      (pvb.Status.Phase ∉ [PodVolumePhaseInProgress, PodVolumePhaseCompleted,
          PodVolumePhaseFailed] →
        p.RawProgress = msg.RawProgress ∧ p.CreatedTimestamp = msg.CreatedTimestamp ∧
        p.LastUpdated = msg.LastUpdated)) ∧
    (hasBackupCompleted scenarioRuntime ⟨"", [], []⟩ (scenarioBackup PhaseInProgress)
        [scenarioWaitingPVB]).map
        (fun r => r.1.Progress.map (fun p => (p.Message, p.RawProgress))) =
      some [("Backup velero/b1: 4 out of estimated total of 10 objects backed up",
              some [("Kind", "Backup"), ("Name", "b1"), ("Namespace", "velero"),
                    ("ItemsBackedUp", goStringOfInt 4), ("TotalItems", goStringOfInt 10)]),
            ("PodVolumeBackup ns1/p-c: Waiting for ongoing volume backup(s) to complete",
              none)] ∧
    (hasBackupCompleted scenarioRuntime ⟨"", [], []⟩ (scenarioBackup PhaseInProgress)
        [scenarioCompletedPVB, scenarioWaitingPVB]).map
        (fun r => (r.1.Progress.drop 2).map
          (fun p => (p.Message, (p.RawProgress.getD []).lookup "Name"))) =
      some [("PodVolumeBackup ns1/p-c: Waiting for ongoing volume backup(s) to complete",
              some "p-b")] := by
  refine ⟨fun p t' h => pvrSwitch_raw rt tick msg pvr p t' h, ?_,
    fun p t' h => pvbSwitch_raw rt tick msg pvb p t' h, by decide, by decide⟩
  intro es t' h
  unfold getPodVolumeRestoresProgress at h
  cases hc : childLoop (pvrSwitch rt) pvrKey pvrs ⟨[], [], Progress.zero, tick⟩ with
  | none => simp only [hc] at h; exact absurd h (by simp)
  | some st =>
    simp only [hc, Option.some.injEq, Prod.mk.injEq] at h
    rw [← h.1]
    refine (childLoop_emit (pvrSwitch rt) pvrKey pvrs tick st hc).2.imp ?_
    rintro k p ⟨child, hmem, hkey, tk, m0, t0, hsw⟩
    exact ⟨child, hmem, hkey, hkey ▸ pvrSwitch_namesKey rt tk m0 child p t0 hsw,
      pvrSwitch_raw rt tk m0 child p t0 hsw⟩

/-- C6 (what the code does): in every phase the pod-volume backup extractor emits the shared
message shape with `PodVolumeBackup`, `backed up`, `backup`; the pod-volume restore extractor
emits it with `PodVolumeRestore`, `restored`, `restore` in every phase except Failed, where
it emits `Failed, (<duration>)`, with a comma that the shared shape `Failed (<duration>)`
does not have. -/
theorem childMessage_shared_shape (rt : Runtime) (tick : Nat) (msg : Progress)
    (pvb : PodVolumeBackup) (pvr : PodVolumeRestore) :
    (∀ p t', pvbSwitch rt tick msg pvb = some (p, t') →
      p.Message = childMessage rt "PodVolumeBackup" "backed up" "backup" tick
        pvb.Namespace pvb.Name pvb.Status) ∧
    (∀ p t', pvrSwitch rt tick msg pvr = some (p, t') →
      (pvr.Status.Phase ≠ PodVolumePhaseFailed →
        p.Message = childMessage rt "PodVolumeRestore" "restored" "restore" tick
          pvr.Namespace pvr.Name pvr.Status) ∧
      (pvr.Status.Phase = PodVolumePhaseFailed →
        p.Message = "PodVolumeRestore " ++ pvr.Namespace ++ "/" ++ pvr.Name ++ ": Failed, (" ++
          rt.durationString (timeSub (pvr.Status.CompletionTimestamp.getD 0)
            (pvr.Status.StartTimestamp.getD 0)) ++ ")")) ∧
    (pvrSwitch scenarioRuntime 0 Progress.zero scenarioFailedPVR).map (fun r => r.1.Message) =
      some "PodVolumeRestore ns1/p-a: Failed, (10000000000ns)" ∧
    childMessage scenarioRuntime "PodVolumeRestore" "restored" "restore" 0
        scenarioFailedPVR.Namespace scenarioFailedPVR.Name scenarioFailedPVR.Status =
      "PodVolumeRestore ns1/p-a: Failed (10000000000ns)" ∧
    (pvbSwitch scenarioRuntime 0 Progress.zero scenarioFailedPVB).map (fun r => r.1.Message) =
      some "PodVolumeBackup ns1/p-a: Failed (10000000000ns)" :=
  ⟨fun p t' h => pvbSwitch_message rt tick msg pvb p t' h,
   fun p t' h => pvrSwitch_message rt tick msg pvr p t' h,
   by decide, by decide, by decide⟩

/-- C7: for an `int64` value `0 ≤ n < 1000`, `bytesToSI n` is the decimal text of `n` followed by
` bytes`; for `n ≥ 1000` it is a numeric text, a blank and the unit `c ++ "B"`, where `c` is the
`k`-th letter of `kMGTPE` and `k ≥ 1` is the unique exponent with `1000 ^ k ≤ n < 1000 ^ (k + 1)`.
The result carries exactly one unit literal, and the unit index never decreases as `n` grows. -/
theorem bytesToSI_unit (n : Int) (h0 : 0 ≤ n) (hmax : n ≤ maxInt64) :
    (n < 1000 → bytesToSI n = some (Nat.repr n.toNat ++ " bytes")) ∧
    ∃ k num u, k ≤ 6 ∧ (k = 0 ↔ n < 1000) ∧ (1 ≤ k → (1000 : Int) ^ k ≤ n) ∧
      n < 1000 ^ (k + 1) ∧
      (1 ≤ k → ∀ j : Nat, (1000 : Int) ^ j ≤ n → n < 1000 ^ (j + 1) → j = k) ∧
      NumericText num ∧ unitLiterals[k]? = some u ∧
      (1 ≤ k → ∃ c, siUnits.data[k - 1]? = some c ∧ u = String.mk [c, 'B']) ∧
      bytesToSI n = some (num ++ " " ++ u) ∧
      (∀ u' ∈ unitLiterals, u'.data <:+: (num ++ " " ++ u).data ↔ u' = u) ∧
      (∀ n', n ≤ n' → n' ≤ maxInt64 → ∃ k' num' u', k ≤ k' ∧ NumericText num' ∧
        unitLiterals[k']? = some u' ∧ bytesToSI n' = some (num' ++ " " ++ u')) := by
  obtain ⟨k, num, u, hk6, hk0, hk3, hk4, hnum, hu, hc, hrepr, hres⟩ := bytesToSI_shape n h0 hmax
  refine ⟨?_, k, num, u, hk6, hk0, hk3, hk4, ?_, hnum, hu, hc, hres, ?_, ?_⟩
  · intro hsmall
    rw [hres, hrepr (hk0.2 hsmall)]
    have : u = "bytes" := by
      have hk : k = 0 := hk0.2 hsmall
      subst hk
      simpa [unitLiterals] using hu.symm
    rw [this, String.append_assoc]
    rfl
  · intro hk1 j hj1 hj2
    have h1 := hk3 hk1
    by_contra hne
    rcases Nat.lt_or_gt_of_ne hne with hlt | hgt
    · have : (1000 : Int) ^ (j + 1) ≤ 1000 ^ k := pow_le_pow_right₀ (by norm_num) (by omega)
      omega
    · have : (1000 : Int) ^ (k + 1) ≤ 1000 ^ j := pow_le_pow_right₀ (by norm_num) (by omega)
      omega
  · exact unit_carried_iff num u hnum (List.getElem?_mem hu)
  · intro n' hle hmax'
    obtain ⟨k', num', u', _, hk0', hk3', hk4', hnum', hu', _, _, hres'⟩ :=
      bytesToSI_shape n' (le_trans h0 hle) hmax'
    refine ⟨k', num', u', ?_, hnum', hu', hres'⟩
    by_contra hcon
    have hk1 : 1 ≤ k := by omega
    have h1 := hk3 hk1
    have : (1000 : Int) ^ (k' + 1) ≤ 1000 ^ k := pow_le_pow_right₀ (by norm_num) (by omega)
    omega

/-- Witness of `bytesToSI_unit` at `n = 999` (the `bytes` branch). -/
theorem bytesToSI_unit_witness :
    (0 : Int) ≤ 999 ∧ (999 : Int) ≤ maxInt64 ∧ bytesToSI 999 = some "999 bytes" :=
  ⟨by decide, by decide, (bytesToSI_unit 999 (by decide) (by decide)).1 (by decide)⟩

/-- C8 (counterexample): `bytesToSI 1999` is `2.00 kB`, not the truncated `1.99 kB`, and
`bytesToSI 999999` is `1000.00 kB`, not `999.99 kB`: `%.2f` rounds to nearest. -/
theorem bytesToSI_rounds_up :
    bytesToSI 1999 = some "2.00 kB" ∧ bytesToSI 1999 ≠ some "1.99 kB" ∧
    bytesToSI 999999 = some "1000.00 kB" ∧ bytesToSI 999999 ≠ some "999.99 kB" := by
  refine ⟨by decide, by decide, by decide, by decide⟩

/-- C8 (amended): for an `int64` value `n ≥ 1000` with `1000 ^ k ≤ n < 1000 ^ (k + 1)`, the
numeric part of `bytesToSI n` is `h / 100` printed with exactly two decimal digits, where the
number of hundredths `h` is `100 * n / 1000 ^ k` rounded to nearest (within `1/2 + 10⁻⁹`,
the rounding being done on the float64 quotient); so `h` is the truncated number of
hundredths or that number plus one. `bytesToSI 1999` is `2.00 kB` and `bytesToSI 999999` is
`1000.00 kB`. -/
theorem bytesToSI_nearest (n : Int) (h1 : 1000 ≤ n) (h2 : n ≤ maxInt64) :
    (∃ k c h, 1 ≤ k ∧ k ≤ 6 ∧ (1000 : Int) ^ k ≤ n ∧ n < 1000 ^ (k + 1) ∧
      siUnits.data[k - 1]? = some c ∧
      bytesToSI n = some (Nat.repr (h / 100) ++ "." ++
        String.mk [digitChar (h / 10), digitChar h] ++ " " ++ String.mk [c] ++ "B") ∧
      |(h : ℚ) - 100 * (n : ℚ) / 1000 ^ k| ≤ 1 / 2 + 1 / 10 ^ 9 ∧
      100 * n / 1000 ^ k ≤ (h : Int) ∧ (h : Int) ≤ 100 * n / 1000 ^ k + 1) ∧
    bytesToSI 1999 = some "2.00 kB" ∧ bytesToSI 999999 = some "1000.00 kB" := by
  refine ⟨?_, by decide, by decide⟩
  obtain ⟨k, c, hk1, hk6, hk3, hk4, hc, hres⟩ := bytesToSI_large n h1 h2
  have hn0 : 0 ≤ n := by omega
  obtain ⟨N, rfl⟩ := Int.eq_ofNat_of_zero_le hn0
  have hlo : 1000 ^ k ≤ N := by exact_mod_cast hk3
  have hhi : N < 1000 ^ (k + 1) := by exact_mod_cast hk4
  have hnear := hundredths_near N k hk1 hk6 hlo hhi
  simp only [Int.toNat_ofNat] at hres
  refine ⟨k, c, _, hk1, hk6, hk3, hk4, hc, hres, ?_, ?_, ?_⟩
  · have e : (((N : Nat) : Int) : ℚ) = (N : ℚ) := Int.cast_natCast N
    rw [e]
    exact hnear
  · generalize ((roundFloat64 N 1).div (roundFloat64 (1000 ^ k) 1)).hundredths = H at hnear ⊢
    have hY : (0 : ℚ) < (1000 : ℚ) ^ k := by positivity
    have hD : (0 : Int) < 1000 ^ k := by positivity
    rw [abs_le] at hnear
    have hA : 100 * (N : ℚ) < ((H : ℚ) + 1) * 1000 ^ k := by
      have : 100 * (N : ℚ) / 1000 ^ k < (H : ℚ) + 1 := by
        have := hnear.1
        norm_num at this ⊢
        linarith
      rwa [div_lt_iff₀ hY] at this
    have hA' : 100 * (N : Int) < ((H : Int) + 1) * 1000 ^ k := by exact_mod_cast hA
    have hF := Int.ediv_mul_le (100 * (N : Int)) hD.ne'
    have : 100 * (N : Int) / 1000 ^ k < (H : Int) + 1 := by
      by_contra hcon
      have h3 : ((H : Int) + 1) * 1000 ^ k ≤ 100 * (N : Int) / 1000 ^ k * 1000 ^ k :=
        mul_le_mul_of_nonneg_right (not_lt.1 hcon) hD.le
      omega
    omega
  · generalize ((roundFloat64 N 1).div (roundFloat64 (1000 ^ k) 1)).hundredths = H at hnear ⊢
    have hY : (0 : ℚ) < (1000 : ℚ) ^ k := by positivity
    have hD : (0 : Int) < 1000 ^ k := by positivity
    rw [abs_le] at hnear
    have hB : ((H : ℚ) - 1) * 1000 ^ k < 100 * (N : ℚ) := by
      have : (H : ℚ) - 1 < 100 * (N : ℚ) / 1000 ^ k := by
        have := hnear.2
        norm_num at this ⊢
        linarith
      rwa [lt_div_iff₀ hY] at this
    have hB' : ((H : Int) - 1) * 1000 ^ k < 100 * (N : Int) := by exact_mod_cast hB
    have hF := Int.lt_ediv_add_one_mul_self (100 * (N : Int)) hD
    by_contra hcon
    have h3 : (100 * (N : Int) / 1000 ^ k + 1) * 1000 ^ k ≤ ((H : Int) - 1) * 1000 ^ k :=
      mul_le_mul_of_nonneg_right (by omega) hD.le
    omega

/-- Witness of `bytesToSI_nearest` at `n = 1999`. -/
theorem bytesToSI_nearest_witness :
    (1000 : Int) ≤ 1999 ∧ (1999 : Int) ≤ maxInt64 ∧
    ∃ k c h, 1 ≤ k ∧ k ≤ 6 ∧ (1000 : Int) ^ k ≤ 1999 ∧ (1999 : Int) < 1000 ^ (k + 1) ∧
      siUnits.data[k - 1]? = some c ∧
      bytesToSI 1999 = some (Nat.repr (h / 100) ++ "." ++
        String.mk [digitChar (h / 10), digitChar h] ++ " " ++ String.mk [c] ++ "B") ∧
      |(h : ℚ) - 100 * ((1999 : Int) : ℚ) / 1000 ^ k| ≤ 1 / 2 + 1 / 10 ^ 9 ∧
      100 * (1999 : Int) / 1000 ^ k ≤ (h : Int) ∧ (h : Int) ≤ 100 * (1999 : Int) / 1000 ^ k + 1 :=
  ⟨by decide, by decide, (bytesToSI_nearest 1999 (by decide) (by decide)).1⟩

/-- C9 (counterexample): a secret whose `token` entry is present but empty makes `GetToken`
return the empty token without an error. -/
theorem GetToken_empty_token :
    GetToken (.ok (some ⟨[("token", some "")]⟩)) = .ok "" := rfl

/-- C9 (amended): `GetToken` fails exactly when the secret lookup fails, the secret is absent,
or `secret.Data["token"]` is nil (missing key or nil slice); otherwise it returns the text of
the entry without error, the empty text included. -/
theorem GetToken_spec (getSecret : Except Error (Option Secret)) :
    (∀ tok, GetToken getSecret = .ok tok ↔
      ∃ secret, getSecret = .ok (some secret) ∧ secret.lookup "token" = some tok) ∧
    ((∃ err, GetToken getSecret = .error err) ↔
      ((∃ err, getSecret = .error err) ∨ getSecret = .ok none ∨
        ∃ secret, getSecret = .ok (some secret) ∧ secret.lookup "token" = none)) ∧
    (∀ secret : Secret, mapGet secret.Data "token" = none → secret.lookup "token" = none) := by
  refine ⟨?_, ?_, ?_⟩
  · intro tok
    rcases getSecret with err | _ | secret
    · simp [GetToken]
    · simp [GetToken]
    · cases h : secret.lookup "token" <;> simp [GetToken, h]
  · rcases getSecret with err | _ | secret
    · simp [GetToken]
    · simp [GetToken]
    · cases h : secret.lookup "token" <;> simp [GetToken, h]
  · intro secret h
    simp [Secret.lookup, h]

/-- C10: with a probe oracle that raises no error, `HasMigratePermission` returns a map whose
keys are exactly the input namespaces and whose value at a namespace is `true` if and only if
all 28 probes (4 verbs, 7 resources with their groups, name `""`) are allowed there; denying
only `delete pods` in `ns2` for `[ns1, ns2]` yields `{ns1: true, ns2: false}`. -/
theorem HasMigratePermission_spec (allow : Probe → Bool) (namespaces : List String) :
    (∃ authorized,
      (HasMigratePermission (fun p => .ok (allow p)) namespaces).1 = some (.ok authorized) ∧
      (authorized.map Prod.fst).Nodup ∧
      (∀ ns, (∃ b, mapGet authorized ns = some b) ↔ ns ∈ namespaces) ∧
      (∀ ns ∈ namespaces, mapGet authorized ns = some true ↔ AllowedAll allow ns) ∧
      (∀ ns ∈ namespaces, mapGet authorized ns = some false ↔ ¬ AllowedAll allow ns)) ∧
    migrateVerbs.length * migratePairs.length = 28 ∧
    (HasMigratePermission
        (fun p => .ok (!(decide (p.verb = "delete" ∧ p.resource = "pods" ∧ p.ns = "ns2"))))
        ["ns1", "ns2"]).1 = some (.ok [("ns1", true), ("ns2", false)]) := by
  refine ⟨⟨_, namespacesLoop_ok allow namespaces [] [], ?_, ?_, ?_, ?_⟩, rfl, rfl⟩
  · exact foldl_mapSet_nodup _ namespaces [] (by simp)
  · intro ns
    rw [foldl_mapSet_get]
    by_cases h : ns ∈ namespaces <;> simp [h, mapGet]
  · intro ns hns
    rw [foldl_mapSet_get]
    simp only [hns, if_true, Option.some.injEq]
    exact allowedAll_iff allow ns
  · intro ns hns
    rw [foldl_mapSet_get]
    simp only [hns, if_true, Option.some.injEq, ← allowedAll_iff allow ns]
    simp

/-- C11: the probes that `HasMigratePermission` issues split into one segment per namespace
entry reached, in order (every entry is reached when the call returns a map); a segment has at
most 28 probes, is an initial part of the 28 probes of its entry, and every probe in it that
is followed by another one was allowed, so no probe follows a denial (or an error). With only
`delete pods` denied in `ns2`, the probes for `ns2` are exactly the four `pods` probes. -/
theorem HasMigratePermission_probes (canI : Probe → Except Error Bool)
    (namespaces : List String) :
    (∃ segs : List (List Probe),
      (HasMigratePermission canI namespaces).2 = segs.flatten ∧
      segs.length ≤ namespaces.length ∧
      ((∃ m, (HasMigratePermission canI namespaces).1 = some (.ok m)) →
        segs.length = namespaces.length) ∧
      List.Forall₂ (fun ns seg =>
          seg.length ≤ 28 ∧ seg <+: migrateProbes ns ∧
          ∀ pre p post, seg = pre ++ p :: post → post ≠ [] → canI p = .ok true)
        (namespaces.take segs.length) segs) ∧
    (∀ ns, (migrateProbes ns).length = 28 ∧ ∀ p ∈ migrateProbes ns, p.ns = ns) ∧
    (HasMigratePermission scenarioCanI ["ns1", "ns2"]).2.filter (fun p => p.ns = "ns2") =
      [⟨"get", "", "pods", "ns2", ""⟩, ⟨"create", "", "pods", "ns2", ""⟩,
       ⟨"update", "", "pods", "ns2", ""⟩, ⟨"delete", "", "pods", "ns2", ""⟩] := by
  refine ⟨?_, ?_, ?_⟩
  · obtain ⟨segs, h1, h2, h3, h4⟩ := namespacesLoop_log canI namespaces [] []
    refine ⟨segs, by simpa using h1, h2, h4, ?_⟩
    refine h3.imp ?_
    intro ns seg hseg
    subst hseg
    refine ⟨?_, issuedProbes_initial canI _, ?_⟩
    · have := (issuedProbes_initial canI (migrateProbes ns)).length_le
      rwa [migrateProbes_length] at this
    · intro pre p post h hpost
      exact issuedProbes_stop canI _ pre post p h hpost
  · intro ns
    refine ⟨rfl, ?_⟩
    intro p hp
    simp only [migrateProbes, List.mem_flatMap, List.mem_map] at hp
    obtain ⟨gr, _, v, _, rfl⟩ := hp
    rfl
  · decide

/-- C12: idempotence of `ensureInitialBackup` and `ensureStageBackup`, given that the two debug
label keys are not among the lookup labels. From a source cluster on which no backup carries
the correlation labels and the role label, two consecutive successful calls send exactly one
`Create`: the first call stores one backup, the second call returns that backup and leaves the
cluster as it is, and the label query then returns exactly that one item. Such calls exist:
when the collaborators of the first call succeed and the lookup of the second succeeds, the
first call sends the label query and one `Create` and returns the stored backup, and the
second sends the label query alone and returns the same backup. When the lookup succeeds and
the query returns items, ensure returns the first of them and sends no `Create`. -/
theorem ensureBackup_idempotent (cfg : TaskEnv) (calls1 calls2 : Calls) (src : Cluster)
    (hinit : DebugLabelsApart cfg cfg.InitialBackupLabel)
    (hstage : DebugLabelsApart cfg cfg.StageBackupLabel) :
    (∀ b1 src1 log1 b2 src2 log2,
      src.ListBackups (roleLabels cfg cfg.InitialBackupLabel) = [] →
      ensureInitialBackup cfg calls1 src = (.ok b1, src1, log1) →
      ensureInitialBackup cfg calls2 src1 = (.ok b2, src2, log2) →
      b2 = b1 ∧ src2 = src1 ∧ src1.Backups = src.Backups ++ [b1] ∧
      src1.Restores = src.Restores ∧
      (createsOf (log1 ++ log2)).length = 1 ∧ createsOf log2 = [] ∧
      src2.ListBackups (roleLabels cfg cfg.InitialBackupLabel) = [b1]) ∧
    (∀ b1 src1 log1 b2 src2 log2,
      src.ListBackups (roleLabels cfg cfg.StageBackupLabel) = [] →
      ensureStageBackup cfg calls1 src = (.ok b1, src1, log1) →
      ensureStageBackup cfg calls2 src1 = (.ok b2, src2, log2) →
      b2 = b1 ∧ src2 = src1 ∧ src1.Backups = src.Backups ++ [b1] ∧
      src1.Restores = src.Restores ∧
      (createsOf (log1 ++ log2)).length = 1 ∧ createsOf log2 = [] ∧
      src2.ListBackups (roleLabels cfg cfg.StageBackupLabel) = [b1]) ∧
    (∀ b rest, calls1.getSourceClient 0 = none → calls1.listBackups = none →
      src.ListBackups (roleLabels cfg cfg.InitialBackupLabel) = b :: rest →
      ensureInitialBackup cfg calls1 src =
        (.ok b, src, [.listBackups (roleLabels cfg cfg.InitialBackupLabel)])) ∧
    (∀ b rest, calls1.getSourceClient 0 = none → calls1.listBackups = none →
      src.ListBackups (roleLabels cfg cfg.StageBackupLabel) = b :: rest →
      ensureStageBackup cfg calls1 src =
        (.ok b, src, [.listBackups (roleLabels cfg cfg.StageBackupLabel)])) ∧
    (src.ListBackups (roleLabels cfg cfg.InitialBackupLabel) = [] →
      BackupCallsSucceed calls1 →
      calls2.getSourceClient 0 = none → calls2.listBackups = none →
      ∃ b1 nb,
        ensureInitialBackup cfg calls1 src =
          (.ok b1, { src with Backups := src.Backups ++ [b1] },
            [.listBackups (roleLabels cfg cfg.InitialBackupLabel), .createBackup nb]) ∧
        ensureInitialBackup cfg calls2 { src with Backups := src.Backups ++ [b1] } =
          (.ok b1, { src with Backups := src.Backups ++ [b1] },
            [.listBackups (roleLabels cfg cfg.InitialBackupLabel)]) ∧
        Cluster.ListBackups { src with Backups := src.Backups ++ [b1] }
          (roleLabels cfg cfg.InitialBackupLabel) = [b1]) ∧
    (src.ListBackups (roleLabels cfg cfg.StageBackupLabel) = [] →
      BackupCallsSucceed calls1 →
      calls2.getSourceClient 0 = none → calls2.listBackups = none →
      ∃ b1 nb,
        ensureStageBackup cfg calls1 src =
          (.ok b1, { src with Backups := src.Backups ++ [b1] },
            [.listBackups (roleLabels cfg cfg.StageBackupLabel), .createBackup nb]) ∧
        ensureStageBackup cfg calls2 { src with Backups := src.Backups ++ [b1] } =
          (.ok b1, { src with Backups := src.Backups ++ [b1] },
            [.listBackups (roleLabels cfg cfg.StageBackupLabel)]) ∧
        Cluster.ListBackups { src with Backups := src.Backups ++ [b1] }
          (roleLabels cfg cfg.StageBackupLabel) = [b1]) := by
  refine ⟨?_, ?_, ?_, ?_, ?_, ?_⟩
  · intro b1 src1 log1 b2 src2 log2 hnone h1 h2
    obtain ⟨hs1, hc1, hl1⟩ := ensureInitialBackup_fresh cfg calls1 src hinit hnone b1 src1 log1 h1
    obtain ⟨hb, hs2, hlog2⟩ := ensureInitialBackup_again cfg calls2 src1 b1 hl1 b2 src2 log2 h2
    refine ⟨hb, hs2, by rw [hs1], by rw [hs1], ?_, by rw [hlog2]; rfl, by rw [hs2]; exact hl1⟩
    rw [createsOf_append, List.length_append, hc1, hlog2]; rfl
  · intro b1 src1 log1 b2 src2 log2 hnone h1 h2
    obtain ⟨hs1, hc1, hl1⟩ := ensureStageBackup_fresh cfg calls1 src hstage hnone b1 src1 log1 h1
    obtain ⟨hb, hs2, hlog2⟩ := ensureStageBackup_again cfg calls2 src1 b1 hl1 b2 src2 log2 h2
    refine ⟨hb, hs2, by rw [hs1], by rw [hs1], ?_, by rw [hlog2]; rfl, by rw [hs2]; exact hl1⟩
    rw [createsOf_append, List.length_append, hc1, hlog2]; rfl
  · intro b rest h0 hl hlist
    apply ensureInitialBackup_found
    show (getBackup calls1 src (roleLabels cfg cfg.InitialBackupLabel)).1 = _
    rw [getBackup_of_ok _ _ _ h0 hl, hlist]; rfl
  · intro b rest h0 hl hlist
    apply ensureStageBackup_found
    show (getBackup calls1 src (roleLabels cfg cfg.StageBackupLabel)).1 = _
    rw [getBackup_of_ok _ _ _ h0 hl, hlist]; rfl
  · intro hnone hc1 h0 hl
    obtain ⟨b1, nb, h1⟩ := ensureInitialBackup_succeeds cfg calls1 src hnone hc1
    obtain ⟨_, _, hlist⟩ := ensureInitialBackup_fresh cfg calls1 src hinit hnone b1 _ _ h1
    refine ⟨b1, nb, h1, ?_, hlist⟩
    apply ensureInitialBackup_found
    show (getBackup calls2 _ (roleLabels cfg cfg.InitialBackupLabel)).1 = _
    rw [getBackup_of_ok _ _ _ h0 hl, hlist]; rfl
  · intro hnone hc1 h0 hl
    obtain ⟨b1, nb, h1⟩ := ensureStageBackup_succeeds cfg calls1 src hnone hc1
    obtain ⟨_, _, hlist⟩ := ensureStageBackup_fresh cfg calls1 src hstage hnone b1 _ _ h1
    refine ⟨b1, nb, h1, ?_, hlist⟩
    apply ensureStageBackup_found
    show (getBackup calls2 _ (roleLabels cfg cfg.StageBackupLabel)).1 = _
    rw [getBackup_of_ok _ _ _ h0 hl, hlist]; rfl

/-- C12 (witness): scenario 1 on an empty source cluster, whose collaborators all succeed. The
first `ensureInitialBackup` creates the backup `m1-x7k2p`, the second returns it without a
`Create`, and the label query then returns that backup alone; the same holds for
`ensureStageBackup` and the stage backup. -/
theorem ensureBackup_idempotent_witness :
    DebugLabelsApart scenarioEnv scenarioEnv.InitialBackupLabel ∧
    DebugLabelsApart scenarioEnv scenarioEnv.StageBackupLabel ∧
    BackupCallsSucceed scenarioCalls ∧
    ensureInitialBackup scenarioEnv scenarioCalls ⟨[], []⟩ =
      (.ok scenarioInitialBackup, ⟨[scenarioInitialBackup], []⟩,
        [.listBackups (roleLabels scenarioEnv scenarioEnv.InitialBackupLabel),
         .createBackup { scenarioInitialBackup with Name := "" }]) ∧
    ensureInitialBackup scenarioEnv scenarioCalls ⟨[scenarioInitialBackup], []⟩ =
      (.ok scenarioInitialBackup, ⟨[scenarioInitialBackup], []⟩,
        [.listBackups (roleLabels scenarioEnv scenarioEnv.InitialBackupLabel)]) ∧
    Cluster.ListBackups ⟨[scenarioInitialBackup], []⟩
      (roleLabels scenarioEnv scenarioEnv.InitialBackupLabel) = [scenarioInitialBackup] ∧
    ensureStageBackup scenarioEnv scenarioCalls ⟨[], []⟩ =
      (.ok scenarioStageBackup, ⟨[scenarioStageBackup], []⟩,
        [.listBackups (roleLabels scenarioEnv scenarioEnv.StageBackupLabel),
         .createBackup { scenarioStageBackup with Name := "" }]) ∧
    ensureStageBackup scenarioEnv scenarioCalls ⟨[scenarioStageBackup], []⟩ =
      (.ok scenarioStageBackup, ⟨[scenarioStageBackup], []⟩,
        [.listBackups (roleLabels scenarioEnv scenarioEnv.StageBackupLabel)]) ∧
    Cluster.ListBackups ⟨[scenarioStageBackup], []⟩
      (roleLabels scenarioEnv scenarioEnv.StageBackupLabel) = [scenarioStageBackup] :=
  ⟨by decide, by decide,
    ⟨rfl, rfl, rfl, rfl, rfl, ⟨_, rfl⟩, ⟨_, rfl⟩, ⟨_, rfl⟩, ⟨_, rfl⟩⟩, rfl, rfl,
    ((ensureBackup_idempotent scenarioEnv scenarioCalls scenarioCalls ⟨[], []⟩
      (by decide) (by decide)).1 scenarioInitialBackup ⟨[scenarioInitialBackup], []⟩
      [.listBackups (roleLabels scenarioEnv scenarioEnv.InitialBackupLabel),
       .createBackup { scenarioInitialBackup with Name := "" }]
      scenarioInitialBackup ⟨[scenarioInitialBackup], []⟩
      [.listBackups (roleLabels scenarioEnv scenarioEnv.InitialBackupLabel)]
      rfl rfl rfl).2.2.2.2.2.2,
    rfl, rfl,
    ((ensureBackup_idempotent scenarioEnv scenarioCalls scenarioCalls ⟨[], []⟩
      (by decide) (by decide)).2.1 scenarioStageBackup ⟨[scenarioStageBackup], []⟩
      [.listBackups (roleLabels scenarioEnv scenarioEnv.StageBackupLabel),
       .createBackup { scenarioStageBackup with Name := "" }]
      scenarioStageBackup ⟨[scenarioStageBackup], []⟩
      [.listBackups (roleLabels scenarioEnv scenarioEnv.StageBackupLabel)]
      rfl rfl rfl).2.2.2.2.2.2⟩

/-- C13: every backup that `ensureInitialBackup` submits has, as sets, `IncludedResources`
equal to the default initial include set minus the resources the plan excludes and
`ExcludedResources` equal to the default initial exclude set joined with them; no
plan-excluded resource is included, each of them is excluded, and neither list repeats an
element. The same holds for `ensureStageBackup` and the stage sets. The stored backup that a
successful call returns has the submitted spec. In scenario 1 (the plan excludes `imagetags`
and `routes`) the lists of the created backups evaluate as shown. -/
theorem backup_resource_lists (cfg : TaskEnv) (calls : Calls) (src : Cluster) :
    (∀ nb, ApiCall.createBackup nb ∈ (ensureInitialBackup cfg calls src).2.2 →
      ResourceLists nb.Spec cfg.IncludedInitialResources cfg.ExcludedInitialResources
        cfg.ExcludedResources ∧
      ∀ b, (ensureInitialBackup cfg calls src).1 = .ok b → b.Spec = nb.Spec) ∧
    (∀ nb, ApiCall.createBackup nb ∈ (ensureStageBackup cfg calls src).2.2 →
      ResourceLists nb.Spec cfg.IncludedStageResources cfg.ExcludedStageResources
        cfg.ExcludedResources ∧
      ∀ b, (ensureStageBackup cfg calls src).1 = .ok b → b.Spec = nb.Spec) ∧
    ((ensureInitialBackup scenarioEnv scenarioCalls ⟨[], []⟩).1.toOption.map
        (fun b => (b.Spec.IncludedResources, b.Spec.ExcludedResources)) =
      some (["services", "configmaps"], ["pods", "routes", "imagetags"])) ∧
    ((ensureStageBackup scenarioEnv scenarioCalls ⟨[], []⟩).1.toOption.map
        (fun b => (b.Spec.IncludedResources, b.Spec.ExcludedResources)) =
      some (["persistentvolumes"], ["routes", "imagetags"])) := by
  refine ⟨?_, ?_, rfl, rfl⟩
  · intro nb h
    obtain ⟨_, _, _, hi, he, _, heq⟩ := ensureInitialBackup_create cfg calls src nb h
    refine ⟨resourceLists_of _ _ _ _ _ _ hi he, ?_⟩
    intro b hb
    rw [heq] at hb
    cases hc : calls.create with
    | error err => rw [hc] at hb; simp at hb
    | ok suffix =>
      rw [hc] at hb
      simp only [Except.ok.injEq] at hb
      rw [← hb]; rfl
  · intro nb h
    obtain ⟨_, _, _, hi, he, _, heq⟩ := ensureStageBackup_create cfg calls src nb h
    refine ⟨resourceLists_of _ _ _ _ _ _ hi he, ?_⟩
    intro b hb
    rw [heq] at hb
    cases hc : calls.create with
    | error err => rw [hc] at hb; simp at hb
    | ok suffix =>
      rw [hc] at hb
      simp only [Except.ok.injEq] at hb
      rw [← hb]; rfl
/-- C14: when `bounceResticPod` returns no error and leaves a phase other than `Started` and
`WaitOnResticRestart`, and `ensureSrcMigRegistry` and `ensureBackup` return no error, then for
every backup in `t.Backup` whose phase is not `Completed` the run returns without error with
`Phase = BackupStarted`, the task being otherwise as `ensureBackup` left it; it calls neither
`getReplicatedBackup` nor `ensureDestMigRegistry` nor `ensureRestore`. -/
theorem Run_backup_not_completed (steps : RunnerSteps) (t t1 t2 t3 : RunnerTask)
    (backup : Backup)
    (hb : steps.bounceResticPod t = (none, t1))
    (hp : t1.Phase ≠ Started ∧ t1.Phase ≠ WaitOnResticRestart)
    (hr : steps.ensureSrcMigRegistry t1 = (none, t2))
    (he : steps.ensureBackup t2 = (none, t3))
    (hbk : t3.Backup = some backup)
    (hph : backup.Status.Phase ≠ PhaseCompleted) :
    Run steps t = (some (none, { t3 with Phase := BackupStarted }),
      [.bounceResticPod, .ensureSrcMigRegistry, .ensureBackup, .setPhase BackupStarted]) ∧
    RunEvent.getReplicatedBackup ∉ (Run steps t).2 ∧
    RunEvent.ensureDestMigRegistry ∉ (Run steps t).2 ∧
    RunEvent.ensureRestore ∉ (Run steps t).2 := by
  have h : Run steps t = (some (none, { t3 with Phase := BackupStarted }),
      [.bounceResticPod, .ensureSrcMigRegistry, .ensureBackup, .setPhase BackupStarted]) := by
    unfold Run
    simp only [hb, hr, he, hbk]
    rw [if_neg (not_or.2 hp), if_pos hph]
    rfl
  rw [h]
  exact ⟨rfl, by simp, by simp, by simp⟩

/-- C14 (witness): the restic restart is done and the ensured backup is `InProgress`. -/
theorem Run_backup_not_completed_witness :
    Run (scenarioSteps (scenarioBackup "InProgress") true (scenarioRestore "New"))
        ⟨Started, none, none⟩ =
      (some (none, ⟨BackupStarted, some (scenarioBackup "InProgress"), none⟩),
        [.bounceResticPod, .ensureSrcMigRegistry, .ensureBackup, .setPhase BackupStarted]) :=
  (Run_backup_not_completed
    (scenarioSteps (scenarioBackup "InProgress") true (scenarioRestore "New"))
    ⟨Started, none, none⟩ ⟨ResticRestartCompleted, none, none⟩
    ⟨ResticRestartCompleted, none, none⟩
    ⟨ResticRestartCompleted, some (scenarioBackup "InProgress"), none⟩
    (scenarioBackup "InProgress") rfl (by decide) rfl rfl rfl (by decide)).1

/-- C15: given that `getReplicatedBackup` leaves the phase as it is, `Run` returns without
error with `Phase = Completed` exactly when every gate is passed: `bounceResticPod` leaves a
phase other than `Started` and `WaitOnResticRestart`, the backup that `ensureBackup` leaves is
`Completed`, `getReplicatedBackup` finds a backup, and the restore that `ensureRestore` leaves
is `Completed`, no method returning an error; the task is then as `ensureRestore` left it,
with the phase `Completed`. `ensureRestore` is called only in a run in which the backup is
`Completed` and a replicated backup was found. -/
theorem Run_completed_iff (steps : RunnerSteps) (hk : KeepsPhase steps) (t : RunnerTask) :
    ((∃ t', (Run steps t).1 = some (none, t') ∧ t'.Phase = Completed) ↔
      ∃ t6, RunPassesAll steps t t6) ∧
    (∀ t6, RunPassesAll steps t t6 →
      (Run steps t).1 = some (none, { t6 with Phase := Completed })) ∧
    (RunEvent.ensureRestore ∈ (Run steps t).2 → RunReachesRestore steps t) := by
  refine ⟨⟨?_, ?_⟩, ?_, Run_ensureRestore steps t⟩
  · rintro ⟨t', h, hp⟩
    rcases Run_nil steps hk t t' h with hm | ⟨t6, h6, _⟩
    · rw [hp] at hm
      exact absurd hm (by decide)
    · exact ⟨t6, h6⟩
  · rintro ⟨t6, h6⟩
    exact ⟨_, by rw [Run_of_passesAll steps t t6 h6], rfl⟩
  · intro t6 h6
    rw [Run_of_passesAll steps t t6 h6]

/-- C15 (witness): the restic restart is done, backup and restore are `Completed` and the
backup is replicated: the run ends in the phase `Completed`. -/
theorem Run_completed_iff_witness :
    KeepsPhase (scenarioSteps (scenarioBackup "Completed") true (scenarioRestore "Completed")) ∧
    (Run (scenarioSteps (scenarioBackup "Completed") true (scenarioRestore "Completed"))
        ⟨Started, none, none⟩).1 =
      some (none, ⟨Completed, some (scenarioBackup "Completed"),
        some (scenarioRestore "Completed")⟩) ∧
    ∃ t6, RunPassesAll
      (scenarioSteps (scenarioBackup "Completed") true (scenarioRestore "Completed"))
      ⟨Started, none, none⟩ t6 :=
  ⟨fun _ => rfl, rfl,
    (Run_completed_iff
      (scenarioSteps (scenarioBackup "Completed") true (scenarioRestore "Completed"))
      (fun _ => rfl) ⟨Started, none, none⟩).1.1 ⟨_, rfl, rfl⟩⟩

/-- C16: given that `getReplicatedBackup` leaves the phase as it is, after `Run` returns
without error the phase of the task is one of the declared phase constants, whatever the
phase at the start (it is `Started`, `WaitOnResticRestart`, `BackupStarted`,
`WaitOnBackupReplication`, `RestoreStarted` or `Completed`); and every phase that `Run`
itself assigns is a declared constant other than `BackupFailed` and `RestoreFailed`. -/
theorem Run_phase_closure (steps : RunnerSteps) (hk : KeepsPhase steps) (t : RunnerTask) :
    (∀ t', (Run steps t).1 = some (none, t') →
      t'.Phase ∈ declaredPhases ∧
      t'.Phase ∈ [Started, WaitOnResticRestart, BackupStarted, WaitOnBackupReplication,
        RestoreStarted, Completed]) ∧
    (∀ p, RunEvent.setPhase p ∈ (Run steps t).2 →
      p ∈ declaredPhases ∧ p ≠ BackupFailed ∧ p ≠ RestoreFailed) := by
  constructor
  · intro t' h
    have hsub : ∀ p, p ∈ [Started, WaitOnResticRestart, BackupStarted, WaitOnBackupReplication,
        RestoreStarted, Completed] → p ∈ declaredPhases := by
      intro p hp
      simp only [List.mem_cons, List.mem_singleton, List.not_mem_nil, or_false] at hp
      simp only [declaredPhases, List.mem_cons, List.mem_singleton, List.not_mem_nil, or_false]
      tauto
    have hin : t'.Phase ∈ [Started, WaitOnResticRestart, BackupStarted,
        WaitOnBackupReplication, RestoreStarted, Completed] := by
      rcases Run_nil steps hk t t' h with hm | ⟨t6, _, h6⟩
      · simp only [List.mem_cons, List.mem_singleton, List.not_mem_nil, or_false] at hm ⊢
        tauto
      · rw [h6]; simp
    exact ⟨hsub _ hin, hin⟩
  · intro p hp
    have h := Run_setPhase steps t p hp
    simp only [List.mem_cons, List.mem_singleton, List.not_mem_nil, or_false] at h
    refine ⟨?_, ?_, ?_⟩
    · simp only [declaredPhases, List.mem_cons, List.mem_singleton, List.not_mem_nil, or_false]
      tauto
    · rcases h with h | h | h | h | h | h | h <;> rw [h] <;> decide
    · rcases h with h | h | h | h | h | h | h <;> rw [h] <;> decide

/-- C16 (witness): a run from the phase `BackupStarted` whose backup is `Completed` but not
yet replicated ends without error in the declared phase `WaitOnBackupReplication`. -/
theorem Run_phase_closure_witness :
    KeepsPhase (scenarioSteps (scenarioBackup "Completed") false (scenarioRestore "New")) ∧
    (Run (scenarioSteps (scenarioBackup "Completed") false (scenarioRestore "New"))
        ⟨BackupStarted, none, none⟩).1 =
      some (none, ⟨WaitOnBackupReplication, some (scenarioBackup "Completed"), none⟩) ∧
    WaitOnBackupReplication ∈ declaredPhases :=
  ⟨fun _ => rfl, rfl,
    ((Run_phase_closure
      (scenarioSteps (scenarioBackup "Completed") false (scenarioRestore "New"))
      (fun _ => rfl) ⟨BackupStarted, none, none⟩).1
      ⟨WaitOnBackupReplication, some (scenarioBackup "Completed"), none⟩ rfl).1⟩
/-- C17: `isBackupReplicated` on a destination client that could be built: when the `Get`
succeeds it returns `(true, nil)`; when the `Get` fails with a NotFound error it returns
`(false, nil)` and sets `Progress` to exactly one entry, with the message
`Backup <namespace>/<name>: Not replicated`; when the `Get` fails with any other error it
returns `false` and that error. -/
theorem isBackupReplicated_spec (isNotFound : Error → Bool) (t : Task) (backup : Backup) :
    (isBackupReplicated isNotFound none none t backup).2 = (true, none) ∧
    (∀ err, isNotFound err = true →
      (isBackupReplicated isNotFound none (some err) t backup).2 = (false, none) ∧
      ∃ entry, (isBackupReplicated isNotFound none (some err) t backup).1.Progress = [entry] ∧
        entry.Message =
          "Backup " ++ backup.Namespace ++ "/" ++ backup.Name ++ ": Not replicated") ∧
    (∀ err, isNotFound err = false →
      (isBackupReplicated isNotFound none (some err) t backup).2 = (false, some err)) := by
  refine ⟨rfl, ?_, ?_⟩
  · intro err h
    simp [isBackupReplicated, h]
  · intro err h
    simp [isBackupReplicated, h]

/-- C18: `ensureStageRestore` on a source cluster without an owned stage backup fails and
sends no `Create`, whatever the collaborators answer, and the error is `Backup not found`
when the lookup itself succeeds (source client built, label query answered); the same holds
for `ensureFinalRestore` and the initial backup. When the backup lookup finds a backup and the
restore lookup finds an owned restore, that restore (the first item of the query) is returned
and no `Create` is sent. The destination cluster is left as it was in all these cases. In scenario 1 with empty
clusters `ensureStageRestore` fails with `Backup not found` after the one label query. -/
theorem ensureRestore_requires_backup (cfg : TaskEnv) (calls : Calls) (src dest : Cluster) :
    (src.ListBackups (roleLabels cfg cfg.StageBackupLabel) = [] →
      ((∃ err, (ensureStageRestore cfg calls src dest).1 = .error err) ∧
        (ensureStageRestore cfg calls src dest).2.1 = dest ∧
        createsOf (ensureStageRestore cfg calls src dest).2.2 = []) ∧
      (calls.getSourceClient 0 = none → calls.listBackups = none →
        (ensureStageRestore cfg calls src dest).1 = .error "Backup not found")) ∧
    (src.ListBackups (roleLabels cfg cfg.InitialBackupLabel) = [] →
      ((∃ err, (ensureFinalRestore cfg calls src dest).1 = .error err) ∧
        (ensureFinalRestore cfg calls src dest).2.1 = dest ∧
        createsOf (ensureFinalRestore cfg calls src dest).2.2 = []) ∧
      (calls.getSourceClient 0 = none → calls.listBackups = none →
        (ensureFinalRestore cfg calls src dest).1 = .error "Backup not found")) ∧
    (∀ backup restore, (getStageBackup cfg calls src).1 = .ok (some backup) →
      (getStageRestore cfg calls dest).1 = .ok (some restore) →
      (ensureStageRestore cfg calls src dest).1 = .ok restore ∧
      (ensureStageRestore cfg calls src dest).2.1 = dest ∧
      createsOf (ensureStageRestore cfg calls src dest).2.2 = [] ∧
      (dest.ListRestores (roleLabels cfg cfg.StageRestoreLabel)).head? = some restore) ∧
    (∀ backup restore, (getInitialBackup cfg calls src).1 = .ok (some backup) →
      (getFinalRestore cfg calls dest).1 = .ok (some restore) →
      (ensureFinalRestore cfg calls src dest).1 = .ok restore ∧
      (ensureFinalRestore cfg calls src dest).2.1 = dest ∧
      createsOf (ensureFinalRestore cfg calls src dest).2.2 = [] ∧
      (dest.ListRestores (roleLabels cfg cfg.FinalRestoreLabel)).head? = some restore) ∧
    (∀ backup restore, calls.getSourceClient 0 = none → calls.listBackups = none →
      calls.getDestinationClient 0 = none → calls.listRestores = none →
      (src.ListBackups (roleLabels cfg cfg.StageBackupLabel)).head? = some backup →
      (dest.ListRestores (roleLabels cfg cfg.StageRestoreLabel)).head? = some restore →
      (getStageBackup cfg calls src).1 = .ok (some backup) ∧
      (getStageRestore cfg calls dest).1 = .ok (some restore)) ∧
    (∀ backup restore, calls.getSourceClient 0 = none → calls.listBackups = none →
      calls.getDestinationClient 0 = none → calls.listRestores = none →
      (src.ListBackups (roleLabels cfg cfg.InitialBackupLabel)).head? = some backup →
      (dest.ListRestores (roleLabels cfg cfg.FinalRestoreLabel)).head? = some restore →
      (getInitialBackup cfg calls src).1 = .ok (some backup) ∧
      (getFinalRestore cfg calls dest).1 = .ok (some restore)) ∧
    ensureStageRestore scenarioEnv scenarioCalls ⟨[], []⟩ ⟨[], []⟩ =
      (.error "Backup not found", ⟨[], []⟩,
        [.listBackups (roleLabels scenarioEnv scenarioEnv.StageBackupLabel)]) := by
  refine ⟨?_, ?_, ?_, ?_, ?_, ?_, rfl⟩
  · intro h
    constructor
    · rcases getByRole_none calls src _ h with hn | ⟨err, he⟩
      · rw [ensureStageRestore_none cfg calls src dest hn]
        exact ⟨⟨_, rfl⟩, rfl, getBackup_log _ _ _⟩
      · rw [ensureStageRestore_error cfg calls src dest err he]
        exact ⟨⟨_, rfl⟩, rfl, getBackup_log _ _ _⟩
    · intro h0 h1
      have hn : (getStageBackup cfg calls src).1 = .ok none := by
        show (getBackup calls src (roleLabels cfg cfg.StageBackupLabel)).1 = _
        rw [getBackup_of_ok _ _ _ h0 h1, h]; rfl
      rw [ensureStageRestore_none cfg calls src dest hn]
  · intro h
    constructor
    · rcases getByRole_none calls src _ h with hn | ⟨err, he⟩
      · rw [ensureFinalRestore_none cfg calls src dest hn]
        exact ⟨⟨_, rfl⟩, rfl, getBackup_log _ _ _⟩
      · rw [ensureFinalRestore_error cfg calls src dest err he]
        exact ⟨⟨_, rfl⟩, rfl, getBackup_log _ _ _⟩
    · intro h0 h1
      have hn : (getInitialBackup cfg calls src).1 = .ok none := by
        show (getBackup calls src (roleLabels cfg cfg.InitialBackupLabel)).1 = _
        rw [getBackup_of_ok _ _ _ h0 h1, h]; rfl
      rw [ensureFinalRestore_none cfg calls src dest hn]
  · intro backup restore h1 h2
    rw [ensureStageRestore_found cfg calls src dest backup restore h1 h2]
    refine ⟨rfl, rfl, ?_, ?_⟩
    · rw [createsOf_append]
      show createsOf (getBackup _ _ _).2 ++ createsOf (getRestore _ _ _).2 = []
      rw [getBackup_log, getRestore_log]; rfl
    · exact ((getRestore_ok _ _ _ _ h2).2.2.1).symm
  · intro backup restore h1 h2
    rw [ensureFinalRestore_found cfg calls src dest backup restore h1 h2]
    refine ⟨rfl, rfl, ?_, ?_⟩
    · rw [createsOf_append]
      show createsOf (getBackup _ _ _).2 ++ createsOf (getRestore _ _ _).2 = []
      rw [getBackup_log, getRestore_log]; rfl
    · exact ((getRestore_ok _ _ _ _ h2).2.2.1).symm
  · intro backup restore h0 h1 h2 h3 hb hr
    constructor
    · show (getBackup calls src (roleLabels cfg cfg.StageBackupLabel)).1 = _
      rw [getBackup_of_ok _ _ _ h0 h1, hb]
    · show (getRestore calls dest (roleLabels cfg cfg.StageRestoreLabel)).1 = _
      rw [getRestore_of_ok _ _ _ h2 h3, hr]
  · intro backup restore h0 h1 h2 h3 hb hr
    constructor
    · show (getBackup calls src (roleLabels cfg cfg.InitialBackupLabel)).1 = _
      rw [getBackup_of_ok _ _ _ h0 h1, hb]
    · show (getRestore calls dest (roleLabels cfg cfg.FinalRestoreLabel)).1 = _
      rw [getRestore_of_ok _ _ _ h2 h3, hr]
/-- C19 (counterexample): the label query returns the backups `b`, `a` in this order and
`getBackup` returns `b`, not the backup `a` with the smallest name; for the order `a`, `b`
it returns `a`. The same holds for `getRestore`. -/
theorem getOwned_order_dependent :
    (getBackup scenarioCalls ⟨[scenarioOwnedBackup "b", scenarioOwnedBackup "a"], []⟩
        scenarioLabels).1 = .ok (some (scenarioOwnedBackup "b")) ∧
    (getBackup scenarioCalls ⟨[scenarioOwnedBackup "a", scenarioOwnedBackup "b"], []⟩
        scenarioLabels).1 = .ok (some (scenarioOwnedBackup "a")) ∧
    (getRestore scenarioCalls ⟨[], [scenarioOwnedRestore "b", scenarioOwnedRestore "a"]⟩
        scenarioLabels).1 = .ok (some (scenarioOwnedRestore "b")) ∧
    (getRestore scenarioCalls ⟨[], [scenarioOwnedRestore "a", scenarioOwnedRestore "b"]⟩
        scenarioLabels).1 = .ok (some (scenarioOwnedRestore "a")) ∧
    keyLE "a" "b" ∧ ¬ keyLE "b" "a" := by
  refine ⟨rfl, rfl, rfl, rfl, by decide, by decide⟩

/-- C19 (amended): `getBackup` and `getRestore` do not sort: when the client is built and the
label query succeeds they return the first item of the list in the order in which the query
returned it (nothing when the list is empty), otherwise the error. So the result is the same
for two orderings of the returned items when these have the same first item, in particular
when the query returns at most one item. -/
theorem getOwned_first (calls : Calls) (src dest : Cluster) (labels : GoMap String) :
    ((getBackup calls src labels).1 =
      match calls.getSourceClient 0, calls.listBackups with
      | some err, _ => .error err
      | none, some err => .error err
      | none, none => .ok (src.ListBackups labels).head?) ∧
    ((getRestore calls dest labels).1 =
      match calls.getDestinationClient 0, calls.listRestores with
      | some err, _ => .error err
      | none, some err => .error err
      | none, none => .ok (dest.ListRestores labels).head?) ∧
    (∀ src2 : Cluster, (src2.ListBackups labels).Perm (src.ListBackups labels) →
      (src.ListBackups labels).length ≤ 1 →
      (getBackup calls src2 labels).1 = (getBackup calls src labels).1) ∧
    (∀ dest2 : Cluster, (dest2.ListRestores labels).Perm (dest.ListRestores labels) →
      (dest.ListRestores labels).length ≤ 1 →
      (getRestore calls dest2 labels).1 = (getRestore calls dest labels).1) := by
  have perm1 : ∀ {α : Type} (l l2 : List α), l2.Perm l → l.length ≤ 1 → l2 = l := by
    intro α l l2 hp hl
    match l, hl with
    | [], _ => exact List.Perm.eq_nil hp
    | [a], _ => exact List.perm_singleton.1 hp
  refine ⟨?_, ?_, ?_, ?_⟩
  · rw [getBackup_eq]
    cases calls.getSourceClient 0 with
    | some err => rfl
    | none => cases calls.listBackups <;> rfl
  · rw [getRestore_eq]
    cases calls.getDestinationClient 0 with
    | some err => rfl
    | none => cases calls.listRestores <;> rfl
  · intro src2 hp hl
    rw [getBackup_eq, getBackup_eq, perm1 _ _ hp hl]
  · intro dest2 hp hl
    rw [getRestore_eq, getRestore_eq, perm1 _ _ hp hl]
/-- C20: `hasBackupCompleted` and `hasRestoreCompleted` rewrite the task's `Progress`: for any
two tasks `t` and `t'` (in particular two that differ only in their prior `Progress`) the
calls on the same backup or restore, children and clock either both return or both do not,
and the `Progress`, `completed` and `reasons` they end with are equal; the other fields of the
task are kept; `Progress` is empty after the call when the phase is `Failed`,
`PartiallyFailed` or `FailedValidation`; and the calls do return whenever the backup and the
children carry what their phase dereferences. -/
theorem progress_rewritten (rt : Runtime) (t t' : Task) (backup : Backup)
    (pvbs : List PodVolumeBackup) (restore : Restore) (pvrs : Option (List PodVolumeRestore)) :
    ((hasBackupCompleted rt t backup pvbs).map (fun r => (r.1.Progress, r.2)) =
      (hasBackupCompleted rt t' backup pvbs).map (fun r => (r.1.Progress, r.2))) ∧
    ((hasRestoreCompleted rt t restore pvrs).map (fun r => (r.1.Progress, r.2)) =
      (hasRestoreCompleted rt t' restore pvrs).map (fun r => (r.1.Progress, r.2))) ∧
    (∀ r, hasBackupCompleted rt t backup pvbs = some r →
      r.1.Phase = t.Phase ∧ r.1.Errors = t.Errors ∧
      (backup.Status.Phase ∈ [PhaseFailed, PhasePartiallyFailed, PhaseFailedValidation] →
        r.1.Progress = [])) ∧
    (∀ r, hasRestoreCompleted rt t restore pvrs = some r →
      r.1.Phase = t.Phase ∧ r.1.Errors = t.Errors ∧
      (restore.Status.Phase ∈ [PhaseFailed, PhasePartiallyFailed, PhaseFailedValidation] →
        r.1.Progress = [])) ∧
    (BackupReady backup pvbs → ∃ r, hasBackupCompleted rt t backup pvbs = some r) ∧
    (RestoreReady restore pvrs → ∃ r, hasRestoreCompleted rt t restore pvrs = some r) := by
  refine ⟨?_, ?_, ?_, ?_, hasBackupCompleted_isSome rt t backup pvbs,
    hasRestoreCompleted_isSome rt t restore pvrs⟩
  · rw [hasBackupCompleted_task rt t t' backup pvbs]
    cases hasBackupCompleted rt t' backup pvbs <;> rfl
  · rw [hasRestoreCompleted_task rt t t' restore pvrs]
    cases hasRestoreCompleted rt t' restore pvrs <;> rfl
  · intro r h
    have h' := h
    rw [hasBackupCompleted_task rt t t backup pvbs, h] at h'
    refine ⟨?_, ?_, hasBackupCompleted_failing rt t backup pvbs r h⟩
    · simp only [Option.map_some', Option.some.injEq] at h'
      rw [← h']
    · simp only [Option.map_some', Option.some.injEq] at h'
      rw [← h']
  · intro r h
    have h' := h
    rw [hasRestoreCompleted_task rt t t restore pvrs, h] at h'
    refine ⟨?_, ?_, hasRestoreCompleted_failing rt t restore pvrs r h⟩
    · simp only [Option.map_some', Option.some.injEq] at h'
      rw [← h']
    · simp only [Option.map_some', Option.some.injEq] at h'
      rw [← h']

/-- C21: `bytesToSI` is total on the 64-bit signed integers. Every `n < 1000`, negative values
included, takes the `bytes` branch. For every `n ≥ 1000` the loop terminates (with any fuel
above `n / 1000`) in a state `(div, exp)` with `exp ≤ 5` and `div = 1000 ^ (exp + 1)`, the
true power with no wrap-around: it is at most `10 ^ 18`, at most `n`, and an `int64` value;
the lookup `siUnits[exp]` is in range; and the call returns a string. -/
theorem bytesToSI_total (n : Int) (h : IsInt64 n) :
    (∃ s, bytesToSI n = some s) ∧
    (n < 1000 → bytesToSI n = some (toString n ++ " bytes")) ∧
    (1000 ≤ n → ∃ exp c, exp ≤ 5 ∧ siUnits.data[exp]? = some c ∧
      (∀ fuel, (n / 1000).toNat < fuel →
        bytesToSILoop fuel (Int.tdiv n baseUnit) baseUnit 0 = some (1000 ^ (exp + 1), exp)) ∧
      bytesToSILoop n.toNat (Int.tdiv n baseUnit) baseUnit 0 = some (1000 ^ (exp + 1), exp) ∧
      (1000 : Int) ^ (exp + 1) ≤ 10 ^ 18 ∧ (1000 : Int) ^ (exp + 1) ≤ n ∧
      IsInt64 (1000 ^ (exp + 1))) := by
  refine ⟨bytesToSI_isSome n h, bytesToSI_small n, ?_⟩
  intro h1
  have h2 : n ≤ maxInt64 := h.2
  have htd : Int.tdiv n baseUnit = n / 1000 ^ (0 + 1) := by
    rw [Int.tdiv_eq_ediv (by omega) (by decide)]; rfl
  have hspec : ∀ fuel, (n / 1000).toNat < fuel →
      ∃ k, 1 ≤ k ∧ bytesToSILoop fuel (Int.tdiv n baseUnit) baseUnit 0 =
        some (1000 ^ k, k - 1) ∧ (1000 : Int) ^ k ≤ n ∧ n < 1000 ^ (k + 1) := by
    intro fuel hf
    obtain ⟨k, hk1, hk2, hk3, hk4⟩ :=
      bytesToSILoop_spec n h2 fuel 0 (Int.tdiv n baseUnit) htd (by simpa using h1)
        (by rw [htd]; simpa using hf)
    refine ⟨k, by omega, ?_, hk3, hk4⟩
    simp only [zero_add, pow_one] at hk2
    exact hk2
  have hfuel0 : (n / 1000).toNat < n.toNat := by omega
  obtain ⟨k, hk1, hk2, hk3, hk4⟩ := hspec n.toNat hfuel0
  have hk6 : k ≤ 6 := by
    by_contra hcon
    have h7 : (1000 : Int) ^ 7 ≤ 1000 ^ k := pow_le_pow_right₀ (by norm_num) (by omega)
    unfold maxInt64 at h2
    have : (1000 : Int) ^ 7 ≤ 2 ^ 63 - 1 := le_trans h7 (le_trans hk3 h2)
    norm_num at this
  have hlen : k - 1 < siUnits.data.length := by
    have : siUnits.data.length = 6 := by decide
    omega
  have hk : k - 1 + 1 = k := by omega
  have hpow : (1000 : Int) ^ k ≤ 10 ^ 18 := by
    have : (1000 : Int) ^ k ≤ 1000 ^ 6 := pow_le_pow_right₀ (by norm_num) hk6
    norm_num at this ⊢
    exact this
  refine ⟨k - 1, siUnits.data[k - 1], by omega, List.getElem?_eq_getElem hlen, ?_, ?_, ?_, ?_,
    ?_⟩
  · intro fuel hf
    obtain ⟨k', hk1', hk2', hk3', hk4'⟩ := hspec fuel hf
    have : k = k' := pow1000_bracket_unique n k k' hk3 hk4 hk3' hk4'
    subst this
    rw [hk]; exact hk2'
  · rw [hk]; exact hk2
  · rw [hk]; exact hpow
  · rw [hk]; exact hk3
  · rw [hk]
    constructor
    · unfold minInt64; have := pow1000_pos k; omega
    · unfold maxInt64; exact le_trans hpow (by norm_num)

/-- C21 (witness): the largest and the smallest `int64` value; for the largest the loop ends
with the divisor `10 ^ 18` and the exponent 5. -/
theorem bytesToSI_total_witness :
    IsInt64 maxInt64 ∧ IsInt64 minInt64 ∧
    (∃ s, bytesToSI maxInt64 = some s) ∧
    bytesToSI minInt64 = some (toString minInt64 ++ " bytes") ∧
    bytesToSILoop 7 (Int.tdiv maxInt64 baseUnit) baseUnit 0 = some (10 ^ 18, 5) :=
  ⟨by decide, by decide, (bytesToSI_total maxInt64 (by decide)).1,
    (bytesToSI_total minInt64 (by decide)).2.1 (by decide), by decide⟩

end MigController
